import Mathlib

/-!
# CHIP-8 interpreter: a shallow embedding of `chip8.cc` and `chip8.cpp`

The repository holds two copies of the interpreter core:

* `chip8.cc` / `chip8.h`   : call stack is `std::array<uint16_t, 16>` plus `sp`
  (namespace `ArrayStack`);
* `chip8.cpp` / `chip8.hpp`: call stack is `std::stack<uint16_t>`
  (namespace `StdStack`).

Modelling conventions.

* A `std::array<T, N>` is a total map `Nat → T`; only the indices below `N` are
  meaningful.  Every subscript the code performs is checked against `N`
  explicitly, and an out-of-range subscript (undefined behaviour in C++) makes
  the operation return `none`.
* `uint8_t` / `uint16_t` values are natural numbers; every store truncates with
  `u8` / `u16` (or `u8i` / `u16i` when the stored `int` may be negative).
  `Chip8.WF` says that the values held by a state fit their C++ types.
* The random byte drawn by `Cxkk` is an argument of `execute_instruction`.
* The file contents read by `load_rom` are an argument (a list of bytes).  The
  `std::copy` of `load_rom` is no subscript and has no test: it stores every
  byte, byte `i` at `memory.begin() + 512 + i`, and returns.  A byte stored
  behind the end of the array is kept under its address `a ≥ 4096` in the map
  `memory`; no subscript `memory[...]` in range reaches it, and the model does
  not alias it with the members that follow `memory` in the object.
-/

/-! ## Constants shared by `chip8.h` and `chip8.hpp` -/

/-- Number of bytes in a 4K memory. -/
abbrev MEMORY_SIZE : Nat := 4096
/-- Number of layers on the stack. -/
abbrev STACK_SIZE : Nat := 16
/-- Size of a 32 * 64 pixel screen. -/
abbrev DISPLAY_SIZE : Nat := 2048
/-- Number of general-purpose registers. -/
abbrev NUM_REGISTERS : Nat := 16
/-- Number of keys on the keypad. -/
abbrev NUM_KEYS : Nat := 16

/-- Conversion of a non-negative `int` to `uint8_t`. -/
def u8 (n : Nat) : Nat := n % 256
/-- Conversion of a non-negative `int` to `uint16_t`. -/
def u16 (n : Nat) : Nat := n % 65536
/-- Conversion of a possibly negative `int` to `uint8_t`. -/
def u8i (z : Int) : Nat := (z % 256).toNat
/-- Conversion of a possibly negative `int` to `uint16_t`. -/
def u16i (z : Int) : Nat := (z % 65536).toNat
/-- Conversion of `bool` to an integer. -/
def b2n (b : Bool) : Nat := if b then 1 else 0

/-- Array store `a[i] = v` (the bound on `i` is checked by the caller). -/
def aset {α : Type} (a : Nat → α) (i : Nat) (v : α) : Nat → α :=
  fun k => if k = i then v else a k

/-- The default font set, 16 glyphs of 5 bytes (`FONTSET` in `chip8.cc`,
`fontset` in `chip8.hpp`). -/
def FONTSET : List Nat :=
  [0xF0, 0x90, 0x90, 0x90, 0xF0,
   0x20, 0x60, 0x20, 0x20, 0x70,
   0xF0, 0x10, 0xF0, 0x80, 0xF0,
   0xF0, 0x10, 0xF0, 0x10, 0xF0,
   0x90, 0x90, 0xF0, 0x10, 0x10,
   0xF0, 0x80, 0xF0, 0x10, 0xF0,
   0xF0, 0x80, 0xF0, 0x90, 0xF0,
   0xF0, 0x10, 0x20, 0x40, 0x40,
   0xF0, 0x90, 0xF0, 0x90, 0xF0,
   0xF0, 0x90, 0xF0, 0x10, 0xF0,
   0xF0, 0x90, 0xF0, 0x90, 0x90,
   0xE0, 0x90, 0xE0, 0x90, 0xE0,
   0xF0, 0x80, 0x80, 0x80, 0xF0,
   0xE0, 0x90, 0x90, 0x90, 0xE0,
   0xF0, 0x80, 0xF0, 0x80, 0xF0,
   0xF0, 0x80, 0xF0, 0x80, 0x80]

/-- Address of the first instruction in memory (`INSTR_START` in `chip8.cc`,
`PROGRAM_START` in `chip8.cpp`). -/
abbrev INSTR_START : Nat := 512

/-- `std::copy(src.begin(), src.end(), memory.begin() + off)`: the bytes of `src`
land at `off, off + 1, ...`. -/
def copyInto (mem : Nat → Nat) (off : Nat) (src : List Nat) : Nat → Nat :=
  fun a => if off ≤ a ∧ a < off + src.length then src.getD (a - off) 0 else mem a

/-! ## `chip8.cc`: the array-stack variant -/

namespace ArrayStack

/-- The data members of `class Chip8` in `chip8.h` (the generator `mt` is
replaced by the random byte handed to `execute_instruction`). -/
structure Chip8 where
  stack : Nat → Nat
  memory : Nat → Nat
  display : Nat → Nat
  registers : Nat → Nat
  keys : Nat → Bool
  sp : Nat
  pc : Nat
  index : Nat
  delay_timer : Nat
  sound_timer : Nat
  draw_flag : Bool

namespace Chip8

/-- Every value of the state fits its C++ type. -/
def WF (s : Chip8) : Prop :=
  (∀ k, k < STACK_SIZE → s.stack k < 65536) ∧
  (∀ a, a < MEMORY_SIZE → s.memory a < 256) ∧
  (∀ c, c < DISPLAY_SIZE → s.display c < 256) ∧
  (∀ r, r < NUM_REGISTERS → s.registers r < 256) ∧
  s.sp < 65536 ∧ s.pc < 65536 ∧ s.index < 65536 ∧
  s.delay_timer < 256 ∧ s.sound_timer < 256

/-- The constructor `Chip8::Chip8()`: everything zero, `pc = INSTR_START`, the
font set copied to the start of memory. -/
def new : Chip8 where
  stack := fun _ => 0
  memory := copyInto (fun _ => 0) 0 FONTSET
  display := fun _ => 0
  registers := fun _ => 0
  keys := fun _ => false
  sp := 0
  pc := INSTR_START
  index := 0
  delay_timer := 0
  sound_timer := 0
  draw_flag := false

/-- `Chip8::load_rom`, with the contents of the file as `buffer`: the single
statement `std::copy(buffer.begin(), buffer.end(), memory.begin() + INSTR_START)`.
There is no length test and no failure path: every byte is stored, byte `i` at
`memory.begin() + 512 + i`, and the call returns, so the result is always `some`
(the type composes with `run`).  For a buffer of more than 3584 bytes the bytes
from number 3584 on are stored behind the end of the array, at the addresses
`a ≥ 4096` of the map `memory`. -/
def load_rom (buffer : List Nat) (s : Chip8) : Option Chip8 :=
  some { s with memory := copyInto s.memory INSTR_START buffer }

/-- One iteration of the inner loop of `Dxyn` (bit `j` of sprite row `i`). -/
def draw_bit (x y pixel i : Nat) (s : Chip8) (j : Nat) : Option Chip8 :=
  if pixel &&& (0x80 >>> j) ≠ 0 then
    let pos := u16 (s.registers x + j + ((s.registers y + i) * 64))
    if pos < DISPLAY_SIZE then
      let s1 := { s with registers := aset s.registers 0xF (s.display pos) }
      some { s1 with display := aset s1.display pos (u8 (s1.display pos ^^^ 1)) }
    else none
  else some s

/-- One iteration of the outer loop of `Dxyn` (sprite row `i`). -/
def draw_row (x y : Nat) (s : Chip8) (i : Nat) : Option Chip8 :=
  if s.index + i < MEMORY_SIZE then
    let pixel := s.memory (s.index + i)
    (List.range 8).foldlM (draw_bit x y pixel i) s
  else none

/-- One iteration of the loop of `Fx55`. -/
def store_reg (s : Chip8) (i : Nat) : Option Chip8 :=
  if s.index + i < MEMORY_SIZE then
    some { s with memory := aset s.memory (s.index + i) (s.registers i) }
  else none

/-- One iteration of the loop of `Fx65`. -/
def load_reg (s : Chip8) (i : Nat) : Option Chip8 :=
  if s.index + i < MEMORY_SIZE then
    some { s with registers := aset s.registers i (s.memory (s.index + i)) }
  else none

/-- The `8xyN` family of `Chip8::execute_instruction` in `chip8.cc`; every case
writes `registers[0xF]` first and `registers[x]` second. -/
def exec_8 (x y n : Nat) (s : Chip8) : Chip8 :=
  if n = 0x0 then { s with registers := aset s.registers x (s.registers y) }
  else if n = 0x1 then
    { s with registers := aset s.registers x (s.registers x ||| s.registers y) }
  else if n = 0x2 then
    { s with registers := aset s.registers x (s.registers x &&& s.registers y) }
  else if n = 0x3 then
    { s with registers := aset s.registers x (s.registers x ^^^ s.registers y) }
  else if n = 0x4 then
    let r1 := aset s.registers 0xF (b2n (s.registers x + s.registers y > 0xFF))
    { s with registers := aset r1 x (u8 (r1 x + r1 y)) }
  else if n = 0x5 then
    let r1 := aset s.registers 0xF (b2n (s.registers y > s.registers x))
    { s with registers := aset r1 x (u8i ((r1 x : Int) - (r1 y : Int))) }
  else if n = 0x6 then
    let r1 := aset s.registers 0xF (s.registers x &&& 1)
    { s with registers := aset r1 x (u8 (r1 x >>> 1)) }
  else if n = 0x7 then
    let r1 := aset s.registers 0xF (b2n (s.registers x > s.registers y))
    { s with registers := aset r1 x (u8i ((r1 y : Int) - (r1 x : Int))) }
  else if n = 0xE then
    let r1 := aset s.registers 0xF (u8 (s.registers x >>> 7))
    { s with registers := aset r1 x (u8 (r1 x <<< 1)) }
  else s

/-- The `FxKK` family of `Chip8::execute_instruction` in `chip8.cc`. -/
def exec_F (x kk : Nat) (s : Chip8) : Option Chip8 :=
  if kk = 0x07 then some { s with registers := aset s.registers x s.delay_timer }
  else if kk = 0x0A then
    match (List.range NUM_KEYS).find? (fun i => s.keys i) with
    | some i => some { s with registers := aset s.registers x (b2n (s.keys i)) }
    | none => some { s with pc := u16i ((s.pc : Int) - 2) }
  else if kk = 0x15 then some { s with delay_timer := s.registers x }
  else if kk = 0x18 then some { s with sound_timer := s.registers x }
  else if kk = 0x1E then some { s with index := u16 (s.index + s.registers x) }
  else if kk = 0x29 then some { s with index := u16 (s.registers x * 5) }
  else if kk = 0x33 then
    if s.index + 2 < MEMORY_SIZE then
      let m1 := aset s.memory s.index (u8 (s.registers x / 100))
      let m2 := aset m1 (s.index + 1) (u8 ((s.registers x / 10) % 10))
      some { s with memory := aset m2 (s.index + 2) (u8 (s.registers x % 10)) }
    else none
  else if kk = 0x55 then (List.range (x + 1)).foldlM store_reg s
  else if kk = 0x65 then (List.range (x + 1)).foldlM load_reg s
  else some s

/-- `Chip8::execute_instruction` of `chip8.cc`: fetch the big-endian opcode at
`pc`, advance `pc` by 2, decode and execute.  `rnd` is the byte drawn from the
generator by `Cxkk`. -/
def execute_instruction (rnd : Nat) (s0 : Chip8) : Option Chip8 :=
  if s0.pc + 1 < MEMORY_SIZE then
    let opcode := u16 ((s0.memory s0.pc <<< 8) ||| s0.memory (s0.pc + 1))
    let s := { s0 with pc := u16 (s0.pc + 2) }
    let x := (opcode &&& 0x0F00) >>> 8
    let y := (opcode &&& 0x00F0) >>> 4
    let n := opcode &&& 0x000F
    let kk := opcode &&& 0x00FF
    let nnn := opcode &&& 0x0FFF
    let op := opcode &&& 0xF000
    if op = 0x0000 then
      if opcode = 0x00E0 then some { s with display := fun _ => 0, draw_flag := true }
      else if opcode = 0x00EE then
        let sp1 := u16i ((s.sp : Int) - 1)
        if sp1 < STACK_SIZE then some { s with sp := sp1, pc := s.stack sp1 } else none
      else some s
    else if op = 0x1000 then some { s with pc := nnn }
    else if op = 0x2000 then
      if s.sp < STACK_SIZE then
        some { s with stack := aset s.stack s.sp s.pc, sp := u16 (s.sp + 1), pc := nnn }
      else none
    else if op = 0x3000 then
      if s.registers x = kk then some { s with pc := u16 (s.pc + 2) } else some s
    else if op = 0x4000 then
      if s.registers x ≠ kk then some { s with pc := u16 (s.pc + 2) } else some s
    else if op = 0x5000 then
      if s.registers x = s.registers y then some { s with pc := u16 (s.pc + 2) } else some s
    else if op = 0x6000 then some { s with registers := aset s.registers x (u8 kk) }
    else if op = 0x7000 then
      some { s with registers := aset s.registers x (u8 (s.registers x + kk)) }
    else if op = 0x8000 then some (exec_8 x y n s)
    else if op = 0x9000 then
      if s.registers x ≠ s.registers y then some { s with pc := u16 (s.pc + 2) } else some s
    else if op = 0xA000 then some { s with index := nnn }
    else if op = 0xB000 then some { s with pc := u16 (nnn + s.registers 0) }
    else if op = 0xC000 then some { s with registers := aset s.registers x (u8 (rnd &&& kk)) }
    else if op = 0xD000 then
      let s1 := { s with registers := aset s.registers 0xF 0 }
      ((List.range n).foldlM (draw_row x y) s1).map (fun s2 => { s2 with draw_flag := true })
    else if op = 0xE000 then
      if kk = 0x9E then
        if s.registers x < NUM_KEYS then
          if s.keys (s.registers x) then some { s with pc := u16 (s.pc + 2) } else some s
        else none
      else if kk = 0xA1 then
        if s.registers x < NUM_KEYS then
          if !s.keys (s.registers x) then some { s with pc := u16 (s.pc + 2) } else some s
        else none
      else some s
    else if op = 0xF000 then exec_F x kk s
    else some s
  else none

/-- `Chip8::decrement_timers`. -/
def decrement_timers (s : Chip8) : Chip8 :=
  let s1 := if s.delay_timer > 0 then { s with delay_timer := u8i ((s.delay_timer : Int) - 1) } else s
  if s1.sound_timer > 0 then { s1 with sound_timer := u8i ((s1.sound_timer : Int) - 1) } else s1

/-- `Chip8::pixel_state`. -/
def pixel_state (s : Chip8) (pixel : Nat) : Option Nat :=
  if pixel < DISPLAY_SIZE then some (s.display pixel) else none

/-- `Chip8::handle_keypress`. -/
def handle_keypress (key : Nat) (s : Chip8) : Option Chip8 :=
  if key < NUM_KEYS then some { s with keys := aset s.keys key (!s.keys key) } else none

/-- `Chip8::get_draw_flag`. -/
def get_draw_flag (s : Chip8) : Bool := s.draw_flag

/-- `Chip8::set_draw_flag`. -/
def set_draw_flag (state : Bool) (s : Chip8) : Chip8 := { s with draw_flag := state }

/-- Run `execute_instruction` on each random byte of `rnds` in turn. -/
def run (rnds : List Nat) (s : Chip8) : Option Chip8 :=
  rnds.foldlM (fun st r => execute_instruction r st) s

end Chip8

end ArrayStack

/-! ## `chip8.cpp`: the `std::stack` variant -/

namespace StdStack

/-- The data members of `class Chip8` in `chip8.hpp` (the generator `gen` is
replaced by the random byte handed to `execute_instruction`; `fontset` is the
constant `FONTSET`).  The head of `stack` is the top of the `std::stack`. -/
structure Chip8 where
  memory : Nat → Nat
  pixels : Nat → Nat
  registers : Nat → Nat
  keys : Nat → Bool
  stack : List Nat
  pc : Nat
  index : Nat
  delay_timer : Nat
  sound_timer : Nat
  draw_flag : Bool

namespace Chip8

/-- Every value of the state fits its C++ type. -/
def WF (s : Chip8) : Prop :=
  (∀ a, a < MEMORY_SIZE → s.memory a < 256) ∧
  (∀ c, c < DISPLAY_SIZE → s.pixels c < 256) ∧
  (∀ r, r < NUM_REGISTERS → s.registers r < 256) ∧
  (∀ v ∈ s.stack, v < 65536) ∧
  s.pc < 65536 ∧ s.index < 65536 ∧
  s.delay_timer < 256 ∧ s.sound_timer < 256

/-- The constructor `Chip8::Chip8()`: everything zero, `pc = PROGRAM_START`, the
font set copied to the start of memory. -/
def new : Chip8 where
  memory := copyInto (fun _ => 0) 0 FONTSET
  pixels := fun _ => 0
  registers := fun _ => 0
  keys := fun _ => false
  stack := []
  pc := INSTR_START
  index := 0
  delay_timer := 0
  sound_timer := 0
  draw_flag := false

/-- `Chip8::load_rom`, with the contents of the file as `buffer`: the single
statement `std::copy(buffer.begin(), buffer.end(), memory.begin() + PROGRAM_START)`.
There is no length test and no failure path: every byte is stored, byte `i` at
`memory.begin() + 512 + i`, and the call returns, so the result is always `some`
(the type composes with `run`).  For a buffer of more than 3584 bytes the bytes
from number 3584 on are stored behind the end of the array, at the addresses
`a ≥ 4096` of the map `memory`. -/
def load_rom (buffer : List Nat) (s : Chip8) : Option Chip8 :=
  some { s with memory := copyInto s.memory INSTR_START buffer }

/-- The framebuffer index `coord` computed by `Dxyn` in `chip8.cpp`:
`x_pos + j + ((y_pos + i) * 64) % 2048`, stored in a `uint16_t`. -/
def coord (x_pos y_pos i j : Nat) : Nat :=
  u16 (x_pos + j + ((y_pos + i) * 64) % 2048)

/-- One iteration of the inner loop of `Dxyn` (bit `j` of sprite row `i`). -/
def draw_bit (x_pos y_pos pixel i : Nat) (s : Chip8) (j : Nat) : Option Chip8 :=
  if pixel &&& (0x80 >>> j) ≠ 0 then
    let c := coord x_pos y_pos i j
    if c < DISPLAY_SIZE then
      let s1 := if s.pixels c = 1 then { s with registers := aset s.registers 0xF 1 } else s
      some { s1 with pixels := aset s1.pixels c (u8 (s1.pixels c ^^^ 1)) }
    else none
  else some s

/-- One iteration of the outer loop of `Dxyn` (sprite row `i`). -/
def draw_row (x_pos y_pos : Nat) (s : Chip8) (i : Nat) : Option Chip8 :=
  if s.index + i < MEMORY_SIZE then
    let pixel := s.memory (s.index + i)
    (List.range 8).foldlM (draw_bit x_pos y_pos pixel i) s
  else none

/-- One iteration of the loop of `Fx55`. -/
def store_reg (s : Chip8) (i : Nat) : Option Chip8 :=
  if s.index + i < MEMORY_SIZE then
    some { s with memory := aset s.memory (s.index + i) (s.registers i) }
  else none

/-- One iteration of the loop of `Fx65`. -/
def load_reg (s : Chip8) (i : Nat) : Option Chip8 :=
  if s.index + i < MEMORY_SIZE then
    some { s with registers := aset s.registers i (s.memory (s.index + i)) }
  else none

/-- The `8xyN` family of `Chip8::execute_instruction` in `chip8.cpp`; the
arithmetic and shift cases write `registers[x]` first and `registers[0xF]`
second, the latter from the registers as they are after the first write. -/
def exec_8 (x y n : Nat) (s : Chip8) : Chip8 :=
  if n = 0x0 then { s with registers := aset s.registers x (s.registers y) }
  else if n = 0x1 then
    { s with registers := aset s.registers x (s.registers x ||| s.registers y) }
  else if n = 0x2 then
    { s with registers := aset s.registers x (s.registers x &&& s.registers y) }
  else if n = 0x3 then
    { s with registers := aset s.registers x (s.registers x ^^^ s.registers y) }
  else if n = 0x4 then
    let r1 := aset s.registers x (u8 (s.registers x + s.registers y))
    { s with registers := aset r1 0xF (b2n (r1 x + r1 y > 0xFF)) }
  else if n = 0x5 then
    let r1 := aset s.registers x (u8i ((s.registers x : Int) - (s.registers y : Int)))
    { s with registers := aset r1 0xF (b2n (r1 x > r1 y)) }
  else if n = 0x6 then
    let r1 := aset s.registers x (u8 (s.registers x >>> 1))
    { s with registers := aset r1 0xF (r1 x &&& 1) }
  else if n = 0x7 then
    let r1 := aset s.registers x (u8i ((s.registers y : Int) - (s.registers x : Int)))
    { s with registers := aset r1 0xF (b2n (r1 y > r1 x)) }
  else if n = 0xE then
    let r1 := aset s.registers x (u8 (s.registers x <<< 1))
    { s with registers := aset r1 0xF (u8 (r1 x >>> 7)) }
  else s

/-- The `FxKK` family of `Chip8::execute_instruction` in `chip8.cpp`. -/
def exec_F (x kk : Nat) (s : Chip8) : Option Chip8 :=
  if kk = 0x07 then some { s with registers := aset s.registers x s.delay_timer }
  else if kk = 0x0A then
    match (List.range NUM_KEYS).find? (fun i => s.keys i) with
    | some i => some { s with registers := aset s.registers x (b2n (s.keys i)) }
    | none => some { s with pc := u16i ((s.pc : Int) - 2) }
  else if kk = 0x15 then some { s with delay_timer := s.registers x }
  else if kk = 0x18 then some { s with sound_timer := s.registers x }
  else if kk = 0x1E then some { s with index := u16 (s.index + s.registers x) }
  else if kk = 0x29 then some { s with index := u16 (s.registers x * 5) }
  else if kk = 0x33 then
    if s.index + 2 < MEMORY_SIZE then
      let m1 := aset s.memory s.index (u8 (s.registers x / 100))
      let m2 := aset m1 (s.index + 1) (u8 ((s.registers x / 10) % 10))
      some { s with memory := aset m2 (s.index + 2) (u8 (s.registers x % 10)) }
    else none
  else if kk = 0x55 then (List.range (x + 1)).foldlM store_reg s
  else if kk = 0x65 then (List.range (x + 1)).foldlM load_reg s
  else some s

/-- `Chip8::execute_instruction` of `chip8.cpp`: fetch the big-endian opcode at
`pc`, advance `pc` by 2, decode and execute.  `rnd` is the byte drawn from the
generator by `Cxkk`. -/
def execute_instruction (rnd : Nat) (s0 : Chip8) : Option Chip8 :=
  if s0.pc + 1 < MEMORY_SIZE then
    let opcode := u16 ((s0.memory s0.pc <<< 8) ||| s0.memory (s0.pc + 1))
    let s := { s0 with pc := u16 (s0.pc + 2) }
    let x := (opcode &&& 0x0F00) >>> 8
    let y := (opcode &&& 0x00F0) >>> 4
    let n := opcode &&& 0x000F
    let kk := opcode &&& 0x00FF
    let nnn := opcode &&& 0x0FFF
    let op := opcode &&& 0xF000
    if op = 0x0000 then
      if opcode = 0x00E0 then some { s with pixels := fun _ => 0, draw_flag := true }
      else if opcode = 0x00EE then
        match s.stack with
        | top :: rest => some { s with pc := top, stack := rest }
        | [] => none
      else some s
    else if op = 0x1000 then some { s with pc := nnn }
    else if op = 0x2000 then some { s with stack := s.pc :: s.stack, pc := nnn }
    else if op = 0x3000 then
      if s.registers x = kk then some { s with pc := u16 (s.pc + 2) } else some s
    else if op = 0x4000 then
      if s.registers x ≠ kk then some { s with pc := u16 (s.pc + 2) } else some s
    else if op = 0x5000 then
      if s.registers x = s.registers y then some { s with pc := u16 (s.pc + 2) } else some s
    else if op = 0x6000 then some { s with registers := aset s.registers x (u8 kk) }
    else if op = 0x7000 then
      some { s with registers := aset s.registers x (u8 (s.registers x + kk)) }
    else if op = 0x8000 then some (exec_8 x y n s)
    else if op = 0x9000 then
      if s.registers x ≠ s.registers y then some { s with pc := u16 (s.pc + 2) } else some s
    else if op = 0xA000 then some { s with index := nnn }
    else if op = 0xB000 then some { s with pc := u16 (nnn + s.registers 0) }
    else if op = 0xC000 then some { s with registers := aset s.registers x (u8 (rnd &&& kk)) }
    else if op = 0xD000 then
      let x_pos := s.registers x
      let y_pos := s.registers y
      let s1 := { s with registers := aset s.registers 0xF 0 }
      ((List.range n).foldlM (draw_row x_pos y_pos) s1).map
        (fun s2 => { s2 with draw_flag := true })
    else if op = 0xE000 then
      if kk = 0x9E then
        if s.registers x < NUM_KEYS then
          if s.keys (s.registers x) then some { s with pc := u16 (s.pc + 2) } else some s
        else none
      else if kk = 0xA1 then
        if s.registers x < NUM_KEYS then
          if !s.keys (s.registers x) then some { s with pc := u16 (s.pc + 2) } else some s
        else none
      else some s
    else if op = 0xF000 then exec_F x kk s
    else some s
  else none

/-- `Chip8::decrement_timers`. -/
def decrement_timers (s : Chip8) : Chip8 :=
  let s1 := if s.delay_timer > 0 then { s with delay_timer := u8i ((s.delay_timer : Int) - 1) } else s
  if s1.sound_timer > 0 then { s1 with sound_timer := u8i ((s1.sound_timer : Int) - 1) } else s1

/-- `Chip8::get_pixel_state`. -/
def get_pixel_state (s : Chip8) (i : Nat) : Option Nat :=
  if i < DISPLAY_SIZE then some (s.pixels i) else none

/-- `Chip8::handle_keypress`. -/
def handle_keypress (i : Nat) (s : Chip8) : Option Chip8 :=
  if i < NUM_KEYS then some { s with keys := aset s.keys i (!s.keys i) } else none

/-- `Chip8::get_draw_flag`. -/
def get_draw_flag (s : Chip8) : Bool := s.draw_flag

/-- `Chip8::set_draw_flag`. -/
def set_draw_flag (value : Bool) (s : Chip8) : Chip8 := { s with draw_flag := value }

/-- Run `execute_instruction` on each random byte of `rnds` in turn. -/
def run (rnds : List Nat) (s : Chip8) : Option Chip8 :=
  rnds.foldlM (fun st r => execute_instruction r st) s

end Chip8

end StdStack

/-! ## Specification-side definitions for sprite drawing -/

namespace StdStack.Chip8

/-- The framebuffer cells addressed by the set bits of the first `m` sprite rows
of a `Dxyn` drawn at `(x_pos, y_pos)` from memory `mem` at `idx`; bit `j` is
counted from the most significant bit, so it is bit `7 - j` of the row. -/
def sprite_cells (mem : Nat → Nat) (idx x_pos y_pos m : Nat) : Set Nat :=
  {c | ∃ i, i < m ∧ ∃ j, j < 8 ∧ (mem (idx + i)).testBit (7 - j) = true ∧
    c = coord x_pos y_pos i j}

instance sprite_cells_decidable (mem : Nat → Nat) (idx x_pos y_pos m c : Nat) :
    Decidable (c ∈ sprite_cells mem idx x_pos y_pos m) :=
  inferInstanceAs (Decidable (∃ i, i < m ∧ ∃ j, j < 8 ∧
    (mem (idx + i)).testBit (7 - j) = true ∧ c = coord x_pos y_pos i j))

/-- Relation between the state before and after a part of a `Dxyn` loop that
visits each cell of `D` exactly once: those cells are XORed with 1, the other
cells are kept, and `VF` becomes 1 when a visited cell held 1. -/
def DrawInv (D : Set Nat) (s s' : Chip8) : Prop :=
  s'.memory = s.memory ∧ s'.index = s.index ∧
  (∀ c, c ∈ D → s'.pixels c = u8 (s.pixels c ^^^ 1)) ∧
  (∀ c, c ∉ D → s'.pixels c = s.pixels c) ∧
  ((∃ c, c ∈ D ∧ s.pixels c = 1) → s'.registers 0xF = 1) ∧
  ((¬ ∃ c, c ∈ D ∧ s.pixels c = 1) → s'.registers 0xF = s.registers 0xF)

end StdStack.Chip8

/-! ## Concrete programs and states used below -/

/-- Program `6001 6F05 80F4`: `V0 = 1`, `VF = 5`, then `ADD V0, VF`. -/
def add_VF_rom : List Nat := [0x60, 0x01, 0x6F, 0x05, 0x80, 0xF4]

/-- Program `60FA 610A 8014`: `V0 = 250`, `V1 = 10`, then `ADD V0, V1`. -/
def add_250_10_rom : List Nat := [0x60, 0xFA, 0x61, 0x0A, 0x80, 0x14]

/-- Program `600A 61FA 8014`: `V0 = 10`, `V1 = 250`, then `ADD V0, V1`. -/
def add_10_250_rom : List Nat := [0x60, 0x0A, 0x61, 0xFA, 0x80, 0x14]

/-- Program `6005 610A 8015`: `V0 = 5`, `V1 = 10`, then `SUB V0, V1`. -/
def sub_5_10_rom : List Nat := [0x60, 0x05, 0x61, 0x0A, 0x80, 0x15]

/-- Program `610A 8017`: `V1 = 10` (`V0` is still 0), then `SUBN V0, V1`. -/
def subn_0_10_rom : List Nat := [0x61, 0x0A, 0x80, 0x17]

/-- Program `6081 8006`: `V0 = 0b10000001`, then `SHR V0`. -/
def shr_129_rom : List Nat := [0x60, 0x81, 0x80, 0x06]

/-- Program `6080 800E`: `V0 = 0b10000000`, then `SHL V0`. -/
def shl_128_rom : List Nat := [0x60, 0x80, 0x80, 0x0E]

/-- Program `A000 D011 6002 D011`: draw the glyph row `0xF0` at `(0, 0)`, then
draw the same row at `(2, 0)`, overlapping the first in cells 2 and 3. -/
def overlap_rom : List Nat := [0xA0, 0x00, 0xD0, 0x11, 0x60, 0x02, 0xD0, 0x11]

/-- Program `603E 611F A000 D011`: draw the glyph row `0xF0` at `(62, 31)`, the
bottom right corner of the screen. -/
def corner_rom : List Nat := [0x60, 0x3E, 0x61, 0x1F, 0xA0, 0x00, 0xD0, 0x11]

/-- A state of `chip8.cc` with `8006` at `pc = 512` and `V0 = 0x81`. -/
def ArrayStack.Chip8.shr_example : ArrayStack.Chip8 :=
  { stack := fun _ => 0
    memory := fun a => if a = 512 then 0x80 else if a = 513 then 0x06 else 0
    display := fun _ => 0
    registers := fun r => if r = 0 then 0x81 else 0
    keys := fun _ => false
    sp := 0
    pc := 512
    index := 0
    delay_timer := 0
    sound_timer := 0
    draw_flag := false }

/-- A state of `chip8.cpp` with `D012` at `pc = 512`, `index = 0` pointing at the
rows `0xF0`, `0x90`, `V0 = V1 = 0`, and framebuffer cell 0 already set. -/
def StdStack.Chip8.draw_example : StdStack.Chip8 :=
  { memory := fun a =>
      if a = 0 then 0xF0 else if a = 1 then 0x90 else
      if a = 512 then 0xD0 else if a = 513 then 0x12 else 0
    pixels := fun c => if c = 0 then 1 else 0
    registers := fun _ => 0
    keys := fun _ => false
    stack := []
    pc := 512
    index := 0
    delay_timer := 0
    sound_timer := 0
    draw_flag := false }

/-! ## Definitions for the key wait, the call stack, the timers and the loader -/

/-- Program `F00A`: wait for a key press and put the key in `V0`. -/
def key_wait_rom : List Nat := [0xF0, 0x0A]

/-- A state of `chip8.cc` with `F30A` at `pc = 512` and no key pressed. -/
def ArrayStack.Chip8.wait_example : ArrayStack.Chip8 :=
  { stack := fun _ => 0
    memory := fun a => if a = 512 then 0xF3 else if a = 513 then 0x0A else 0
    display := fun _ => 0
    registers := fun _ => 0
    keys := fun _ => false
    sp := 0
    pc := 512
    index := 0
    delay_timer := 0
    sound_timer := 0
    draw_flag := false }

/-- A state of `chip8.cpp` with `F30A` at `pc = 512` and no key pressed. -/
def StdStack.Chip8.wait_example : StdStack.Chip8 :=
  { memory := fun a => if a = 512 then 0xF3 else if a = 513 then 0x0A else 0
    pixels := fun _ => 0
    registers := fun _ => 0
    keys := fun _ => false
    stack := []
    pc := 512
    index := 0
    delay_timer := 0
    sound_timer := 0
    draw_flag := false }

/-- The opcodes that the dispatch does not recognise: `0NNN` other than `00E0`
and `00EE`, `8xyN` with `N` outside `0..7, E`, `ExKK` with `KK` outside
`9E, A1`, and `FxKK` with `KK` outside `07, 0A, 15, 18, 1E, 29, 33, 55, 65`. -/
def unrecognised (opcode : Nat) : Prop :=
  (opcode / 0x1000 = 0x0 ∧ opcode ≠ 0x00E0 ∧ opcode ≠ 0x00EE) ∨
  (opcode / 0x1000 = 0x8 ∧ opcode % 0x10 ∉ [0x0, 0x1, 0x2, 0x3, 0x4, 0x5, 0x6, 0x7, 0xE]) ∨
  (opcode / 0x1000 = 0xE ∧ opcode % 0x100 ∉ [0x9E, 0xA1]) ∨
  (opcode / 0x1000 = 0xF ∧
    opcode % 0x100 ∉ [0x07, 0x0A, 0x15, 0x18, 0x1E, 0x29, 0x33, 0x55, 0x65])

instance unrecognised_decidable (opcode : Nat) : Decidable (unrecognised opcode) :=
  inferInstanceAs (Decidable (_ ∨ _))

/-- A state of `chip8.cc` with the unassigned opcode `8AB9` at `pc = 512`. -/
def ArrayStack.Chip8.unknown_example : ArrayStack.Chip8 :=
  { stack := fun _ => 0
    memory := fun a => if a = 512 then 0x8A else if a = 513 then 0xB9 else 0
    display := fun _ => 0
    registers := fun _ => 7
    keys := fun _ => false
    sp := 0
    pc := 512
    index := 0
    delay_timer := 0
    sound_timer := 0
    draw_flag := false }

/-- A state of `chip8.cpp` with the unassigned opcode `F1FF` at `pc = 512`. -/
def StdStack.Chip8.unknown_example : StdStack.Chip8 :=
  { memory := fun a => if a = 512 then 0xF1 else if a = 513 then 0xFF else 0
    pixels := fun _ => 0
    registers := fun _ => 7
    keys := fun _ => false
    stack := []
    pc := 512
    index := 0
    delay_timer := 0
    sound_timer := 0
    draw_flag := false }

/-- A state of `chip8.cc` with `delay_timer = 5` and `sound_timer = 0`. -/
def ArrayStack.Chip8.timer_example : ArrayStack.Chip8 :=
  { ArrayStack.Chip8.wait_example with delay_timer := 5 }

/-- A state of `chip8.cpp` with `delay_timer = 5` and `sound_timer = 0`. -/
def StdStack.Chip8.timer_example : StdStack.Chip8 :=
  { StdStack.Chip8.wait_example with delay_timer := 5 }

/-- The subscript `--sp` with which `00EE` of `chip8.cc` reads `stack`: `sp`
decremented as a `uint16_t`. -/
def ArrayStack.Chip8.ret_slot (s : ArrayStack.Chip8) : Nat := u16i ((s.sp : Int) - 1)

/-- Program `2200` at address `0x200`: a subroutine that calls itself. -/
def recursion_rom : List Nat := [0x22, 0x00]

/-- Program `00EE`: a return as the first instruction. -/
def ret_rom : List Nat := [0x00, 0xEE]

/-- A state of `chip8.cc` with `2300` at `pc = 512`, `00EE` at `0x300`, and two
return addresses on the stack. -/
def ArrayStack.Chip8.call_example : ArrayStack.Chip8 :=
  { stack := fun k => if k = 0 then 0x250 else if k = 1 then 0x260 else 0
    memory := fun a =>
      if a = 512 then 0x23 else if a = 513 then 0x00 else
      if a = 0x300 then 0x00 else if a = 0x301 then 0xEE else 0
    display := fun _ => 0
    registers := fun _ => 0
    keys := fun _ => false
    sp := 2
    pc := 512
    index := 0
    delay_timer := 0
    sound_timer := 0
    draw_flag := false }

/-- A state of `chip8.cpp` with `2300` at `pc = 512`, `00EE` at `0x300`, and two
return addresses on the stack. -/
def StdStack.Chip8.call_example : StdStack.Chip8 :=
  { memory := fun a =>
      if a = 512 then 0x23 else if a = 513 then 0x00 else
      if a = 0x300 then 0x00 else if a = 0x301 then 0xEE else 0
    pixels := fun _ => 0
    registers := fun _ => 0
    keys := fun _ => false
    stack := [0x260, 0x250]
    pc := 512
    index := 0
    delay_timer := 0
    sound_timer := 0
    draw_flag := false }

/-- A state of `chip8.cc` with `00EE` at `pc = 0x300` and two return addresses
on the stack. -/
def ArrayStack.Chip8.ret_example : ArrayStack.Chip8 :=
  { ArrayStack.Chip8.call_example with pc := 0x300 }

/-- A state of `chip8.cpp` with `00EE` at `pc = 0x300` and two return addresses
on the stack. -/
def StdStack.Chip8.ret_example : StdStack.Chip8 :=
  { StdStack.Chip8.call_example with pc := 0x300 }

/-- A state of `chip8.cpp` with `2200` at `pc = 512` and 16 return addresses on
the stack. -/
def StdStack.Chip8.full_stack_example : StdStack.Chip8 :=
  { memory := fun a => if a = 512 then 0x22 else 0
    pixels := fun _ => 0
    registers := fun _ => 0
    keys := fun _ => false
    stack := List.replicate 16 514
    pc := 512
    index := 0
    delay_timer := 0
    sound_timer := 0
    draw_flag := false }

/-- The stores `dst[off + i] = src[i]` that
`std::copy(src.begin(), src.end(), dst.begin() + off)` performs, in order, as
pairs of address and byte.  `load_rom` performs them all, whatever the length of
`src`. -/
def copyStores (off : Nat) (src : List Nat) : List (Nat × Nat) := src.enumFrom off

/-- A short ROM image. -/
def sample_rom : List Nat := [0x12, 0x34, 0x56]

/-- The framebuffer index `pos` that `Dxyn` of `chip8.cc` computes for bit `j` of
row `i` when no pixel has been drawn yet: `registers[0xF]` has just been cleared,
so an operand register `0xF` reads 0. -/
def ArrayStack.Chip8.first_pos (s : ArrayStack.Chip8) (x y i j : Nat) : Nat :=
  u16 (aset s.registers 0xF 0 x + j + ((aset s.registers 0xF 0 y + i) * 64))

/-- A state of `chip8.cc` with `D011` at `pc = 512`, `index = 0x300` pointing at
the row `0x20` (only bit 2 from the left set), `V0 = 10`, `V1 = 3`, and framebuffer
cell `10 + 2 + 3 * 64 = 204` clear like all others. -/
def ArrayStack.Chip8.dot_example : ArrayStack.Chip8 :=
  { stack := fun _ => 0
    memory := fun a =>
      if a = 512 then 0xD0 else if a = 513 then 0x11 else if a = 0x300 then 0x20 else 0
    display := fun _ => 0
    registers := fun r => if r = 0 then 10 else if r = 1 then 3 else 0
    keys := fun _ => false
    sp := 0
    pc := 512
    index := 0x300
    delay_timer := 0
    sound_timer := 0
    draw_flag := false }

/-- A state of `chip8.cpp` with `D011` at `pc = 512`, `index = 0x300` pointing at
the row `0x20` (only bit 2 from the left set), `V0 = 10`, `V1 = 3`, and framebuffer
cell `10 + 2 + 3 * 64 = 204` clear like all others. -/
def StdStack.Chip8.dot_example : StdStack.Chip8 :=
  { memory := fun a =>
      if a = 512 then 0xD0 else if a = 513 then 0x11 else if a = 0x300 then 0x20 else 0
    pixels := fun _ => 0
    registers := fun r => if r = 0 then 10 else if r = 1 then 3 else 0
    keys := fun _ => false
    stack := []
    pc := 512
    index := 0x300
    delay_timer := 0
    sound_timer := 0
    draw_flag := false }

/-! ## Definitions for the constructor, the memory instructions and the display -/

/-- Glyph `d` of the font table: the 5 bytes at offset `5 * d`. -/
def glyph (d : Nat) : List Nat := (FONTSET.drop (5 * d)).take 5

/-- A state of `chip8.cc` with `F233` at `pc = 512`, `V2 = 254` and
`index = 0x300`. -/
def ArrayStack.Chip8.bcd_example : ArrayStack.Chip8 :=
  { stack := fun _ => 0
    memory := fun a => if a = 512 then 0xF2 else if a = 513 then 0x33 else 0
    display := fun _ => 0
    registers := fun r => if r = 2 then 254 else 0
    keys := fun _ => false
    sp := 0
    pc := 512
    index := 0x300
    delay_timer := 0
    sound_timer := 0
    draw_flag := false }

/-- A state of `chip8.cpp` with `F233` at `pc = 512`, `V2 = 254` and
`index = 0x300`. -/
def StdStack.Chip8.bcd_example : StdStack.Chip8 :=
  { memory := fun a => if a = 512 then 0xF2 else if a = 513 then 0x33 else 0
    pixels := fun _ => 0
    registers := fun r => if r = 2 then 254 else 0
    keys := fun _ => false
    stack := []
    pc := 512
    index := 0x300
    delay_timer := 0
    sound_timer := 0
    draw_flag := false }

/-- A state of `chip8.cc` with `F255` at `pc = 512`, `V0 = 7`, `V1 = 8`,
`V2 = 9`, `V3 = 10` and `index = 0x300`. -/
def ArrayStack.Chip8.store_example : ArrayStack.Chip8 :=
  { stack := fun _ => 0
    memory := fun a => if a = 512 then 0xF2 else if a = 513 then 0x55 else 0
    display := fun _ => 0
    registers := fun r => if r < 4 then r + 7 else 0
    keys := fun _ => false
    sp := 0
    pc := 512
    index := 0x300
    delay_timer := 0
    sound_timer := 0
    draw_flag := false }

/-- A state of `chip8.cpp` with `F255` at `pc = 512`, `V0 = 7`, `V1 = 8`,
`V2 = 9`, `V3 = 10` and `index = 0x300`. -/
def StdStack.Chip8.store_example : StdStack.Chip8 :=
  { memory := fun a => if a = 512 then 0xF2 else if a = 513 then 0x55 else 0
    pixels := fun _ => 0
    registers := fun r => if r < 4 then r + 7 else 0
    keys := fun _ => false
    stack := []
    pc := 512
    index := 0x300
    delay_timer := 0
    sound_timer := 0
    draw_flag := false }

/-- The opcode fetched by `execute_instruction`:
`memory[pc] << 8 | memory[pc + 1]` as a `uint16_t`. -/
def fetch (memory : Nat → Nat) (pc : Nat) : Nat :=
  u16 ((memory pc <<< 8) ||| memory (pc + 1))

/-- Every one of the 2048 framebuffer cells is 0 or 1. -/
def binary_display (d : Nat → Nat) : Prop :=
  ∀ c, c < DISPLAY_SIZE → d c = 0 ∨ d c = 1

/-- The subscripts with which one `execute_instruction` indexes `memory`, in
program order and as the source computes them (no bounds check, no reduction
modulo 4096): `pc` and `pc + 1` for the fetch, then `index + i` for `i < n`
(`Dxyn`), `index`, `index + 1`, `index + 2` (`Fx33`), or `index + i` for `i ≤ x`
(`Fx55`, `Fx65`).  The same in `chip8.cc` and `chip8.cpp`. -/
def mem_accesses (memory : Nat → Nat) (pc index : Nat) : List Nat :=
  [pc, pc + 1] ++
  (if pc + 1 < MEMORY_SIZE then
    if fetch memory pc &&& 0xF000 = 0xD000 then
      (List.range (fetch memory pc &&& 0x000F)).map (fun i => index + i)
    else if fetch memory pc &&& 0xF000 = 0xF000 then
      if fetch memory pc &&& 0x00FF = 0x33 then [index, index + 1, index + 2]
      else if fetch memory pc &&& 0x00FF = 0x55 ∨ fetch memory pc &&& 0x00FF = 0x65 then
        (List.range (((fetch memory pc &&& 0x0F00) >>> 8) + 1)).map (fun i => index + i)
      else []
    else []
  else [])

/-- Program `1FFF`: jump to the last byte of memory. -/
def jump_to_end_rom : List Nat := [0x1F, 0xFF]

/-- Program `AFFF F033`: point `index` at the last byte of memory, then store the
digits of `V0`. -/
def bcd_at_end_rom : List Nat := [0xAF, 0xFF, 0xF0, 0x33]

/-- A machine whose `pc` is the last byte of memory: the state `1FFF` leads to. -/
def ArrayStack.Chip8.end_example : ArrayStack.Chip8 :=
  { ArrayStack.Chip8.new with pc := 0xFFF }

/-- A machine whose `pc` is the last byte of memory: the state `1FFF` leads to. -/
def StdStack.Chip8.end_example : StdStack.Chip8 :=
  { StdStack.Chip8.new with pc := 0xFFF }

namespace ArrayStack.Chip8

/-- The framebuffer index `pos` that `Dxyn` of `chip8.cc` computes for bit `j` of
row `i` from the values `vx`, `vy` of `registers[x]`, `registers[y]`:
`registers[x] + j + ((registers[y] + i) * 64)`, stored in a `uint16_t`. -/
def pos (vx vy i j : Nat) : Nat := u16 (vx + j + ((vy + i) * 64))

/-- The cells that the set bits of the first `m` sprite rows address in
`chip8.cc`. -/
def drawn_cells (mem : Nat → Nat) (idx vx vy m : Nat) : Set Nat :=
  {c | ∃ i, i < m ∧ ∃ j, j < 8 ∧ (mem (idx + i)).testBit (7 - j) = true ∧ c = pos vx vy i j}

/-- Relation between the state before and after a part of a `Dxyn` loop that
visits each cell of `D` exactly once: those cells are XORed with 1, the other
cells, the memory, `index` and the registers other than `VF` are kept. -/
def Toggled (D : Set Nat) (s s' : Chip8) : Prop :=
  s'.memory = s.memory ∧ s'.index = s.index ∧
  (∀ r, r ≠ 0xF → s'.registers r = s.registers r) ∧
  (∀ c, c ∈ D → s'.display c = u8 (s.display c ^^^ 1)) ∧
  (∀ c, c ∉ D → s'.display c = s.display c)

/-- A state of `chip8.cc` with `D012` at `pc = 512`, `index = 0` pointing at the
rows `0xF0`, `0x90`, `V0 = V1 = 0`, and framebuffer cell 0 already set. -/
def draw_example : Chip8 :=
  { stack := fun _ => 0
    memory := fun a =>
      if a = 0 then 0xF0 else if a = 1 then 0x90 else
      if a = 512 then 0xD0 else if a = 513 then 0x12 else 0
    display := fun c => if c = 0 then 1 else 0
    registers := fun _ => 0
    keys := fun _ => false
    sp := 0
    pc := 512
    index := 0
    delay_timer := 0
    sound_timer := 0
    draw_flag := false }

end ArrayStack.Chip8

/-- The state of `chip8.cpp` that holds the same values as the state `a` of
`chip8.cc`: the `std::stack` holds the first `sp` array entries, the last one on
top. -/
def ArrayStack.Chip8.toStd (a : ArrayStack.Chip8) : StdStack.Chip8 :=
  { memory := a.memory
    pixels := a.display
    registers := a.registers
    keys := a.keys
    stack := ((List.range a.sp).map a.stack).reverse
    pc := a.pc
    index := a.index
    delay_timer := a.delay_timer
    sound_timer := a.sound_timer
    draw_flag := a.draw_flag }

/-- Corresponding states of the two variants, in the words of the specification:
same memory, registers, index, PC, timers, keys, framebuffer and draw flag, and
the same sequence of at most 16 return addresses on the stack. -/
def corresponding (a : ArrayStack.Chip8) (b : StdStack.Chip8) : Prop :=
  b.memory = a.memory ∧ b.registers = a.registers ∧ b.index = a.index ∧ b.pc = a.pc ∧
  b.delay_timer = a.delay_timer ∧ b.sound_timer = a.sound_timer ∧ b.keys = a.keys ∧
  b.pixels = a.display ∧ b.draw_flag = a.draw_flag ∧
  a.sp ≤ STACK_SIZE ∧ b.stack.reverse = (List.range a.sp).map a.stack

/-- The opcodes on which the variants differ by design of the sources: the flag
instructions `8xy4`, `8xy5`, `8xy6`, `8xy7`, `8xyE` and the draw `Dxyn`. -/
def flag_or_draw (opcode : Nat) : Prop :=
  (opcode &&& 0xF000 = 0x8000 ∧
    (opcode &&& 0x000F = 0x4 ∨ opcode &&& 0x000F = 0x5 ∨ opcode &&& 0x000F = 0x6 ∨
      opcode &&& 0x000F = 0x7 ∨ opcode &&& 0x000F = 0xE)) ∨
  opcode &&& 0xF000 = 0xD000

instance flag_or_draw_decidable (opcode : Nat) : Decidable (flag_or_draw opcode) :=
  inferInstanceAs (Decidable (_ ∨ _))

/-- The key subscript of a step is in range: `Ex9E` and `ExA1` index `keys` with
`registers[x]`. -/
def key_in_range (opcode vx : Nat) : Prop :=
  opcode &&& 0xF000 = 0xE000 → opcode &&& 0x00FF = 0x9E ∨ opcode &&& 0x00FF = 0xA1 →
    vx < NUM_KEYS

instance key_in_range_decidable (opcode vx : Nat) : Decidable (key_in_range opcode vx) :=
  inferInstanceAs (Decidable (_ → _ → _))

/-- A state of `chip8.cc` with `F255` at `pc = 512` and `index = 0xFFF`: the
second store of the instruction goes to `memory[4096]`. -/
def ArrayStack.Chip8.store_end_example : ArrayStack.Chip8 :=
  { ArrayStack.Chip8.store_example with index := 0xFFF }

/-- A state of `chip8.cpp` with `F255` at `pc = 512` and `index = 0xFFF`: the
second store of the instruction goes to `memory[4096]`. -/
def StdStack.Chip8.store_end_example : StdStack.Chip8 :=
  { StdStack.Chip8.store_example with index := 0xFFF }

/-! ## Definitions for the subscripts of a step -/

namespace ArrayStack.Chip8

/-- The framebuffer subscripts that the iterations `js` of the inner loop of `Dxyn`
perform on sprite row `i`, in order, up to the first one out of range (where
`draw_bit` stops): one subscript `pos registers[x] registers[y] i j` for each set bit. -/
def row_targets (x y pixel i : Nat) : List Nat → Chip8 → List Nat
  | [], _ => []
  | j :: js, s =>
    (if pixel &&& (0x80 >>> j) ≠ 0 then [pos (s.registers x) (s.registers y) i j] else []) ++
      (match draw_bit x y pixel i s j with
        | some s1 => row_targets x y pixel i js s1
        | none => [])

/-- The framebuffer subscripts that the sprite rows `rows` of `Dxyn` perform, in
order, up to the first subscript out of range. -/
def rows_targets (x y : Nat) : List Nat → Chip8 → List Nat
  | [], _ => []
  | i :: rows, s =>
    row_targets x y (s.memory (s.index + i)) i (List.range 8) s ++
      (match draw_row x y s i with
        | some s1 => rows_targets x y rows s1
        | none => [])

/-- The draw targets of the step at `s`: the framebuffer subscripts of its `Dxyn`
loop, run as `execute_instruction` runs it (after the fetch, with `VF` cleared);
no target when the opcode is not `Dxyn`. -/
def draw_targets (s : Chip8) : List Nat :=
  if fetch s.memory s.pc &&& 0xF000 = 0xD000 then
    rows_targets ((fetch s.memory s.pc &&& 0x0F00) >>> 8) ((fetch s.memory s.pc &&& 0x00F0) >>> 4)
      (List.range (fetch s.memory s.pc &&& 0x000F))
      { s with pc := u16 (s.pc + 2), registers := aset s.registers 0xF 0 }
  else []

/-- Every array subscript of the step at `s` is in range: the memory subscripts
(`mem_accesses`), the key subscript of `Ex9E`/`ExA1`,
the stack subscripts of `2nnn` (`stack[sp]`) and `00EE` (`stack[sp - 1]`, the
decrement wrapping as `uint16_t`),
and the framebuffer subscripts of `Dxyn`. -/
def subscripts_in_range (s : Chip8) : Prop :=
  (∀ a ∈ mem_accesses s.memory s.pc s.index, a < MEMORY_SIZE) ∧
  key_in_range (fetch s.memory s.pc)
    (s.registers ((fetch s.memory s.pc &&& 0x0F00) >>> 8)) ∧
  (fetch s.memory s.pc &&& 0xF000 = 0x2000 → s.sp < STACK_SIZE) ∧
  (fetch s.memory s.pc = 0x00EE → u16i ((s.sp : Int) - 1) < STACK_SIZE) ∧
  (∀ c ∈ draw_targets s, c < DISPLAY_SIZE)

instance subscripts_in_range_decidable (s : Chip8) : Decidable (subscripts_in_range s) :=
  inferInstanceAs (Decidable (_ ∧ _))

/-- A state of `chip8.cc` with `F233` at `pc = 512`, `V2 = 254` and `index = 4093`:
the three stores go to `memory[4093]`, `memory[4094]`, `memory[4095]`. -/
def bcd_high_example : Chip8 :=
  { bcd_example with index := 4093 }

end ArrayStack.Chip8

namespace StdStack.Chip8

/-- The framebuffer subscripts that the iterations `js` of the inner loop of `Dxyn`
perform on sprite row `i`, in order, up to the first one out of range (where
`draw_bit` stops): one subscript `coord x_pos y_pos i j` for each set bit. -/
def row_targets (x_pos y_pos pixel i : Nat) : List Nat → Chip8 → List Nat
  | [], _ => []
  | j :: js, s =>
    (if pixel &&& (0x80 >>> j) ≠ 0 then [coord x_pos y_pos i j] else []) ++
      (match draw_bit x_pos y_pos pixel i s j with
        | some s1 => row_targets x_pos y_pos pixel i js s1
        | none => [])

/-- The framebuffer subscripts that the sprite rows `rows` of `Dxyn` perform, in
order, up to the first subscript out of range. -/
def rows_targets (x_pos y_pos : Nat) : List Nat → Chip8 → List Nat
  | [], _ => []
  | i :: rows, s =>
    row_targets x_pos y_pos (s.memory (s.index + i)) i (List.range 8) s ++
      (match draw_row x_pos y_pos s i with
        | some s1 => rows_targets x_pos y_pos rows s1
        | none => [])

/-- The draw targets of the step at `s`: the framebuffer subscripts of its `Dxyn`
loop, run as `execute_instruction` runs it (after the fetch, with `VF` cleared);
no target when the opcode is not `Dxyn`. -/
def draw_targets (s : Chip8) : List Nat :=
  if fetch s.memory s.pc &&& 0xF000 = 0xD000 then
    rows_targets (s.registers ((fetch s.memory s.pc &&& 0x0F00) >>> 8))
      (s.registers ((fetch s.memory s.pc &&& 0x00F0) >>> 4))
      (List.range (fetch s.memory s.pc &&& 0x000F))
      { s with pc := u16 (s.pc + 2), registers := aset s.registers 0xF 0 }
  else []

/-- Every array subscript of the step at `s` is in range: the memory subscripts
(`mem_accesses`), the key subscript of `Ex9E`/`ExA1`,
the `top()` and `pop()` of `00EE` (the stack is not empty),
and the framebuffer subscripts of `Dxyn`. -/
def subscripts_in_range (s : Chip8) : Prop :=
  (∀ a ∈ mem_accesses s.memory s.pc s.index, a < MEMORY_SIZE) ∧
  key_in_range (fetch s.memory s.pc)
    (s.registers ((fetch s.memory s.pc &&& 0x0F00) >>> 8)) ∧
  (fetch s.memory s.pc = 0x00EE → s.stack ≠ []) ∧
  (∀ c ∈ draw_targets s, c < DISPLAY_SIZE)

instance subscripts_in_range_decidable (s : Chip8) : Decidable (subscripts_in_range s) :=
  inferInstanceAs (Decidable (_ ∧ _))

/-- A state of `chip8.cpp` with `F233` at `pc = 512`, `V2 = 254` and `index = 4093`:
the three stores go to `memory[4093]`, `memory[4094]`, `memory[4095]`. -/
def bcd_high_example : Chip8 :=
  { bcd_example with index := 4093 }

end StdStack.Chip8

/-! ## Decoding -/

set_option maxRecDepth 100000 in
/-- Masks of the opcode applied to the high byte alone. -/
theorem byte_hi_masks : ∀ hi < 256,
    (hi <<< 8) &&& 0xF000 = (hi / 16) * 4096 ∧ (hi <<< 8) &&& 0x0F00 = (hi % 16) * 256 ∧
    (hi <<< 8) &&& 0x00F0 = 0 ∧ (hi <<< 8) &&& 0x000F = 0 ∧ (hi <<< 8) &&& 0x00FF = 0 ∧
    (hi <<< 8) &&& 0x0FFF = (hi % 16) * 256 := by
  decide

set_option maxRecDepth 100000 in
/-- Masks of the opcode applied to the low byte alone. -/
theorem byte_lo_masks : ∀ lo < 256,
    lo &&& 0xF000 = 0 ∧ lo &&& 0x0F00 = 0 ∧ lo &&& 0x00F0 = (lo / 16) * 16 ∧
    lo &&& 0x000F = lo % 16 ∧ lo &&& 0x00FF = lo ∧ lo &&& 0x0FFF = lo := by
  decide

/-- The big-endian opcode built by the fetch is `256 * hi + lo`. -/
theorem opcode_eq (hi lo : Nat) (hhi : hi < 256) (hlo : lo < 256) :
    u16 ((hi <<< 8) ||| lo) = 256 * hi + lo := by
  have h1 : (hi <<< 8) ||| lo = 256 * hi + lo := by
    rw [Nat.shiftLeft_eq, Nat.mul_comm]
    exact (Nat.mul_add_lt_is_or (i := 8) (by simpa using hlo) hi).symm
  rw [h1, u16]
  omega

/-- The fields of the opcode fetched from the bytes `hi`, `lo`. -/
theorem decode_fields (hi lo : Nat) (hhi : hi < 256) (hlo : lo < 256) :
    u16 ((hi <<< 8) ||| lo) &&& 0xF000 = (hi / 16) * 4096 ∧
    (u16 ((hi <<< 8) ||| lo) &&& 0x0F00) >>> 8 = hi % 16 ∧
    (u16 ((hi <<< 8) ||| lo) &&& 0x00F0) >>> 4 = lo / 16 ∧
    u16 ((hi <<< 8) ||| lo) &&& 0x000F = lo % 16 ∧
    u16 ((hi <<< 8) ||| lo) &&& 0x00FF = lo ∧
    u16 ((hi <<< 8) ||| lo) &&& 0x0FFF = (hi % 16) * 256 + lo := by
  have hop : u16 ((hi <<< 8) ||| lo) = (hi <<< 8) ||| lo := by
    have hb : (hi <<< 8) ||| lo < 2 ^ 16 := by
      apply Nat.or_lt_two_pow
      · rw [Nat.shiftLeft_eq]; omega
      · omega
    rw [u16]; omega
  obtain ⟨a1, a2, a3, a4, a5, a6⟩ := byte_hi_masks hi hhi
  obtain ⟨b1, b2, b3, b4, b5, b6⟩ := byte_lo_masks lo hlo
  have dist : ∀ m, ((hi <<< 8) ||| lo) &&& m = ((hi <<< 8) &&& m) ||| (lo &&& m) := by
    intro m
    rw [Nat.and_comm, Nat.and_or_distrib_left, Nat.and_comm m, Nat.and_comm m]
  rw [hop]
  refine ⟨?_, ?_, ?_, ?_, ?_, ?_⟩
  · rw [dist, a1, b1]; simp
  · rw [dist, a2, b2, Nat.shiftRight_eq_div_pow]; simp
  · rw [dist, a3, b3, Nat.shiftRight_eq_div_pow]; simp
  · rw [dist, a4, b4]; simp
  · rw [dist, a5, b5]; simp
  · rw [dist, a6, b6]
    have := Nat.mul_add_lt_is_or (i := 8) (b := lo) (by simpa using hlo) (hi % 16)
    rw [Nat.mul_comm] at this
    simpa using this.symm

/-- The loop test `pixel & (0x80 >> j)` reads bit `j` of the row counted from the
most significant bit, that is bit `7 - j`. -/
theorem sprite_bit_test (pixel j : Nat) (hj : j < 8) :
    pixel &&& (0x80 >>> j) ≠ 0 ↔ pixel.testBit (7 - j) = true := by
  have h : (0x80 : Nat) >>> j = 2 ^ (7 - j) := by
    interval_cases j <;> rfl
  rw [h, Nat.and_two_pow]
  cases pixel.testBit (7 - j) <;> simp

/-! ## The `8xyN` family -/

namespace ArrayStack.Chip8

/-- With `8xyN` at `pc`, one step of `chip8.cc` is `exec_8` after the fetch. -/
theorem execute_8xyN (rnd : Nat) (s : Chip8) (x y n : Nat)
    (hx : x < 16) (hy : y < 16) (hn : n < 16) (hpc : s.pc + 1 < MEMORY_SIZE)
    (h0 : s.memory s.pc = 0x80 + x) (h1 : s.memory (s.pc + 1) = 16 * y + n) :
    execute_instruction rnd s = some (exec_8 x y n { s with pc := u16 (s.pc + 2) }) := by
  obtain ⟨d1, d2, d3, d4, -, -⟩ := decode_fields (0x80 + x) (16 * y + n) (by omega) (by omega)
  have e1 : (0x80 + x) / 16 * 4096 = 0x8000 := by omega
  have e2 : (0x80 + x) % 16 = x := by omega
  have e3 : (16 * y + n) / 16 = y := by omega
  have e4 : (16 * y + n) % 16 = n := by omega
  rw [e1] at d1; rw [e2] at d2; rw [e3] at d3; rw [e4] at d4
  unfold execute_instruction
  simp only [hpc, h0, h1, d1, d2, d3, d4]
  simp

theorem shr_example_WF : shr_example.WF := by
  refine ⟨by simp [shr_example], ?_, by simp [shr_example], ?_, by simp [shr_example],
    by simp [shr_example], by simp [shr_example], by simp [shr_example],
    by simp [shr_example]⟩
  · intro a _
    simp only [shr_example]
    split_ifs <;> omega
  · intro r _
    simp only [shr_example]
    split_ifs <;> omega

/-- In `chip8.cc`, `8xy4` with `x` and `y` both different from `0xF` leaves
`VF = 1` iff the old `Vx + Vy` exceeds 255 and `Vx` equal to the old sum modulo
256 (the statement of C1 restricted to `y ≠ 0xF`). -/
theorem add_flag_and_value_unaliased (rnd : Nat) (s : Chip8) (x y : Nat)
    (hx : x < 16) (hy : y < 16) (hxF : x ≠ 0xF) (hyF : y ≠ 0xF)
    (hpc : s.pc + 1 < MEMORY_SIZE)
    (h0 : s.memory s.pc = 0x80 + x) (h1 : s.memory (s.pc + 1) = 16 * y + 4) :
    ∃ s', execute_instruction rnd s = some s' ∧
      s'.registers 0xF = (if s.registers x + s.registers y > 255 then 1 else 0) ∧
      s'.registers x = (s.registers x + s.registers y) % 256 := by
  refine ⟨_, execute_8xyN rnd s x y 4 hx hy (by omega) hpc h0 h1, ?_, ?_⟩
  · simp [exec_8, aset, hxF, Ne.symm hxF, b2n]
  · simp [exec_8, aset, hxF, hyF, u8]

/-- C1 (failing input): in `chip8.cc`, after `V0 = 1` and `VF = 5` the instruction
`80F4` (`x = 0`, `y = 0xF`) leaves `V0 = 1` and `VF = 0`: the carry is stored in
`VF` before `VF` is read as the second operand, so `V0` is not
`(1 + 5) mod 256 = 6`. -/
theorem add_reads_overwritten_VF :
    ((load_rom add_VF_rom new).bind (run [0, 0])).map
      (fun s => (s.pc, s.memory 516, s.memory 517, s.registers 0, s.registers 0xF))
      = some (516, 0x80, 0xF4, 1, 5) ∧
    ((load_rom add_VF_rom new).bind (run [0, 0, 0])).map
      (fun s => (s.registers 0, s.registers 0xF)) = some (1, 0) ∧
    (1 + 5) % 256 ≠ 1 :=
  ⟨rfl, rfl, by decide⟩

/-- C5: in `chip8.cc`, `8xy6` with `x ≠ 0xF` leaves `VF` equal to bit 0 of the old
`Vx` and `Vx` equal to the old `Vx` halved, rounded down. -/
theorem shr_flag_and_value (rnd : Nat) (s : Chip8) (x y : Nat) (hwf : s.WF)
    (hx : x < 16) (hy : y < 16) (hxF : x ≠ 0xF) (hpc : s.pc + 1 < MEMORY_SIZE)
    (h0 : s.memory s.pc = 0x80 + x) (h1 : s.memory (s.pc + 1) = 16 * y + 6) :
    ∃ s', execute_instruction rnd s = some s' ∧
      s'.registers 0xF = s.registers x % 2 ∧
      s'.registers x = s.registers x / 2 := by
  refine ⟨_, execute_8xyN rnd s x y 6 hx hy (by omega) hpc h0 h1, ?_, ?_⟩
  · simp [exec_8, aset, hxF, Ne.symm hxF]
  · have hr : s.registers x < 256 := hwf.2.2.2.1 x hx
    simp [exec_8, aset, hxF, u8, Nat.shiftRight_eq_div_pow]
    omega

/-- In `chip8.cc`, `8xyE` with `x ≠ 0xF` leaves `VF` equal to bit 7 of the old `Vx`
and `Vx` equal to twice the old `Vx` modulo 256 (the statement of C7 for
`chip8.cc` alone). -/
theorem shl_flag_and_value (rnd : Nat) (s : Chip8) (x y : Nat) (hwf : s.WF)
    (hx : x < 16) (hy : y < 16) (hxF : x ≠ 0xF) (hpc : s.pc + 1 < MEMORY_SIZE)
    (h0 : s.memory s.pc = 0x80 + x) (h1 : s.memory (s.pc + 1) = 16 * y + 0xE) :
    ∃ s', execute_instruction rnd s = some s' ∧
      s'.registers 0xF = s.registers x / 128 ∧
      s'.registers x = (2 * s.registers x) % 256 := by
  have hr : s.registers x < 256 := hwf.2.2.2.1 x hx
  refine ⟨_, execute_8xyN rnd s x y 0xE hx hy (by omega) hpc h0 h1, ?_, ?_⟩
  · simp [exec_8, aset, hxF, Ne.symm hxF, u8, Nat.shiftRight_eq_div_pow]
    omega
  · simp [exec_8, aset, hxF, u8, Nat.shiftLeft_eq]
    omega

/-- Instance of `shr_flag_and_value` at `shr_example`: `V0 = 0x81` becomes `0x40`
and `VF = 1`. -/
theorem shr_flag_and_value_witness :
    shr_example.WF ∧
    ∃ s', execute_instruction 0 shr_example = some s' ∧
      s'.registers 0xF = 1 ∧ s'.registers 0 = 0x40 := by
  refine ⟨shr_example_WF, ?_⟩
  obtain ⟨s', e, hF, hV⟩ := shr_flag_and_value 0 shr_example 0 0 shr_example_WF
    (by decide) (by decide) (by decide) (by decide) (by decide) (by decide)
  exact ⟨s', e, hF.trans (by decide), hV.trans (by decide)⟩

end ArrayStack.Chip8

namespace StdStack.Chip8

/-- C2 (failing input): in `chip8.cpp`, `8014` with `V0 = 250`, `V1 = 10` leaves
`V0 = 4` and `VF = 0`, and with `V0 = 10`, `V1 = 250` it leaves `V0 = 4` and
`VF = 0`, although `250 + 10 > 255`: the carry is computed from the sum already
wrapped into `V0`. -/
theorem add_carry_from_wrapped_sum :
    ((load_rom add_250_10_rom new).bind (run [0, 0])).map
      (fun s => (s.pc, s.memory 516, s.memory 517, s.registers 0, s.registers 1))
      = some (516, 0x80, 0x14, 250, 10) ∧
    ((load_rom add_250_10_rom new).bind (run [0, 0, 0])).map
      (fun s => (s.registers 0, s.registers 0xF)) = some (4, 0) ∧
    ((load_rom add_10_250_rom new).bind (run [0, 0])).map
      (fun s => (s.pc, s.memory 516, s.memory 517, s.registers 0, s.registers 1))
      = some (516, 0x80, 0x14, 10, 250) ∧
    ((load_rom add_10_250_rom new).bind (run [0, 0, 0])).map
      (fun s => (s.registers 0, s.registers 0xF)) = some (4, 0) ∧
    250 + 10 > 255 :=
  ⟨rfl, rfl, rfl, rfl, by decide⟩

/-- C6 (failing input): in `chip8.cpp`, `8006` with `V0 = 0b10000001` leaves
`V0 = 0b01000000` and `VF = 0`, although bit 0 of the old `V0` is 1: `VF` is read
from `V0` after the shift. -/
theorem shr_flag_from_shifted_value :
    ((load_rom shr_129_rom new).bind (run [0])).map
      (fun s => (s.pc, s.memory 514, s.memory 515, s.registers 0)) = some (514, 0x80, 0x06, 0x81) ∧
    ((load_rom shr_129_rom new).bind (run [0, 0])).map
      (fun s => (s.registers 0, s.registers 0xF)) = some (0x40, 0) ∧
    0x81 % 2 = 1 :=
  ⟨rfl, rfl, by decide⟩

end StdStack.Chip8

/-- C3 (failing input): with `V0 = 5`, `V1 = 10`, the instruction `8015` leaves
`V0 = 251` and `VF = 1` in `chip8.cc` (the flag is `Vy > Vx`) and in `chip8.cpp`
(the flag is `Vx > Vy` on the wrapped difference), although a borrow occurred
(`5 < 10`). -/
theorem sub_flag_set_on_borrow :
    ((ArrayStack.Chip8.load_rom sub_5_10_rom ArrayStack.Chip8.new).bind
        (ArrayStack.Chip8.run [0, 0])).map
      (fun s => (s.pc, s.memory 516, s.memory 517, s.registers 0, s.registers 1))
      = some (516, 0x80, 0x15, 5, 10) ∧
    ((ArrayStack.Chip8.load_rom sub_5_10_rom ArrayStack.Chip8.new).bind
        (ArrayStack.Chip8.run [0, 0, 0])).map
      (fun s => (s.registers 0, s.registers 0xF)) = some (251, 1) ∧
    ((StdStack.Chip8.load_rom sub_5_10_rom StdStack.Chip8.new).bind
        (StdStack.Chip8.run [0, 0])).map
      (fun s => (s.pc, s.memory 516, s.memory 517, s.registers 0, s.registers 1))
      = some (516, 0x80, 0x15, 5, 10) ∧
    ((StdStack.Chip8.load_rom sub_5_10_rom StdStack.Chip8.new).bind
        (StdStack.Chip8.run [0, 0, 0])).map
      (fun s => (s.registers 0, s.registers 0xF)) = some (251, 1) ∧
    ¬ (5 ≥ 10) :=
  ⟨rfl, rfl, rfl, rfl, by decide⟩

/-- C4 (failing input): with `V0 = 0`, `V1 = 10`, the instruction `8017` leaves
`V0 = 10` and `VF = 0` in `chip8.cc` (the flag is `Vx > Vy`) and in `chip8.cpp`
(the flag is `Vy > Vx` on the new `Vx`), although no borrow occurred
(`10 ≥ 0`). -/
theorem subn_flag_clear_without_borrow :
    ((ArrayStack.Chip8.load_rom subn_0_10_rom ArrayStack.Chip8.new).bind
        (ArrayStack.Chip8.run [0])).map
      (fun s => (s.pc, s.memory 514, s.memory 515, s.registers 0, s.registers 1))
      = some (514, 0x80, 0x17, 0, 10) ∧
    ((ArrayStack.Chip8.load_rom subn_0_10_rom ArrayStack.Chip8.new).bind
        (ArrayStack.Chip8.run [0, 0])).map
      (fun s => (s.registers 0, s.registers 0xF)) = some (10, 0) ∧
    ((StdStack.Chip8.load_rom subn_0_10_rom StdStack.Chip8.new).bind
        (StdStack.Chip8.run [0])).map
      (fun s => (s.pc, s.memory 514, s.memory 515, s.registers 0, s.registers 1))
      = some (514, 0x80, 0x17, 0, 10) ∧
    ((StdStack.Chip8.load_rom subn_0_10_rom StdStack.Chip8.new).bind
        (StdStack.Chip8.run [0, 0])).map
      (fun s => (s.registers 0, s.registers 0xF)) = some (10, 0) ∧
    10 ≥ 0 :=
  ⟨rfl, rfl, rfl, rfl, by decide⟩

/-- C7 (failing input): with `V0 = 0b10000000`, the instruction `800E` leaves
`V0 = 0` and `VF = 0` in `chip8.cpp`, although bit 7 of the old `V0` is 1 (`VF` is
read from `V0` after the shift); `chip8.cc` leaves `V0 = 0` and `VF = 1`. -/
theorem shl_flag_from_shifted_value :
    ((StdStack.Chip8.load_rom shl_128_rom StdStack.Chip8.new).bind
        (StdStack.Chip8.run [0])).map
      (fun s => (s.pc, s.memory 514, s.memory 515, s.registers 0)) = some (514, 0x80, 0x0E, 0x80) ∧
    ((StdStack.Chip8.load_rom shl_128_rom StdStack.Chip8.new).bind
        (StdStack.Chip8.run [0, 0])).map
      (fun s => (s.registers 0, s.registers 0xF)) = some (0, 0) ∧
    ((ArrayStack.Chip8.load_rom shl_128_rom ArrayStack.Chip8.new).bind
        (ArrayStack.Chip8.run [0, 0])).map
      (fun s => (s.registers 0, s.registers 0xF)) = some (0, 1) ∧
    0x80 / 128 % 2 = 1 :=
  ⟨rfl, rfl, rfl, by decide⟩

/-! ## Sprite drawing in `chip8.cpp` -/

namespace StdStack.Chip8

/-- Distinct sprite bits of one `Dxyn` address distinct framebuffer cells. -/
theorem coord_inj (x_pos y_pos i j i2 j2 : Nat)
    (hi : i < 16) (hj : j < 8) (hi2 : i2 < 16) (hj2 : j2 < 8)
    (h : coord x_pos y_pos i j = coord x_pos y_pos i2 j2) : i = i2 ∧ j = j2 := by
  unfold coord u16 at h
  omega

theorem DrawInv.refl (s : Chip8) : DrawInv ∅ s s := by
  refine ⟨rfl, rfl, ?_, ?_, ?_, ?_⟩ <;> simp

theorem DrawInv.trans {D1 D2 : Set Nat} {s s1 s2 : Chip8}
    (h1 : DrawInv D1 s s1) (h2 : DrawInv D2 s1 s2) (hd : ∀ c, c ∈ D1 → c ∉ D2) :
    DrawInv (D1 ∪ D2) s s2 := by
  obtain ⟨m1, i1, t1, k1, v1, w1⟩ := h1
  obtain ⟨m2, i2, t2, k2, v2, w2⟩ := h2
  have hcol : (∃ c, c ∈ D2 ∧ s1.pixels c = 1) ↔ (∃ c, c ∈ D2 ∧ s.pixels c = 1) := by
    constructor
    · rintro ⟨c, hc, h⟩
      exact ⟨c, hc, by rw [← k1 c (fun h' => hd c h' hc)]; exact h⟩
    · rintro ⟨c, hc, h⟩
      exact ⟨c, hc, by rw [k1 c (fun h' => hd c h' hc)]; exact h⟩
  refine ⟨m2.trans m1, i2.trans i1, ?_, ?_, ?_, ?_⟩
  · intro c hc
    rcases hc with hc | hc
    · rw [k2 c (hd c hc), t1 c hc]
    · rw [t2 c hc, k1 c (fun h' => hd c h' hc)]
  · intro c hc
    have hc1 : c ∉ D1 := fun h => hc (Or.inl h)
    have hc2 : c ∉ D2 := fun h => hc (Or.inr h)
    rw [k2 c hc2, k1 c hc1]
  · rintro ⟨c, hc, h⟩
    by_cases h2c : ∃ c, c ∈ D2 ∧ s1.pixels c = 1
    · exact v2 h2c
    · rw [w2 h2c]
      rcases hc with hc | hc
      · exact v1 ⟨c, hc, h⟩
      · exact absurd (hcol.2 ⟨c, hc, h⟩) h2c
  · intro hno
    have n1 : ¬ ∃ c, c ∈ D1 ∧ s.pixels c = 1 := fun ⟨c, hc, h⟩ => hno ⟨c, Or.inl hc, h⟩
    have n2 : ¬ ∃ c, c ∈ D2 ∧ s1.pixels c = 1 := fun h =>
      let ⟨c, hc, h'⟩ := hcol.1 h
      hno ⟨c, Or.inr hc, h'⟩
    rw [w2 n2, w1 n1]

theorem DrawInv.congr {D1 D2 : Set Nat} {s s' : Chip8} (h : DrawInv D1 s s')
    (e : D1 = D2) : DrawInv D2 s s' := e ▸ h

/-- One bit of a sprite row. -/
theorem draw_bit_spec (x_pos y_pos pixel i j : Nat) (s : Chip8) (hj : j < 8)
    (hb : pixel.testBit (7 - j) = true → coord x_pos y_pos i j < DISPLAY_SIZE) :
    ∃ s', draw_bit x_pos y_pos pixel i s j = some s' ∧
      DrawInv {c | pixel.testBit (7 - j) = true ∧ c = coord x_pos y_pos i j} s s' := by
  unfold draw_bit
  by_cases hbit : pixel.testBit (7 - j) = true
  · have ht : pixel &&& (0x80 >>> j) ≠ 0 := (sprite_bit_test pixel j hj).2 hbit
    have hc := hb hbit
    rw [if_pos ht]
    simp only [hc, if_true]
    refine ⟨_, rfl, ?_, ?_, ?_, ?_, ?_, ?_⟩
    · split_ifs <;> rfl
    · split_ifs <;> rfl
    · rintro c ⟨-, rfl⟩
      split_ifs <;> simp [aset]
    · intro c hc'
      have hne : c ≠ coord x_pos y_pos i j := fun h => hc' ⟨hbit, h⟩
      split_ifs <;> simp [aset, hne]
    · rintro ⟨c, ⟨-, rfl⟩, h⟩
      simp [h, aset]
    · intro hno
      have hne : s.pixels (coord x_pos y_pos i j) ≠ 1 := fun h => hno ⟨_, ⟨hbit, rfl⟩, h⟩
      simp [hne]
  · have ht : ¬ pixel &&& (0x80 >>> j) ≠ 0 := fun h => hbit ((sprite_bit_test pixel j hj).1 h)
    rw [if_neg ht]
    refine ⟨s, rfl, DrawInv.congr (DrawInv.refl s) ?_⟩
    ext c
    simp [hbit]

/-- The inner loop of `Dxyn`, after `m` of its 8 iterations. -/
theorem draw_bits_spec (x_pos y_pos pixel i : Nat) (s : Chip8) (hi : i < 16) (m : Nat)
    (hm : m ≤ 8)
    (hb : ∀ j, j < m → pixel.testBit (7 - j) = true → coord x_pos y_pos i j < DISPLAY_SIZE) :
    ∃ s', (List.range m).foldlM (draw_bit x_pos y_pos pixel i) s = some s' ∧
      DrawInv {c | ∃ j, j < m ∧ pixel.testBit (7 - j) = true ∧ c = coord x_pos y_pos i j} s s' := by
  induction m with
  | zero =>
    refine ⟨s, rfl, DrawInv.congr (DrawInv.refl s) ?_⟩
    ext c
    simp
  | succ m ih =>
    obtain ⟨s1, e1, inv1⟩ := ih (by omega) (fun j hj => hb j (by omega))
    obtain ⟨s2, e2, inv2⟩ := draw_bit_spec x_pos y_pos pixel i m s1 (by omega) (hb m (by omega))
    refine ⟨s2, ?_, DrawInv.congr (DrawInv.trans inv1 inv2 ?_) ?_⟩
    · rw [List.range_succ, List.foldlM_append, e1]
      simpa using e2
    · rintro c ⟨j, hj, -, rfl⟩ ⟨-, h⟩
      have := coord_inj x_pos y_pos i j i m hi (by omega) hi (by omega) h
      omega
    · ext c
      simp only [Set.mem_union, Set.mem_setOf_eq]
      constructor
      · rintro (⟨j, hj, hbit, rfl⟩ | ⟨hbit, rfl⟩)
        · exact ⟨j, by omega, hbit, rfl⟩
        · exact ⟨m, by omega, hbit, rfl⟩
      · rintro ⟨j, hj, hbit, rfl⟩
        by_cases hjm : j = m
        · subst hjm; exact Or.inr ⟨hbit, rfl⟩
        · exact Or.inl ⟨j, by omega, hbit, rfl⟩

/-- The outer loop of `Dxyn`, after `m` iterations. -/
theorem draw_rows_spec (x_pos y_pos : Nat) (s : Chip8) (m : Nat) (hm : m ≤ 16)
    (hrows : ∀ i, i < m → s.index + i < MEMORY_SIZE)
    (hcells : ∀ c, c ∈ sprite_cells s.memory s.index x_pos y_pos m → c < DISPLAY_SIZE) :
    ∃ s', (List.range m).foldlM (draw_row x_pos y_pos) s = some s' ∧
      DrawInv (sprite_cells s.memory s.index x_pos y_pos m) s s' := by
  induction m with
  | zero =>
    refine ⟨s, rfl, DrawInv.congr (DrawInv.refl s) ?_⟩
    ext c
    simp [sprite_cells]
  | succ m ih =>
    obtain ⟨s1, e1, inv1⟩ := ih (by omega) (fun i hi => hrows i (by omega))
      (fun c ⟨i, hi, h⟩ => hcells c ⟨i, by omega, h⟩)
    have hmem : s1.memory = s.memory := inv1.1
    have hidx : s1.index = s.index := inv1.2.1
    obtain ⟨s2, e2, inv2⟩ := draw_bits_spec x_pos y_pos (s.memory (s.index + m)) m s1
      (by omega) 8 (le_refl 8)
      (fun j hj hbit => hcells _ ⟨m, by omega, j, hj, hbit, rfl⟩)
    refine ⟨s2, ?_, DrawInv.congr (DrawInv.trans inv1 inv2 ?_) ?_⟩
    · rw [List.range_succ, List.foldlM_append, e1]
      have hr : s1.index + m < MEMORY_SIZE := by rw [hidx]; exact hrows m (by omega)
      have hrow : draw_row x_pos y_pos s1 m = some s2 := by
        unfold draw_row
        rw [if_pos hr, hmem, hidx]
        exact e2
      simp [hrow]
    · rintro c ⟨i, hi, j, hj, -, rfl⟩ ⟨j2, hj2, -, h⟩
      have := coord_inj x_pos y_pos i j m j2 (by omega) hj (by omega) hj2 h
      omega
    · ext c
      simp only [Set.mem_union, Set.mem_setOf_eq, sprite_cells]
      constructor
      · rintro (⟨i, hi, h⟩ | h)
        · exact ⟨i, by omega, h⟩
        · exact ⟨m, by omega, h⟩
      · rintro ⟨i, hi, h⟩
        by_cases him : i = m
        · subst him; exact Or.inr h
        · exact Or.inl ⟨i, by omega, h⟩

/-- With `Dxyn` at `pc`, one step of `chip8.cpp` is the drawing loop run on the
state after the fetch with `VF` cleared, followed by setting the draw flag. -/
theorem execute_Dxyn (rnd : Nat) (s : Chip8) (x y n : Nat)
    (hx : x < 16) (hy : y < 16) (hn : n < 16) (hpc : s.pc + 1 < MEMORY_SIZE)
    (h0 : s.memory s.pc = 0xD0 + x) (h1 : s.memory (s.pc + 1) = 16 * y + n) :
    execute_instruction rnd s =
      ((List.range n).foldlM (draw_row (s.registers x) (s.registers y))
        { s with pc := u16 (s.pc + 2), registers := aset s.registers 0xF 0 }).map
        (fun s2 => { s2 with draw_flag := true }) := by
  obtain ⟨d1, d2, d3, d4, -, -⟩ := decode_fields (0xD0 + x) (16 * y + n) (by omega) (by omega)
  have e1 : (0xD0 + x) / 16 * 4096 = 0xD000 := by omega
  have e2 : (0xD0 + x) % 16 = x := by omega
  have e3 : (16 * y + n) / 16 = y := by omega
  have e4 : (16 * y + n) % 16 = n := by omega
  rw [e1] at d1; rw [e2] at d2; rw [e3] at d3; rw [e4] at d4
  unfold execute_instruction
  simp only [hpc, h0, h1, d1, d2, d3, d4]
  simp

/-- C8: in `chip8.cpp`, when the sprite rows and the target cells are in bounds,
`Dxyn` XORs with 1 exactly the framebuffer cells addressed by the set sprite bits
(row `i`, bit `j` from the most significant bit), keeps every other cell, and
leaves `VF = 1` iff one of these cells held 1 before the instruction, `VF = 0`
otherwise. -/
theorem draw_xor_and_collision (rnd : Nat) (s : Chip8) (x y n : Nat) (hwf : s.WF)
    (hx : x < 16) (hy : y < 16) (hn : n < 16) (hpc : s.pc + 1 < MEMORY_SIZE)
    (h0 : s.memory s.pc = 0xD0 + x) (h1 : s.memory (s.pc + 1) = 16 * y + n)
    (hrows : ∀ i, i < n → s.index + i < MEMORY_SIZE)
    (hcells : ∀ c, c ∈ sprite_cells s.memory s.index (s.registers x) (s.registers y) n →
      c < DISPLAY_SIZE) :
    ∃ s', execute_instruction rnd s = some s' ∧
      (∀ c, c ∈ sprite_cells s.memory s.index (s.registers x) (s.registers y) n →
        s'.pixels c = s.pixels c ^^^ 1) ∧
      (∀ c, c ∉ sprite_cells s.memory s.index (s.registers x) (s.registers y) n →
        s'.pixels c = s.pixels c) ∧
      (s'.registers 0xF = 1 ↔
        ∃ c, c ∈ sprite_cells s.memory s.index (s.registers x) (s.registers y) n ∧
          s.pixels c = 1) ∧
      (s'.registers 0xF = 0 ↔
        ¬ ∃ c, c ∈ sprite_cells s.memory s.index (s.registers x) (s.registers y) n ∧
          s.pixels c = 1) := by
  obtain ⟨s2, e2, -, -, t, k, v, w⟩ := draw_rows_spec (s.registers x) (s.registers y)
    { s with pc := u16 (s.pc + 2), registers := aset s.registers 0xF 0 } n (by omega)
    hrows hcells
  have hVF0 : aset s.registers 0xF 0 0xF = 0 := by simp [aset]
  refine ⟨{ s2 with draw_flag := true }, ?_, ?_, ?_, ?_, ?_⟩
  · rw [execute_Dxyn rnd s x y n hx hy hn hpc h0 h1, e2]
    rfl
  · intro c hc
    have hlt : s.pixels c < 256 := hwf.2.1 c (hcells c hc)
    have hx1 : s.pixels c ^^^ 1 < 2 ^ 8 := Nat.xor_lt_two_pow (by simpa using hlt) (by norm_num)
    have := t c hc
    simp only [u8] at this
    rw [this]
    omega
  · intro c hc
    exact k c hc
  · constructor
    · intro h
      by_contra hno
      have := w hno
      simp only [hVF0] at this
      simp only [this] at h
      omega
    · intro h
      exact v h
  · constructor
    · intro h hex
      have := v hex
      simp only [this] at h
      omega
    · intro hno
      have := w hno
      simpa [hVF0] using this

theorem draw_example_WF : draw_example.WF := by
  refine ⟨?_, ?_, by simp [draw_example], by simp [draw_example], by simp [draw_example],
    by simp [draw_example], by simp [draw_example], by simp [draw_example]⟩
  · intro a _
    simp only [draw_example]
    split_ifs <;> omega
  · intro c _
    simp only [draw_example]
    split_ifs <;> omega

/-- Instance of `draw_xor_and_collision` at `draw_example`: cell 0 (set before) is
cleared, cells 3 and 64 are set, cell 65 is kept, and `VF = 1`. -/
theorem draw_xor_and_collision_witness :
    draw_example.WF ∧
    ∃ s', execute_instruction 0 draw_example = some s' ∧
      s'.pixels 0 = 0 ∧ s'.pixels 3 = 1 ∧ s'.pixels 64 = 1 ∧ s'.pixels 65 = 0 ∧
      s'.registers 0xF = 1 := by
  refine ⟨draw_example_WF, ?_⟩
  obtain ⟨s', e, t, k, v, -⟩ := draw_xor_and_collision 0 draw_example 0 1 2 draw_example_WF
    (by decide) (by decide) (by decide) (by decide) (by decide) (by decide)
    (by intro i hi; simp only [draw_example, MEMORY_SIZE]; omega)
    (by
      rintro c ⟨i, hi, j, hj, -, rfl⟩
      simp only [coord, u16, draw_example, DISPLAY_SIZE]
      omega)
  refine ⟨s', e, ?_, ?_, ?_, ?_, ?_⟩
  · rw [t 0 (by decide)]; rfl
  · rw [t 3 (by decide)]; rfl
  · rw [t 64 (by decide)]; rfl
  · rw [k 65 (by decide)]; rfl
  · exact v.2 ⟨0, by decide, rfl⟩

/-- C10 (failing input): in `chip8.cpp`, drawing the row `0xF0` at `V0 = 62`,
`V1 = 31` computes for row 0, bit 2 the index `62 + 2 + (31 * 64) % 2048 = 2048`,
which is outside the framebuffer, whereas `(62 + 2 + 31 * 64) mod 2048 = 0`: the
`% 2048` of the source applies to the row term only.  The access `pixels[2048]`
is out of bounds, so the step has no defined result. -/
theorem coord_wraps_row_term_only :
    ((load_rom corner_rom new).bind (run [0, 0, 0])).map
      (fun s => (s.pc, s.memory 518, s.memory 519, s.index, s.memory 0, s.registers 0,
        s.registers 1)) = some (518, 0xD0, 0x11, 0, 0xF0, 62, 31) ∧
    (0xF0 : Nat).testBit (7 - 2) = true ∧
    coord 62 31 0 2 = 2048 ∧
    ¬ coord 62 31 0 2 < DISPLAY_SIZE ∧
    (62 + 2 + (31 + 0) * 64) % 2048 = 0 ∧
    (load_rom corner_rom new).bind (run [0, 0, 0, 0]) = none :=
  ⟨rfl, by decide, by decide, by decide, by decide, rfl⟩

end StdStack.Chip8

/-! ## Sprite drawing in `chip8.cc` -/

namespace ArrayStack.Chip8

/-- C9 (failing input): in `chip8.cc`, after the row `0xF0` was drawn at `(0, 0)`,
drawing it again at `(2, 0)` toggles cells 2, 3, 4, 5, of which cells 2 and 3 held
1, and leaves `VF = 0`: every drawn pixel overwrites `VF` with the old value of its
own cell, so `VF` is the old value of the last cell drawn (cell 5, which held 0)
and not the OR over the sprite. -/
theorem draw_collision_overwritten :
    ((load_rom overlap_rom new).bind (run [0, 0, 0])).map
      (fun s => (s.pc, s.memory 518, s.memory 519, s.index, s.memory 0, s.registers 0,
        s.registers 1, [s.display 2, s.display 3, s.display 4, s.display 5]))
      = some (518, 0xD0, 0x11, 0, 0xF0, 2, 0, [1, 1, 0, 0]) ∧
    ((load_rom overlap_rom new).bind (run [0, 0, 0, 0])).map
      (fun s => (s.registers 0xF, [s.display 2, s.display 3, s.display 4, s.display 5]))
      = some (0, [0, 0, 1, 1]) :=
  ⟨rfl, rfl⟩

end ArrayStack.Chip8

/-! ## Key wait, unassigned opcodes and timers -/

namespace ArrayStack.Chip8

/-- With `FxKK` at `pc`, one step of `chip8.cc` is `exec_F` after the fetch. -/
theorem execute_FxKK_cc (rnd : Nat) (s : Chip8) (x kk : Nat)
    (hx : x < 16) (hkk : kk < 256) (hpc : s.pc + 1 < MEMORY_SIZE)
    (h0 : s.memory s.pc = 0xF0 + x) (h1 : s.memory (s.pc + 1) = kk) :
    execute_instruction rnd s = exec_F x kk { s with pc := u16 (s.pc + 2) } := by
  obtain ⟨d1, d2, -, -, d5, -⟩ := decode_fields (0xF0 + x) kk (by omega) hkk
  have e1 : (0xF0 + x) / 16 * 4096 = 0xF000 := by omega
  have e2 : (0xF0 + x) % 16 = x := by omega
  rw [e1] at d1; rw [e2] at d2
  unfold execute_instruction
  simp only [hpc, h0, h1, d1, d2, d5]
  simp

/-- In `chip8.cc`, `Fx0A` with no key pressed gives back the state it started
from. -/
theorem key_wait_step_cc (rnd : Nat) (s : Chip8) (x : Nat)
    (hx : x < 16) (hpc : s.pc + 1 < MEMORY_SIZE)
    (h0 : s.memory s.pc = 0xF0 + x) (h1 : s.memory (s.pc + 1) = 0x0A)
    (hk : ∀ i, i < NUM_KEYS → s.keys i = false) :
    execute_instruction rnd s = some s := by
  rw [execute_FxKK_cc rnd s x 0x0A hx (by decide) hpc h0 h1]
  have hf : (List.range NUM_KEYS).find? (fun i => s.keys i) = none := by
    rw [List.find?_eq_none]
    intro i hi
    simp [hk i (List.mem_range.1 hi)]
  have hp : u16i (((u16 (s.pc + 2) : Nat) : Int) - 2) = s.pc := by
    simp only [u16i, u16, MEMORY_SIZE] at *
    omega
  simp only [exec_F, hf]
  simp only [hp]
  cases s
  simp

/-- In `chip8.cc`, a state that a step maps to itself is kept by every run. -/
theorem run_fixed_cc (s : Chip8) (h : ∀ rnd, execute_instruction rnd s = some s)
    (rnds : List Nat) : run rnds s = some s := by
  induction rnds with
  | nil => rfl
  | cons r rs ih =>
    unfold run at ih ⊢
    rw [List.foldlM_cons, h r]
    exact ih

/-- In `chip8.cc`, an opcode that the dispatch does not recognise only advances
`pc`. -/
theorem unrecognised_step_cc (rnd : Nat) (s : Chip8) (opcode : Nat)
    (hop : opcode < 65536) (hun : unrecognised opcode) (hpc : s.pc + 1 < MEMORY_SIZE)
    (h0 : s.memory s.pc = opcode / 256) (h1 : s.memory (s.pc + 1) = opcode % 256) :
    execute_instruction rnd s = some { s with pc := s.pc + 2 } := by
  obtain ⟨d1, d2, d3, d4, d5, d6⟩ :=
    decode_fields (opcode / 256) (opcode % 256) (by omega) (by omega)
  have hw : u16 ((opcode / 256) <<< 8 ||| opcode % 256) = opcode := by
    rw [opcode_eq _ _ (by omega) (by omega)]; omega
  rw [hw] at d1 d2 d3 d4 d5 d6
  have hp : u16 (s.pc + 2) = s.pc + 2 := by
    simp only [u16, MEMORY_SIZE] at *; omega
  unfold execute_instruction
  simp only [hpc, h0, h1, hw, d1, d2, d3, d4, d5, d6, hp, if_true]
  rcases hun with ⟨h, ha, hb⟩ | ⟨h, hn⟩ | ⟨h, hk⟩ | ⟨h, hk⟩
  · have e : opcode / 256 / 16 * 4096 = 0 := by omega
    simp [e, ha, hb]
  · have e : opcode / 256 / 16 * 4096 = 0x8000 := by omega
    have en : opcode % 256 % 16 = opcode % 16 := by omega
    simp only [List.mem_cons, List.mem_singleton, List.not_mem_nil, or_false, not_or] at hn
    obtain ⟨n0, n1, n2, n3, n4, n5, n6, n7, n8⟩ := hn
    simp [e, en, exec_8, n0, n1, n2, n3, n4, n5, n6, n7, n8]
  · have e : opcode / 256 / 16 * 4096 = 0xE000 := by omega
    simp only [List.mem_cons, List.mem_singleton, List.not_mem_nil, or_false, not_or] at hk
    obtain ⟨k0, k1⟩ := hk
    simp [e, k0, k1]
  · have e : opcode / 256 / 16 * 4096 = 0xF000 := by omega
    simp only [List.mem_cons, List.mem_singleton, List.not_mem_nil, or_false, not_or] at hk
    obtain ⟨k0, k1, k2, k3, k4, k5, k6, k7, k8⟩ := hk
    simp [e, exec_F, k0, k1, k2, k3, k4, k5, k6, k7, k8]

/-- In `chip8.cc`, `decrement_timers` lowers each timer that is above 0 by one and
changes no other field. -/
theorem decrement_timers_spec_cc (s : Chip8) (hd : s.delay_timer < 256)
    (hs : s.sound_timer < 256) :
    decrement_timers s =
      { s with delay_timer := s.delay_timer - 1, sound_timer := s.sound_timer - 1 } := by
  have e1 : u8i ((s.delay_timer : Int) - 1) = s.delay_timer - 1 ∨ s.delay_timer = 0 := by
    simp only [u8i]; omega
  have e2 : u8i ((s.sound_timer : Int) - 1) = s.sound_timer - 1 ∨ s.sound_timer = 0 := by
    simp only [u8i]; omega
  unfold decrement_timers
  cases s with
  | mk stack memory display registers keys sp pc index delay_timer sound_timer draw_flag =>
    simp only at e1 e2 ⊢
    by_cases hd0 : delay_timer = 0 <;> by_cases hs0 : sound_timer = 0
    · simp [hd0, hs0]
    · have := e2.resolve_right hs0
      simp [hd0, Nat.pos_of_ne_zero hs0, this]
    · have := e1.resolve_right hd0
      simp [hs0, Nat.pos_of_ne_zero hd0, this]
    · have := e1.resolve_right hd0
      have := e2.resolve_right hs0
      simp [Nat.pos_of_ne_zero hd0, Nat.pos_of_ne_zero hs0, *]

end ArrayStack.Chip8

namespace StdStack.Chip8

/-- With `FxKK` at `pc`, one step of `chip8.cpp` is `exec_F` after the fetch. -/
theorem execute_FxKK_cpp (rnd : Nat) (s : Chip8) (x kk : Nat)
    (hx : x < 16) (hkk : kk < 256) (hpc : s.pc + 1 < MEMORY_SIZE)
    (h0 : s.memory s.pc = 0xF0 + x) (h1 : s.memory (s.pc + 1) = kk) :
    execute_instruction rnd s = exec_F x kk { s with pc := u16 (s.pc + 2) } := by
  obtain ⟨d1, d2, -, -, d5, -⟩ := decode_fields (0xF0 + x) kk (by omega) hkk
  have e1 : (0xF0 + x) / 16 * 4096 = 0xF000 := by omega
  have e2 : (0xF0 + x) % 16 = x := by omega
  rw [e1] at d1; rw [e2] at d2
  unfold execute_instruction
  simp only [hpc, h0, h1, d1, d2, d5]
  simp

/-- In `chip8.cpp`, `Fx0A` with no key pressed gives back the state it started
from. -/
theorem key_wait_step_cpp (rnd : Nat) (s : Chip8) (x : Nat)
    (hx : x < 16) (hpc : s.pc + 1 < MEMORY_SIZE)
    (h0 : s.memory s.pc = 0xF0 + x) (h1 : s.memory (s.pc + 1) = 0x0A)
    (hk : ∀ i, i < NUM_KEYS → s.keys i = false) :
    execute_instruction rnd s = some s := by
  rw [execute_FxKK_cpp rnd s x 0x0A hx (by decide) hpc h0 h1]
  have hf : (List.range NUM_KEYS).find? (fun i => s.keys i) = none := by
    rw [List.find?_eq_none]
    intro i hi
    simp [hk i (List.mem_range.1 hi)]
  have hp : u16i (((u16 (s.pc + 2) : Nat) : Int) - 2) = s.pc := by
    simp only [u16i, u16, MEMORY_SIZE] at *
    omega
  simp only [exec_F, hf]
  simp only [hp]
  cases s
  simp

/-- In `chip8.cpp`, a state that a step maps to itself is kept by every run. -/
theorem run_fixed_cpp (s : Chip8) (h : ∀ rnd, execute_instruction rnd s = some s)
    (rnds : List Nat) : run rnds s = some s := by
  induction rnds with
  | nil => rfl
  | cons r rs ih =>
    unfold run at ih ⊢
    rw [List.foldlM_cons, h r]
    exact ih

/-- In `chip8.cpp`, an opcode that the dispatch does not recognise only advances
`pc`. -/
theorem unrecognised_step_cpp (rnd : Nat) (s : Chip8) (opcode : Nat)
    (hop : opcode < 65536) (hun : unrecognised opcode) (hpc : s.pc + 1 < MEMORY_SIZE)
    (h0 : s.memory s.pc = opcode / 256) (h1 : s.memory (s.pc + 1) = opcode % 256) :
    execute_instruction rnd s = some { s with pc := s.pc + 2 } := by
  obtain ⟨d1, d2, d3, d4, d5, d6⟩ :=
    decode_fields (opcode / 256) (opcode % 256) (by omega) (by omega)
  have hw : u16 ((opcode / 256) <<< 8 ||| opcode % 256) = opcode := by
    rw [opcode_eq _ _ (by omega) (by omega)]; omega
  rw [hw] at d1 d2 d3 d4 d5 d6
  have hp : u16 (s.pc + 2) = s.pc + 2 := by
    simp only [u16, MEMORY_SIZE] at *; omega
  unfold execute_instruction
  simp only [hpc, h0, h1, hw, d1, d2, d3, d4, d5, d6, hp, if_true]
  rcases hun with ⟨h, ha, hb⟩ | ⟨h, hn⟩ | ⟨h, hk⟩ | ⟨h, hk⟩
  · have e : opcode / 256 / 16 * 4096 = 0 := by omega
    simp [e, ha, hb]
  · have e : opcode / 256 / 16 * 4096 = 0x8000 := by omega
    have en : opcode % 256 % 16 = opcode % 16 := by omega
    simp only [List.mem_cons, List.mem_singleton, List.not_mem_nil, or_false, not_or] at hn
    obtain ⟨n0, n1, n2, n3, n4, n5, n6, n7, n8⟩ := hn
    simp [e, en, exec_8, n0, n1, n2, n3, n4, n5, n6, n7, n8]
  · have e : opcode / 256 / 16 * 4096 = 0xE000 := by omega
    simp only [List.mem_cons, List.mem_singleton, List.not_mem_nil, or_false, not_or] at hk
    obtain ⟨k0, k1⟩ := hk
    simp [e, k0, k1]
  · have e : opcode / 256 / 16 * 4096 = 0xF000 := by omega
    simp only [List.mem_cons, List.mem_singleton, List.not_mem_nil, or_false, not_or] at hk
    obtain ⟨k0, k1, k2, k3, k4, k5, k6, k7, k8⟩ := hk
    simp [e, exec_F, k0, k1, k2, k3, k4, k5, k6, k7, k8]

/-- In `chip8.cpp`, `decrement_timers` lowers each timer that is above 0 by one and
changes no other field. -/
theorem decrement_timers_spec_cpp (s : Chip8) (hd : s.delay_timer < 256)
    (hs : s.sound_timer < 256) :
    decrement_timers s =
      { s with delay_timer := s.delay_timer - 1, sound_timer := s.sound_timer - 1 } := by
  have e1 : u8i ((s.delay_timer : Int) - 1) = s.delay_timer - 1 ∨ s.delay_timer = 0 := by
    simp only [u8i]; omega
  have e2 : u8i ((s.sound_timer : Int) - 1) = s.sound_timer - 1 ∨ s.sound_timer = 0 := by
    simp only [u8i]; omega
  unfold decrement_timers
  cases s with
  | mk memory pixels registers keys stack pc index delay_timer sound_timer draw_flag =>
    simp only at e1 e2 ⊢
    by_cases hd0 : delay_timer = 0 <;> by_cases hs0 : sound_timer = 0
    · simp [hd0, hs0]
    · have := e2.resolve_right hs0
      simp [hd0, Nat.pos_of_ne_zero hs0, this]
    · have := e1.resolve_right hd0
      simp [hs0, Nat.pos_of_ne_zero hd0, this]
    · have := e1.resolve_right hd0
      have := e2.resolve_right hs0
      simp [Nat.pos_of_ne_zero hd0, Nat.pos_of_ne_zero hs0, *]

end StdStack.Chip8

namespace ArrayStack.Chip8

theorem wait_example_WF_cc : wait_example.WF := by
  refine ⟨by simp [wait_example], ?_, by simp [wait_example], by simp [wait_example],
    by simp [wait_example], by simp [wait_example], by simp [wait_example],
    by simp [wait_example], by simp [wait_example]⟩
  intro a _
  simp only [wait_example]
  split_ifs <;> omega

theorem timer_example_WF_cc : timer_example.WF := by
  obtain ⟨h1, h2, h3, h4, h5, h6, h7, -, h9⟩ := wait_example_WF_cc
  exact ⟨h1, h2, h3, h4, h5, h6, h7, by decide, h9⟩

end ArrayStack.Chip8

namespace StdStack.Chip8

theorem wait_example_WF_cpp : wait_example.WF := by
  refine ⟨?_, by simp [wait_example], by simp [wait_example], by simp [wait_example],
    by simp [wait_example], by simp [wait_example], by simp [wait_example],
    by simp [wait_example]⟩
  intro a _
  simp only [wait_example]
  split_ifs <;> omega

theorem timer_example_WF_cpp : timer_example.WF := by
  obtain ⟨h1, h2, h3, h4, h5, h6, -, h8⟩ := wait_example_WF_cpp
  exact ⟨h1, h2, h3, h4, h5, h6, by decide, h8⟩

end StdStack.Chip8

/-- C12: in both variants, `Fx0A` executed with all 16 key flags false gives back
exactly the state it started from (same `pc`, registers, memory, index, stack,
timers, framebuffer and draw flag), so every run of any number of steps from that
state re-executes the same instruction and ends in the same state. -/
theorem key_wait_self_loop :
    (∀ (s : ArrayStack.Chip8) (x : Nat), x < 16 → s.pc + 1 < MEMORY_SIZE →
      s.memory s.pc = 0xF0 + x → s.memory (s.pc + 1) = 0x0A →
      (∀ i, i < NUM_KEYS → s.keys i = false) →
      (∀ rnd, ArrayStack.Chip8.execute_instruction rnd s = some s) ∧
      (∀ rnds, ArrayStack.Chip8.run rnds s = some s)) ∧
    (∀ (s : StdStack.Chip8) (x : Nat), x < 16 → s.pc + 1 < MEMORY_SIZE →
      s.memory s.pc = 0xF0 + x → s.memory (s.pc + 1) = 0x0A →
      (∀ i, i < NUM_KEYS → s.keys i = false) →
      (∀ rnd, StdStack.Chip8.execute_instruction rnd s = some s) ∧
      (∀ rnds, StdStack.Chip8.run rnds s = some s)) := by
  constructor
  · intro s x hx hpc h0 h1 hk
    have h := fun rnd => ArrayStack.Chip8.key_wait_step_cc rnd s x hx hpc h0 h1 hk
    exact ⟨h, ArrayStack.Chip8.run_fixed_cc s h⟩
  · intro s x hx hpc h0 h1 hk
    have h := fun rnd => StdStack.Chip8.key_wait_step_cpp rnd s x hx hpc h0 h1 hk
    exact ⟨h, StdStack.Chip8.run_fixed_cpp s h⟩

/-- Instance of `key_wait_self_loop` at the two `wait_example` states (`F30A` at
`pc = 512`, no key pressed): one step and a run of three steps both end in the
starting state. -/
theorem key_wait_self_loop_witness :
    (ArrayStack.Chip8.execute_instruction 0 ArrayStack.Chip8.wait_example
        = some ArrayStack.Chip8.wait_example ∧
      ArrayStack.Chip8.run [0, 0, 0] ArrayStack.Chip8.wait_example
        = some ArrayStack.Chip8.wait_example) ∧
    (StdStack.Chip8.execute_instruction 0 StdStack.Chip8.wait_example
        = some StdStack.Chip8.wait_example ∧
      StdStack.Chip8.run [0, 0, 0] StdStack.Chip8.wait_example
        = some StdStack.Chip8.wait_example) := by
  have hc := key_wait_self_loop.1 ArrayStack.Chip8.wait_example 3 (by decide) (by decide)
    (by decide) (by decide) (fun _ _ => rfl)
  have hp := key_wait_self_loop.2 StdStack.Chip8.wait_example 3 (by decide) (by decide)
    (by decide) (by decide) (fun _ _ => rfl)
  exact ⟨⟨hc.1 0, hc.2 [0, 0, 0]⟩, ⟨hp.1 0, hp.2 [0, 0, 0]⟩⟩

/-- C13 (failing input): in both variants, `F00A` executed with key 5 as the only
pressed key leaves `V0 = 1` and `pc = 514`: the code stores the flag `keys[i]`
(converted to 1) instead of the index `i = 5`. -/
theorem key_wait_stores_flag_not_index :
    ((ArrayStack.Chip8.load_rom key_wait_rom ArrayStack.Chip8.new).bind
        (ArrayStack.Chip8.handle_keypress 5)).map
      (fun s => (s.pc, s.memory 512, s.memory 513, (List.range 16).map s.keys,
        s.registers 0))
      = some (512, 0xF0, 0x0A,
          [false, false, false, false, false, true, false, false,
           false, false, false, false, false, false, false, false], 0) ∧
    (((ArrayStack.Chip8.load_rom key_wait_rom ArrayStack.Chip8.new).bind
        (ArrayStack.Chip8.handle_keypress 5)).bind
        (ArrayStack.Chip8.execute_instruction 0)).map
      (fun s => (s.registers 0, s.pc)) = some (1, 514) ∧
    ((StdStack.Chip8.load_rom key_wait_rom StdStack.Chip8.new).bind
        (StdStack.Chip8.handle_keypress 5)).map
      (fun s => (s.pc, s.memory 512, s.memory 513, (List.range 16).map s.keys,
        s.registers 0))
      = some (512, 0xF0, 0x0A,
          [false, false, false, false, false, true, false, false,
           false, false, false, false, false, false, false, false], 0) ∧
    (((StdStack.Chip8.load_rom key_wait_rom StdStack.Chip8.new).bind
        (StdStack.Chip8.handle_keypress 5)).bind
        (StdStack.Chip8.execute_instruction 0)).map
      (fun s => (s.registers 0, s.pc)) = some (1, 514) :=
  ⟨rfl, rfl, rfl, rfl⟩

/-- C17: in both variants, for every state whose values fit their types,
`decrement_timers` leaves each of `delay_timer` and `sound_timer` one lower when it
was above 0 and at 0 when it was 0, and changes no other field; a timer at 5 is 3
after two calls. -/
theorem decrement_timers_floor_at_zero :
    (∀ s : ArrayStack.Chip8, s.WF →
      (ArrayStack.Chip8.decrement_timers s).delay_timer
        = (if s.delay_timer > 0 then s.delay_timer - 1 else 0) ∧
      (ArrayStack.Chip8.decrement_timers s).sound_timer
        = (if s.sound_timer > 0 then s.sound_timer - 1 else 0) ∧
      ArrayStack.Chip8.decrement_timers s =
        { s with delay_timer := (ArrayStack.Chip8.decrement_timers s).delay_timer,
                 sound_timer := (ArrayStack.Chip8.decrement_timers s).sound_timer } ∧
      (s.delay_timer = 5 → (ArrayStack.Chip8.decrement_timers
        (ArrayStack.Chip8.decrement_timers s)).delay_timer = 3) ∧
      (s.sound_timer = 5 → (ArrayStack.Chip8.decrement_timers
        (ArrayStack.Chip8.decrement_timers s)).sound_timer = 3)) ∧
    (∀ s : StdStack.Chip8, s.WF →
      (StdStack.Chip8.decrement_timers s).delay_timer
        = (if s.delay_timer > 0 then s.delay_timer - 1 else 0) ∧
      (StdStack.Chip8.decrement_timers s).sound_timer
        = (if s.sound_timer > 0 then s.sound_timer - 1 else 0) ∧
      StdStack.Chip8.decrement_timers s =
        { s with delay_timer := (StdStack.Chip8.decrement_timers s).delay_timer,
                 sound_timer := (StdStack.Chip8.decrement_timers s).sound_timer } ∧
      (s.delay_timer = 5 → (StdStack.Chip8.decrement_timers
        (StdStack.Chip8.decrement_timers s)).delay_timer = 3) ∧
      (s.sound_timer = 5 → (StdStack.Chip8.decrement_timers
        (StdStack.Chip8.decrement_timers s)).sound_timer = 3)) := by
  constructor
  · intro s hwf
    obtain ⟨-, -, -, -, -, -, -, hd, hs⟩ := hwf
    have e := ArrayStack.Chip8.decrement_timers_spec_cc s hd hs
    have e2 := ArrayStack.Chip8.decrement_timers_spec_cc (ArrayStack.Chip8.decrement_timers s)
      (by rw [e]; show s.delay_timer - 1 < 256; omega)
      (by rw [e]; show s.sound_timer - 1 < 256; omega)
    refine ⟨?_, ?_, ?_, ?_, ?_⟩
    · rw [e]; show s.delay_timer - 1 = _; split_ifs <;> omega
    · rw [e]; show s.sound_timer - 1 = _; split_ifs <;> omega
    · rw [e]
    · intro h5; rw [e2, e]; show s.delay_timer - 1 - 1 = 3; omega
    · intro h5; rw [e2, e]; show s.sound_timer - 1 - 1 = 3; omega
  · intro s hwf
    obtain ⟨-, -, -, -, -, -, hd, hs⟩ := hwf
    have e := StdStack.Chip8.decrement_timers_spec_cpp s hd hs
    have e2 := StdStack.Chip8.decrement_timers_spec_cpp (StdStack.Chip8.decrement_timers s)
      (by rw [e]; show s.delay_timer - 1 < 256; omega)
      (by rw [e]; show s.sound_timer - 1 < 256; omega)
    refine ⟨?_, ?_, ?_, ?_, ?_⟩
    · rw [e]; show s.delay_timer - 1 = _; split_ifs <;> omega
    · rw [e]; show s.sound_timer - 1 = _; split_ifs <;> omega
    · rw [e]
    · intro h5; rw [e2, e]; show s.delay_timer - 1 - 1 = 3; omega
    · intro h5; rw [e2, e]; show s.sound_timer - 1 - 1 = 3; omega

/-- Instance of `decrement_timers_floor_at_zero` at the two `timer_example` states
(`delay_timer = 5`, `sound_timer = 0`): one call gives 4 and 0, two calls give 3. -/
theorem decrement_timers_floor_at_zero_witness :
    (ArrayStack.Chip8.timer_example.WF ∧
      (ArrayStack.Chip8.decrement_timers ArrayStack.Chip8.timer_example).delay_timer = 4 ∧
      (ArrayStack.Chip8.decrement_timers ArrayStack.Chip8.timer_example).sound_timer = 0 ∧
      (ArrayStack.Chip8.decrement_timers (ArrayStack.Chip8.decrement_timers
        ArrayStack.Chip8.timer_example)).delay_timer = 3) ∧
    (StdStack.Chip8.timer_example.WF ∧
      (StdStack.Chip8.decrement_timers StdStack.Chip8.timer_example).delay_timer = 4 ∧
      (StdStack.Chip8.decrement_timers StdStack.Chip8.timer_example).sound_timer = 0 ∧
      (StdStack.Chip8.decrement_timers (StdStack.Chip8.decrement_timers
        StdStack.Chip8.timer_example)).delay_timer = 3) := by
  obtain ⟨c1, c2, -, c4, -⟩ :=
    decrement_timers_floor_at_zero.1 ArrayStack.Chip8.timer_example
      ArrayStack.Chip8.timer_example_WF_cc
  obtain ⟨p1, p2, -, p4, -⟩ :=
    decrement_timers_floor_at_zero.2 StdStack.Chip8.timer_example
      StdStack.Chip8.timer_example_WF_cpp
  exact ⟨⟨ArrayStack.Chip8.timer_example_WF_cc, c1.trans (by decide), c2.trans (by decide),
      c4 rfl⟩,
    ⟨StdStack.Chip8.timer_example_WF_cpp, p1.trans (by decide), p2.trans (by decide), p4 rfl⟩⟩

/-- C18: in both variants, an opcode that the dispatch does not recognise (`0NNN`
other than `00E0`, `00EE`; `8xyN` with `N` outside `0..7, E`; `ExKK` with `KK`
outside `9E, A1`; `FxKK` with `KK` outside `07, 0A, 15, 18, 1E, 29, 33, 55, 65`)
changes only `pc`, to the old `pc + 2`; registers, index, memory, stack, timers,
keys, framebuffer and draw flag are as before. -/
theorem unrecognised_opcode_only_advances_pc :
    (∀ (rnd : Nat) (s : ArrayStack.Chip8) (opcode : Nat), opcode < 65536 →
      unrecognised opcode → s.pc + 1 < MEMORY_SIZE →
      s.memory s.pc = opcode / 256 → s.memory (s.pc + 1) = opcode % 256 →
      ArrayStack.Chip8.execute_instruction rnd s = some { s with pc := s.pc + 2 }) ∧
    (∀ (rnd : Nat) (s : StdStack.Chip8) (opcode : Nat), opcode < 65536 →
      unrecognised opcode → s.pc + 1 < MEMORY_SIZE →
      s.memory s.pc = opcode / 256 → s.memory (s.pc + 1) = opcode % 256 →
      StdStack.Chip8.execute_instruction rnd s = some { s with pc := s.pc + 2 }) :=
  ⟨fun rnd s opcode hop hun hpc h0 h1 =>
      ArrayStack.Chip8.unrecognised_step_cc rnd s opcode hop hun hpc h0 h1,
    fun rnd s opcode hop hun hpc h0 h1 =>
      StdStack.Chip8.unrecognised_step_cpp rnd s opcode hop hun hpc h0 h1⟩

/-- Instance of `unrecognised_opcode_only_advances_pc` at the two
`unknown_example` states: `8AB9` in `chip8.cc` and `F1FF` in `chip8.cpp` only move
`pc` from 512 to 514. -/
theorem unrecognised_opcode_only_advances_pc_witness :
    (unrecognised 0x8AB9 ∧
      ArrayStack.Chip8.execute_instruction 0 ArrayStack.Chip8.unknown_example
        = some { ArrayStack.Chip8.unknown_example with pc := 514 }) ∧
    (unrecognised 0xF1FF ∧
      StdStack.Chip8.execute_instruction 0 StdStack.Chip8.unknown_example
        = some { StdStack.Chip8.unknown_example with pc := 514 }) :=
  ⟨⟨by decide, unrecognised_opcode_only_advances_pc.1 0 ArrayStack.Chip8.unknown_example
      0x8AB9 (by decide) (by decide) (by decide) (by decide) (by decide)⟩,
    ⟨by decide, unrecognised_opcode_only_advances_pc.2 0 StdStack.Chip8.unknown_example
      0xF1FF (by decide) (by decide) (by decide) (by decide) (by decide)⟩⟩

/-! ## Call and return -/

namespace ArrayStack.Chip8

/-- With `2nnn` at `pc` (`nnn = 256 * a + kk`), one step of `chip8.cc` stores the
advanced `pc` in slot `sp`, provided `sp` is a valid subscript of `stack`. -/
theorem execute_call_cc (rnd : Nat) (s : Chip8) (a kk : Nat)
    (ha : a < 16) (hkk : kk < 256) (hpc : s.pc + 1 < MEMORY_SIZE)
    (h0 : s.memory s.pc = 0x20 + a) (h1 : s.memory (s.pc + 1) = kk) :
    execute_instruction rnd s =
      if s.sp < STACK_SIZE then
        some { s with stack := aset s.stack s.sp (s.pc + 2), sp := u16 (s.sp + 1),
                      pc := 256 * a + kk }
      else none := by
  obtain ⟨d1, -, -, -, -, d6⟩ := decode_fields (0x20 + a) kk (by omega) hkk
  have e1 : (0x20 + a) / 16 * 4096 = 0x2000 := by omega
  have e2 : (0x20 + a) % 16 * 256 + kk = 256 * a + kk := by omega
  have hp : u16 (s.pc + 2) = s.pc + 2 := by
    simp only [u16, MEMORY_SIZE] at *; omega
  rw [e1] at d1; rw [e2] at d6
  unfold execute_instruction
  simp only [hpc, h0, h1, d1, d6, hp]
  simp

/-- With `00EE` at `pc`, one step of `chip8.cc` reads `stack[--sp]`, provided the
decremented `sp` is a valid subscript of `stack`. -/
theorem execute_ret_cc (rnd : Nat) (s : Chip8) (hpc : s.pc + 1 < MEMORY_SIZE)
    (h0 : s.memory s.pc = 0x00) (h1 : s.memory (s.pc + 1) = 0xEE) :
    execute_instruction rnd s =
      if ret_slot s < STACK_SIZE then
        some { s with sp := ret_slot s, pc := s.stack (ret_slot s) }
      else none := by
  have hop : u16 ((0 : Nat) <<< 8 ||| 0xEE) = 0xEE := by decide
  have hm : (0xEE : Nat) &&& 0xF000 = 0 := by decide
  unfold execute_instruction ret_slot
  simp only [hpc, h0, h1, hop, hm]
  simp

end ArrayStack.Chip8

namespace StdStack.Chip8

/-- With `2nnn` at `pc` (`nnn = 256 * a + kk`), one step of `chip8.cpp` pushes
the advanced `pc`. -/
theorem execute_call_cpp (rnd : Nat) (s : Chip8) (a kk : Nat)
    (ha : a < 16) (hkk : kk < 256) (hpc : s.pc + 1 < MEMORY_SIZE)
    (h0 : s.memory s.pc = 0x20 + a) (h1 : s.memory (s.pc + 1) = kk) :
    execute_instruction rnd s =
      some { s with stack := (s.pc + 2) :: s.stack, pc := 256 * a + kk } := by
  obtain ⟨d1, -, -, -, -, d6⟩ := decode_fields (0x20 + a) kk (by omega) hkk
  have e1 : (0x20 + a) / 16 * 4096 = 0x2000 := by omega
  have e2 : (0x20 + a) % 16 * 256 + kk = 256 * a + kk := by omega
  have hp : u16 (s.pc + 2) = s.pc + 2 := by
    simp only [u16, MEMORY_SIZE] at *; omega
  rw [e1] at d1; rw [e2] at d6
  unfold execute_instruction
  simp only [hpc, h0, h1, d1, d6, hp]
  simp

/-- With `00EE` at `pc`, one step of `chip8.cpp` pops the top of the stack into
`pc`, provided the stack is not empty. -/
theorem execute_ret_cpp (rnd : Nat) (s : Chip8) (hpc : s.pc + 1 < MEMORY_SIZE)
    (h0 : s.memory s.pc = 0x00) (h1 : s.memory (s.pc + 1) = 0xEE) :
    execute_instruction rnd s =
      match s.stack with
      | top :: rest => some { s with pc := top, stack := rest }
      | [] => none := by
  have hop : u16 ((0 : Nat) <<< 8 ||| 0xEE) = 0xEE := by decide
  have hm : (0xEE : Nat) &&& 0xF000 = 0 := by decide
  unfold execute_instruction
  simp only [hpc, h0, h1, hop, hm]
  cases s.stack <;> simp

end StdStack.Chip8

/-- C14: in both variants, with `2nnn` at `pc = p` and `00EE` at `nnn` (stack depth
below 16 in `chip8.cc`), the call leaves `p + 2` on top of the stack and
`pc = nnn`; the return that follows leaves `pc = p + 2`, the depth as before the
call and the entries below the top as before the call. -/
theorem call_return_round_trip :
    (∀ (rnd1 rnd2 : Nat) (s : ArrayStack.Chip8) (a kk : Nat), a < 16 → kk < 256 →
      s.sp < STACK_SIZE → s.pc + 1 < MEMORY_SIZE →
      s.memory s.pc = 0x20 + a → s.memory (s.pc + 1) = kk →
      256 * a + kk + 1 < MEMORY_SIZE →
      s.memory (256 * a + kk) = 0x00 → s.memory (256 * a + kk + 1) = 0xEE →
      ∃ s1, ArrayStack.Chip8.execute_instruction rnd1 s = some s1 ∧
        s1.sp = s.sp + 1 ∧ s1.stack (s1.sp - 1) = s.pc + 2 ∧ s1.pc = 256 * a + kk ∧
        ∃ s2, ArrayStack.Chip8.execute_instruction rnd2 s1 = some s2 ∧
          s2.pc = s.pc + 2 ∧ s2.sp = s.sp ∧ ∀ k, k < s.sp → s2.stack k = s.stack k) ∧
    (∀ (rnd1 rnd2 : Nat) (s : StdStack.Chip8) (a kk : Nat), a < 16 → kk < 256 →
      s.pc + 1 < MEMORY_SIZE →
      s.memory s.pc = 0x20 + a → s.memory (s.pc + 1) = kk →
      256 * a + kk + 1 < MEMORY_SIZE →
      s.memory (256 * a + kk) = 0x00 → s.memory (256 * a + kk + 1) = 0xEE →
      ∃ s1, StdStack.Chip8.execute_instruction rnd1 s = some s1 ∧
        s1.stack.length = s.stack.length + 1 ∧ s1.stack.head? = some (s.pc + 2) ∧
        s1.pc = 256 * a + kk ∧
        ∃ s2, StdStack.Chip8.execute_instruction rnd2 s1 = some s2 ∧
          s2.pc = s.pc + 2 ∧ s2.stack = s.stack) := by
  constructor
  · intro rnd1 rnd2 s a kk ha hkk hsp hpc h0 h1 hn m0 m1
    have e1 := ArrayStack.Chip8.execute_call_cc rnd1 s a kk ha hkk hpc h0 h1
    rw [if_pos hsp] at e1
    have hu : u16 (s.sp + 1) = s.sp + 1 := by
      simp only [u16, STACK_SIZE] at *; omega
    refine ⟨_, e1, hu, ?_, rfl, ?_⟩
    · simp [hu, aset]
    · have e2 := ArrayStack.Chip8.execute_ret_cc rnd2
        { s with stack := aset s.stack s.sp (s.pc + 2), sp := u16 (s.sp + 1),
                 pc := 256 * a + kk } hn m0 m1
      have hslot : ArrayStack.Chip8.ret_slot
          { s with stack := aset s.stack s.sp (s.pc + 2), sp := u16 (s.sp + 1),
                   pc := 256 * a + kk } = s.sp := by
        simp only [ArrayStack.Chip8.ret_slot, hu, u16i, STACK_SIZE] at *
        omega
      rw [hslot, if_pos hsp] at e2
      refine ⟨_, e2, ?_, rfl, ?_⟩
      · simp [aset]
      · intro k hk
        have : k ≠ s.sp := by omega
        simp [aset, this]
  · intro rnd1 rnd2 s a kk ha hkk hpc h0 h1 hn m0 m1
    have e1 := StdStack.Chip8.execute_call_cpp rnd1 s a kk ha hkk hpc h0 h1
    refine ⟨_, e1, by simp, by simp, rfl, ?_⟩
    have e2 := StdStack.Chip8.execute_ret_cpp rnd2
      { s with stack := (s.pc + 2) :: s.stack, pc := 256 * a + kk } hn m0 m1
    exact ⟨_, e2, rfl, rfl⟩

/-- Instance of `call_return_round_trip` at the two `call_example` states (`2300`
at 512, `00EE` at `0x300`, depth 2): after call and return `pc = 514` and the
depth is 2 again. -/
theorem call_return_round_trip_witness :
    (∃ s1, ArrayStack.Chip8.execute_instruction 0 ArrayStack.Chip8.call_example = some s1 ∧
      s1.sp = 3 ∧ s1.stack 2 = 514 ∧ s1.pc = 0x300 ∧
      ∃ s2, ArrayStack.Chip8.execute_instruction 0 s1 = some s2 ∧
        s2.pc = 514 ∧ s2.sp = 2 ∧ s2.stack 0 = 0x250 ∧ s2.stack 1 = 0x260) ∧
    (∃ s1, StdStack.Chip8.execute_instruction 0 StdStack.Chip8.call_example = some s1 ∧
      s1.stack.length = 3 ∧ s1.stack.head? = some 514 ∧ s1.pc = 0x300 ∧
      ∃ s2, StdStack.Chip8.execute_instruction 0 s1 = some s2 ∧
        s2.pc = 514 ∧ s2.stack = [0x260, 0x250]) := by
  obtain ⟨c1, ce, ca, cb, cc, c2, cf, cg, ch, ci⟩ :=
    call_return_round_trip.1 0 0 ArrayStack.Chip8.call_example 3 0 (by decide) (by decide)
      (by decide) (by decide) (by decide) (by decide) (by decide) (by decide) (by decide)
  obtain ⟨p1, pe, pa, pb, pc, p2, pf, pg, ph⟩ :=
    call_return_round_trip.2 0 0 StdStack.Chip8.call_example 3 0 (by decide) (by decide)
      (by decide) (by decide) (by decide) (by decide) (by decide) (by decide)
  refine ⟨⟨c1, ce, ca, ?_, cc, c2, cf, cg, ch, ?_, ?_⟩, ⟨p1, pe, pa, pb, pc, p2, pf, pg, ph⟩⟩
  · rw [ca] at cb; exact cb
  · exact (ci 0 (by decide)).trans rfl
  · exact (ci 1 (by decide)).trans rfl

/-- C15 (counterexample): the program `2200` at `0x200` calls itself.  In
`chip8.cpp`, after 16 steps the stack holds 16 return addresses and the 17th step
pushes a 17th one.  In `chip8.cc`, after 16 steps `sp = 16` and the 17th step
subscripts `stack[16]`, outside the array, so it has no defined result.  Neither
variant rejects the call. -/
theorem call_at_depth_16_not_rejected :
    ((StdStack.Chip8.load_rom recursion_rom StdStack.Chip8.new).bind
        (StdStack.Chip8.run (List.replicate 16 0))).map
      (fun s => (s.pc, s.memory 512, s.memory 513, s.stack.length))
      = some (512, 0x22, 0x00, 16) ∧
    ((StdStack.Chip8.load_rom recursion_rom StdStack.Chip8.new).bind
        (StdStack.Chip8.run (List.replicate 17 0))).map
      (fun s => (s.pc, s.stack.length, s.stack.head?)) = some (512, 17, some 514) ∧
    ((ArrayStack.Chip8.load_rom recursion_rom ArrayStack.Chip8.new).bind
        (ArrayStack.Chip8.run (List.replicate 16 0))).map
      (fun s => (s.pc, s.memory 512, s.memory 513, s.sp)) = some (512, 0x22, 0x00, 16) ∧
    (ArrayStack.Chip8.load_rom recursion_rom ArrayStack.Chip8.new).bind
        (ArrayStack.Chip8.run (List.replicate 17 0)) = none :=
  ⟨rfl, rfl, rfl, rfl⟩

/-- C15 (amended): `chip8.cpp` does not bound the call stack: `2nnn` pushes the old
`pc + 2` above the stored return addresses, which stay unchanged, so a stack of 16
addresses becomes one of 17, and sets `pc = nnn`.  In `chip8.cc` the call has a
defined result exactly when the depth `sp` is below 16; it then writes slot `sp`
of the 16-entry stack only, raises the depth to `sp + 1 ≤ 16` and sets
`pc = nnn`. -/
theorem call_pushes_return_address :
    (∀ (rnd : Nat) (s : StdStack.Chip8) (a kk : Nat), a < 16 → kk < 256 →
      s.pc + 1 < MEMORY_SIZE → s.memory s.pc = 0x20 + a → s.memory (s.pc + 1) = kk →
      ∃ s', StdStack.Chip8.execute_instruction rnd s = some s' ∧
        s'.stack = (s.pc + 2) :: s.stack ∧ s'.stack.length = s.stack.length + 1 ∧
        (s.stack.length = 16 → s'.stack.length = 17) ∧ s'.pc = 256 * a + kk) ∧
    (∀ (rnd : Nat) (s : ArrayStack.Chip8) (a kk : Nat), a < 16 → kk < 256 →
      s.pc + 1 < MEMORY_SIZE → s.memory s.pc = 0x20 + a → s.memory (s.pc + 1) = kk →
      ((∃ s', ArrayStack.Chip8.execute_instruction rnd s = some s') ↔ s.sp < STACK_SIZE) ∧
      (s.sp < STACK_SIZE →
        ∃ s', ArrayStack.Chip8.execute_instruction rnd s = some s' ∧
          s'.sp = s.sp + 1 ∧ s'.sp ≤ STACK_SIZE ∧ s'.stack s.sp = s.pc + 2 ∧
          (∀ k, k ≠ s.sp → s'.stack k = s.stack k) ∧ s'.pc = 256 * a + kk)) := by
  constructor
  · intro rnd s a kk ha hkk hpc h0 h1
    refine ⟨_, StdStack.Chip8.execute_call_cpp rnd s a kk ha hkk hpc h0 h1, rfl, by simp, ?_, rfl⟩
    intro h
    simp [h]
  · intro rnd s a kk ha hkk hpc h0 h1
    have e := ArrayStack.Chip8.execute_call_cc rnd s a kk ha hkk hpc h0 h1
    constructor
    · constructor
      · rintro ⟨s', hs'⟩
        by_contra hsp
        rw [e, if_neg hsp] at hs'
        exact Option.noConfusion hs'
      · intro hsp
        rw [e, if_pos hsp]
        exact ⟨_, rfl⟩
    · intro hsp
      rw [if_pos hsp] at e
      have hu : u16 (s.sp + 1) = s.sp + 1 := by
        simp only [u16, STACK_SIZE] at *; omega
      refine ⟨_, e, hu, ?_, ?_, ?_, rfl⟩
      · show u16 (s.sp + 1) ≤ STACK_SIZE
        rw [hu]; omega
      · simp [aset]
      · intro k hk
        simp [aset, hk]

/-- Instance of `call_pushes_return_address`: in `chip8.cpp` the call at
`full_stack_example` (16 return addresses) gives a stack of 17; in `chip8.cc` the
call at `call_example` (depth 2) writes slot 2 and gives depth 3. -/
theorem call_pushes_return_address_witness :
    (StdStack.Chip8.full_stack_example.stack.length = 16 ∧
      ∃ s', StdStack.Chip8.execute_instruction 0 StdStack.Chip8.full_stack_example = some s' ∧
        s'.stack.length = 17 ∧ s'.stack.head? = some 514 ∧ s'.pc = 0x200) ∧
    (ArrayStack.Chip8.call_example.sp = 2 ∧
      ∃ s', ArrayStack.Chip8.execute_instruction 0 ArrayStack.Chip8.call_example = some s' ∧
        s'.sp = 3 ∧ s'.stack 2 = 514 ∧ s'.stack 0 = 0x250 ∧ s'.stack 1 = 0x260 ∧
        s'.pc = 0x300) := by
  obtain ⟨p, pe, pa, -, pc, pd⟩ :=
    call_pushes_return_address.1 0 StdStack.Chip8.full_stack_example 2 0 (by decide)
      (by decide) (by decide) (by decide) (by decide)
  obtain ⟨c, ce, ca, -, cb, cc, cd⟩ :=
    (call_pushes_return_address.2 0 ArrayStack.Chip8.call_example 3 0 (by decide)
      (by decide) (by decide) (by decide) (by decide)).2 (by decide)
  refine ⟨⟨rfl, p, pe, pc rfl, ?_, pd⟩, ⟨rfl, c, ce, ca, cb, ?_, ?_, cd⟩⟩
  · rw [pa]; rfl
  · exact (cc 0 (by decide)).trans rfl
  · exact (cc 1 (by decide)).trans rfl

/-- C16 (counterexample): the program `00EE` run from the constructed state
returns on an empty stack.  In `chip8.cc`, `sp = 0` is decremented to 65535, which
is outside `0..16`, and `stack[65535]` is subscripted; in `chip8.cpp`, `top()` is
taken of the empty stack.  Neither step has a defined result, so none ends with
`pc = 514`. -/
theorem ret_on_empty_stack_not_rejected :
    (ArrayStack.Chip8.load_rom ret_rom ArrayStack.Chip8.new).map
      (fun s => (s.pc, s.memory 512, s.memory 513, s.sp, ArrayStack.Chip8.ret_slot s))
      = some (512, 0x00, 0xEE, 0, 65535) ∧
    (ArrayStack.Chip8.load_rom ret_rom ArrayStack.Chip8.new).bind
      (ArrayStack.Chip8.execute_instruction 0) = none ∧
    (StdStack.Chip8.load_rom ret_rom StdStack.Chip8.new).map
      (fun s => (s.pc, s.memory 512, s.memory 513, s.stack))
      = some (512, 0x00, 0xEE, []) ∧
    (StdStack.Chip8.load_rom ret_rom StdStack.Chip8.new).bind
      (StdStack.Chip8.execute_instruction 0) = none :=
  ⟨rfl, rfl, rfl, rfl⟩

/-- C16 (amended): in both variants `00EE` has a defined result exactly when the
call stack is not empty (depth 1 to 16 in `chip8.cc`); it then reads the top entry
only, sets `pc` to it and lowers the depth by one, leaving the other entries
unchanged. -/
theorem ret_defined_iff_stack_nonempty :
    (∀ (rnd : Nat) (s : ArrayStack.Chip8), s.sp < 65536 → s.pc + 1 < MEMORY_SIZE →
      s.memory s.pc = 0x00 → s.memory (s.pc + 1) = 0xEE →
      ((∃ s', ArrayStack.Chip8.execute_instruction rnd s = some s') ↔
        1 ≤ s.sp ∧ s.sp ≤ STACK_SIZE) ∧
      (1 ≤ s.sp → s.sp ≤ STACK_SIZE →
        ArrayStack.Chip8.execute_instruction rnd s =
          some { s with sp := s.sp - 1, pc := s.stack (s.sp - 1) })) ∧
    (∀ (rnd : Nat) (s : StdStack.Chip8), s.pc + 1 < MEMORY_SIZE →
      s.memory s.pc = 0x00 → s.memory (s.pc + 1) = 0xEE →
      ((∃ s', StdStack.Chip8.execute_instruction rnd s = some s') ↔ s.stack ≠ []) ∧
      (∀ top rest, s.stack = top :: rest →
        StdStack.Chip8.execute_instruction rnd s = some { s with pc := top, stack := rest })) := by
  constructor
  · intro rnd s hsp hpc h0 h1
    have e := ArrayStack.Chip8.execute_ret_cc rnd s hpc h0 h1
    have hslot : (1 ≤ s.sp ∧ s.sp ≤ STACK_SIZE → ArrayStack.Chip8.ret_slot s = s.sp - 1) ∧
        (ArrayStack.Chip8.ret_slot s < STACK_SIZE → 1 ≤ s.sp ∧ s.sp ≤ STACK_SIZE) := by
      simp only [ArrayStack.Chip8.ret_slot, u16i, STACK_SIZE]
      omega
    constructor
    · constructor
      · rintro ⟨s', hs'⟩
        by_contra hno
        have : ¬ ArrayStack.Chip8.ret_slot s < STACK_SIZE := fun h => hno (hslot.2 h)
        rw [e, if_neg this] at hs'
        exact Option.noConfusion hs'
      · intro h
        have h2 : ArrayStack.Chip8.ret_slot s < STACK_SIZE := by
          rw [hslot.1 h]; simp only [STACK_SIZE] at *; omega
        rw [e, if_pos h2]
        exact ⟨_, rfl⟩
    · intro h1' h2'
      have hs := hslot.1 ⟨h1', h2'⟩
      have h2 : ArrayStack.Chip8.ret_slot s < STACK_SIZE := by
        rw [hs]; simp only [STACK_SIZE] at *; omega
      rw [e, if_pos h2, hs]
  · intro rnd s hpc h0 h1
    have e := StdStack.Chip8.execute_ret_cpp rnd s hpc h0 h1
    constructor
    · constructor
      · rintro ⟨s', hs'⟩ hnil
        rw [e, hnil] at hs'
        exact Option.noConfusion hs'
      · intro hne
        rw [e]
        cases hst : s.stack with
        | nil => exact absurd hst hne
        | cons top rest => exact ⟨_, rfl⟩
    · intro top rest hst
      rw [e, hst]

/-- Instance of `ret_defined_iff_stack_nonempty` at the two `ret_example` states
(`00EE` at `0x300`, return addresses `0x250`, `0x260`): `pc` becomes `0x260` and
the depth 1. -/
theorem ret_defined_iff_stack_nonempty_witness :
    ArrayStack.Chip8.execute_instruction 0 ArrayStack.Chip8.ret_example
      = some { ArrayStack.Chip8.ret_example with sp := 1, pc := 0x260 } ∧
    StdStack.Chip8.execute_instruction 0 StdStack.Chip8.ret_example
      = some { StdStack.Chip8.ret_example with pc := 0x260, stack := [0x250] } :=
  ⟨(ret_defined_iff_stack_nonempty.1 0 ArrayStack.Chip8.ret_example (by decide) (by decide)
      (by decide) (by decide)).2 (by decide) (by decide),
    (ret_defined_iff_stack_nonempty.2 0 StdStack.Chip8.ret_example (by decide) (by decide)
      (by decide)).2 0x260 [0x250] rfl⟩

/-! ## Loading a ROM -/

/-- Store `i` of the copy writes byte `i` at address `off + i`. -/
theorem copyStores_get (off : Nat) (src : List Nat) (i : Nat) (h : i < src.length) :
    (copyStores off src)[i]? = some (off + i, src.getD i 0) := by
  simp [copyStores, List.getElem?_enumFrom, List.getElem?_eq_getElem h]

/-- All stores of the copy are inside an array of `size` elements exactly when the
source fits behind `off`. -/
theorem copyStores_in_bounds (off size : Nat) (src : List Nat) :
    (∀ p ∈ copyStores off src, p.1 < size) ↔ src = [] ∨ off + src.length ≤ size := by
  constructor
  · intro h
    rcases Nat.eq_zero_or_pos src.length with h0 | hpos
    · exact Or.inl (List.length_eq_zero.1 h0)
    · right
      have hm : (off + (src.length - 1), src.getD (src.length - 1) 0) ∈ copyStores off src :=
        List.getElem?_mem (copyStores_get off src (src.length - 1) (by omega))
      have := h _ hm
      simp only at this
      omega
  · rintro (h | h) p hp
    · subst h; simp [copyStores] at hp
    · obtain ⟨i, hi, rfl⟩ := List.getElem_of_mem hp
      simp only [copyStores, List.getElem_enumFrom]
      simp only [copyStores, List.enumFrom_length] at hi
      omega

/-- The memory left by `copyInto` is the memory after performing the stores of the
copy one by one. -/
theorem copyInto_eq_stores (mem : Nat → Nat) (off : Nat) (src : List Nat) :
    copyInto mem off src = (copyStores off src).foldl (fun m p => aset m p.1 p.2) mem := by
  induction src generalizing mem off with
  | nil =>
    funext a
    simp [copyInto, copyStores]
  | cons b bs ih =>
    have ih' := ih (aset mem off b) (off + 1)
    simp only [copyStores, List.enumFrom_cons, List.foldl_cons] at ih' ⊢
    rw [← ih']
    funext a
    simp only [copyInto, aset, List.length_cons]
    by_cases h1 : a = off
    · subst h1
      simp
    · by_cases h2 : off + 1 ≤ a ∧ a < off + 1 + bs.length
      · have h3 : off ≤ a ∧ a < off + (bs.length + 1) := by omega
        have h4 : a - off = (a - (off + 1)) + 1 := by omega
        rw [if_pos h2, if_pos h3, h4, List.getD_cons_succ]
      · have h3 : ¬ (off ≤ a ∧ a < off + (bs.length + 1)) := by omega
        rw [if_neg h2, if_neg h3, if_neg h1]

namespace ArrayStack.Chip8

/-- In `chip8.cc`, `load_rom` returns for every buffer and every state: byte `i`
lands at `512 + i`, also behind the end of the array, the other bytes stay as
they were, the memory is what the stores of the copy leave, performed in order,
and the state differs from the one before in `memory` only. -/
theorem load_rom_total_cc (buffer : List Nat) (s : Chip8) :
    ∃ s', load_rom buffer s = some s' ∧
      (∀ i, i < buffer.length → buffer[i]? = some (s'.memory (512 + i))) ∧
      (∀ a, ¬ (512 ≤ a ∧ a < 512 + buffer.length) → s'.memory a = s.memory a) ∧
      s'.memory = (copyStores INSTR_START buffer).foldl (fun m p => aset m p.1 p.2) s.memory ∧
      s' = { s with memory := s'.memory } := by
  refine ⟨_, rfl, ?_, ?_, copyInto_eq_stores s.memory INSTR_START buffer, rfl⟩
  · intro i hi
    have hin : INSTR_START ≤ 512 + i ∧ 512 + i < INSTR_START + buffer.length := by
      simp only [INSTR_START]; omega
    have hsub : 512 + i - INSTR_START = i := by simp only [INSTR_START]; omega
    show buffer[i]? = some (copyInto s.memory INSTR_START buffer (512 + i))
    simp only [copyInto]
    rw [if_pos hin, hsub, List.getD_eq_getElem _ _ hi, List.getElem?_eq_getElem hi]
  · intro a ha
    show copyInto s.memory INSTR_START buffer a = s.memory a
    simp only [copyInto, INSTR_START]
    rw [if_neg ha]

/-- In `chip8.cc`, a ROM image of at most 3584 bytes loaded into the constructed
state lands at `512, 513, ...`; the font and every other byte stay as they
were. -/
theorem load_rom_spec_cc (buffer : List Nat) (_h : buffer.length ≤ 3584) :
    ∃ s', load_rom buffer new = some s' ∧
      (∀ i, i < buffer.length → buffer[i]? = some (s'.memory (512 + i))) ∧
      (∀ a, a < 80 → FONTSET[a]? = some (s'.memory a)) ∧
      (∀ a, ¬ (512 ≤ a ∧ a < 512 + buffer.length) → s'.memory a = new.memory a) ∧
      s' = { new with memory := s'.memory } := by
  obtain ⟨s', e, hb, ho, -, hs⟩ := load_rom_total_cc buffer new
  refine ⟨s', e, hb, ?_, ho, hs⟩
  intro a ha
  rw [ho a (by omega)]
  have hlen : FONTSET.length = 80 := rfl
  have hin : 0 ≤ a ∧ a < 0 + FONTSET.length := by omega
  have hlt : a < FONTSET.length := by omega
  simp only [new, copyInto]
  rw [if_pos hin, Nat.sub_zero, List.getD_eq_getElem _ _ hlt, List.getElem?_eq_getElem hlt]

end ArrayStack.Chip8

namespace StdStack.Chip8

/-- In `chip8.cpp`, `load_rom` returns for every buffer and every state: byte `i`
lands at `512 + i`, also behind the end of the array, the other bytes stay as
they were, the memory is what the stores of the copy leave, performed in order,
and the state differs from the one before in `memory` only. -/
theorem load_rom_total_cpp (buffer : List Nat) (s : Chip8) :
    ∃ s', load_rom buffer s = some s' ∧
      (∀ i, i < buffer.length → buffer[i]? = some (s'.memory (512 + i))) ∧
      (∀ a, ¬ (512 ≤ a ∧ a < 512 + buffer.length) → s'.memory a = s.memory a) ∧
      s'.memory = (copyStores INSTR_START buffer).foldl (fun m p => aset m p.1 p.2) s.memory ∧
      s' = { s with memory := s'.memory } := by
  refine ⟨_, rfl, ?_, ?_, copyInto_eq_stores s.memory INSTR_START buffer, rfl⟩
  · intro i hi
    have hin : INSTR_START ≤ 512 + i ∧ 512 + i < INSTR_START + buffer.length := by
      simp only [INSTR_START]; omega
    have hsub : 512 + i - INSTR_START = i := by simp only [INSTR_START]; omega
    show buffer[i]? = some (copyInto s.memory INSTR_START buffer (512 + i))
    simp only [copyInto]
    rw [if_pos hin, hsub, List.getD_eq_getElem _ _ hi, List.getElem?_eq_getElem hi]
  · intro a ha
    show copyInto s.memory INSTR_START buffer a = s.memory a
    simp only [copyInto, INSTR_START]
    rw [if_neg ha]

/-- In `chip8.cpp`, a ROM image of at most 3584 bytes loaded into the constructed
state lands at `512, 513, ...`; the font and every other byte stay as they
were. -/
theorem load_rom_spec_cpp (buffer : List Nat) (_h : buffer.length ≤ 3584) :
    ∃ s', load_rom buffer new = some s' ∧
      (∀ i, i < buffer.length → buffer[i]? = some (s'.memory (512 + i))) ∧
      (∀ a, a < 80 → FONTSET[a]? = some (s'.memory a)) ∧
      (∀ a, ¬ (512 ≤ a ∧ a < 512 + buffer.length) → s'.memory a = new.memory a) ∧
      s' = { new with memory := s'.memory } := by
  obtain ⟨s', e, hb, ho, -, hs⟩ := load_rom_total_cpp buffer new
  refine ⟨s', e, hb, ?_, ho, hs⟩
  intro a ha
  rw [ho a (by omega)]
  have hlen : FONTSET.length = 80 := rfl
  have hin : 0 ≤ a ∧ a < 0 + FONTSET.length := by omega
  have hlt : a < FONTSET.length := by omega
  simp only [new, copyInto]
  rw [if_pos hin, Nat.sub_zero, List.getD_eq_getElem _ _ hlt, List.getElem?_eq_getElem hlt]

end StdStack.Chip8

/-! ## Drawing a one-row sprite with one bit set -/

/-- Among the eight loop masks `0x80 >> k`, a row `0x80 >> j` meets only its
own. -/
theorem single_bit_mask : ∀ j < 8, ∀ k < 8, (0x80 >>> j) &&& (0x80 >>> k) ≠ 0 ↔ k = j := by
  decide

/-- The eight loop indices split at `j`. -/
theorem range_8_split (j : Nat) (hj : j < 8) :
    List.range 8 = List.range j ++ j :: List.range' (j + 1) (7 - j) := by
  interval_cases j <;> rfl

namespace ArrayStack.Chip8

/-- In `chip8.cc`, an iteration of the inner loop for a bit that is clear keeps the
state. -/
theorem draw_bit_other_cc (a b i j k : Nat) (s : Chip8) (hj : j < 8) (hk : k < 8)
    (hne : k ≠ j) : draw_bit a b (0x80 >>> j) i s k = some s := by
  have h : ¬ (0x80 >>> j) &&& (0x80 >>> k) ≠ 0 := fun h =>
    hne ((single_bit_mask j hj k hk).1 h)
  unfold draw_bit
  rw [if_neg h]

/-- In `chip8.cc`, iterations of the inner loop for clear bits keep the state. -/
theorem draw_bits_other_cc (a b i j : Nat) (hj : j < 8) (l : List Nat)
    (hl : ∀ k ∈ l, k < 8 ∧ k ≠ j) (s : Chip8) :
    l.foldlM (draw_bit a b (0x80 >>> j) i) s = some s := by
  induction l generalizing s with
  | nil => rfl
  | cons k ks ih =>
    have hk := hl k (List.mem_cons_self k ks)
    rw [List.foldlM_cons, draw_bit_other_cc a b i j k s hj hk.1 hk.2]
    exact ih (fun k' hk' => hl k' (List.mem_cons_of_mem k hk')) s

/-- In `chip8.cc`, the inner loop on a row with bit `j` as its only set bit is the
single iteration for that bit. -/
theorem draw_row_single_bit_cc (a b i j : Nat) (s : Chip8) (hj : j < 8) :
    (List.range 8).foldlM (draw_bit a b (0x80 >>> j) i) s
      = draw_bit a b (0x80 >>> j) i s j := by
  rw [range_8_split j hj, List.foldlM_append,
    draw_bits_other_cc a b i j hj (List.range j)
      (fun k hk => by have := List.mem_range.1 hk; omega) s]
  cases hd : draw_bit a b (0x80 >>> j) i s j with
  | none => simp [hd]
  | some s1 =>
    have h2 := draw_bits_other_cc a b i j hj (List.range' (j + 1) (7 - j))
      (fun k hk => by have := List.mem_range'_1.1 hk; omega) s1
    simp [hd, h2]

/-- With `Dxyn` at `pc`, one step of `chip8.cc` is the drawing loop run on the
state after the fetch with `VF` cleared, followed by setting the draw flag. -/
theorem execute_Dxyn_cc (rnd : Nat) (s : Chip8) (x y n : Nat)
    (hx : x < 16) (hy : y < 16) (hn : n < 16) (hpc : s.pc + 1 < MEMORY_SIZE)
    (h0 : s.memory s.pc = 0xD0 + x) (h1 : s.memory (s.pc + 1) = 16 * y + n) :
    execute_instruction rnd s =
      ((List.range n).foldlM (draw_row x y)
        { s with pc := u16 (s.pc + 2), registers := aset s.registers 0xF 0 }).map
        (fun s2 => { s2 with draw_flag := true }) := by
  obtain ⟨d1, d2, d3, d4, -, -⟩ := decode_fields (0xD0 + x) (16 * y + n) (by omega) (by omega)
  have e1 : (0xD0 + x) / 16 * 4096 = 0xD000 := by omega
  have e2 : (0xD0 + x) % 16 = x := by omega
  have e3 : (16 * y + n) / 16 = y := by omega
  have e4 : (16 * y + n) % 16 = n := by omega
  rw [e1] at d1; rw [e2] at d2; rw [e3] at d3; rw [e4] at d4
  unfold execute_instruction
  simp only [hpc, h0, h1, d1, d2, d3, d4]
  simp

/-- In `chip8.cc`, `Dxy1` on a row with bit `j` as its only set bit XORs the cell
`first_pos s x y 0 j` with 1 and leaves in `VF` the value that cell held; memory,
index, the other registers and the other cells are kept. -/
theorem draw_single_bit_cc (rnd : Nat) (s : Chip8) (x y j : Nat)
    (hx : x < 16) (hy : y < 16) (hj : j < 8) (hpc : s.pc + 1 < MEMORY_SIZE)
    (h0 : s.memory s.pc = 0xD0 + x) (h1 : s.memory (s.pc + 1) = 16 * y + 1)
    (hidx : s.index < MEMORY_SIZE) (hb : s.memory s.index = 0x80 >>> j)
    (hc : first_pos s x y 0 j < DISPLAY_SIZE) :
    ∃ s', execute_instruction rnd s = some s' ∧
      s'.display (first_pos s x y 0 j) = u8 (s.display (first_pos s x y 0 j) ^^^ 1) ∧
      s'.registers 0xF = s.display (first_pos s x y 0 j) ∧
      s'.memory = s.memory ∧ s'.index = s.index ∧
      (∀ r, r ≠ 0xF → s'.registers r = s.registers r) ∧
      (∀ k, k ≠ first_pos s x y 0 j → s'.display k = s.display k) := by
  have hr1 : List.range 1 = [0] := rfl
  have hbit : (0x80 >>> j) &&& (0x80 >>> j) ≠ 0 := (single_bit_mask j hj j hj).2 rfl
  have e := execute_Dxyn_cc rnd s x y 1 hx hy (by decide) hpc h0 h1
  rw [hr1] at e
  simp only [List.foldlM_cons, List.foldlM_nil, draw_row, Nat.add_zero, hidx, if_true, hb]
    at e
  rw [draw_row_single_bit_cc x y 0 j _ hj] at e
  unfold draw_bit at e
  rw [if_pos hbit] at e
  unfold first_pos at hc ⊢
  generalize u16 (aset s.registers 0xF 0 x + j + (aset s.registers 0xF 0 y + 0) * 64) = c
    at hc e ⊢
  simp only [hc, if_true] at e
  simp only [bind, pure, Option.bind, Option.map] at e
  exact ⟨_, e, by simp [aset], by simp [aset], rfl, rfl,
    fun r hr => by simp [aset, hr], fun k hk => by simp [aset, hk]⟩

end ArrayStack.Chip8

namespace StdStack.Chip8

/-- In `chip8.cpp`, an iteration of the inner loop for a bit that is clear keeps the
state. -/
theorem draw_bit_other_cpp (a b i j k : Nat) (s : Chip8) (hj : j < 8) (hk : k < 8)
    (hne : k ≠ j) : draw_bit a b (0x80 >>> j) i s k = some s := by
  have h : ¬ (0x80 >>> j) &&& (0x80 >>> k) ≠ 0 := fun h =>
    hne ((single_bit_mask j hj k hk).1 h)
  unfold draw_bit
  rw [if_neg h]

/-- In `chip8.cpp`, iterations of the inner loop for clear bits keep the state. -/
theorem draw_bits_other_cpp (a b i j : Nat) (hj : j < 8) (l : List Nat)
    (hl : ∀ k ∈ l, k < 8 ∧ k ≠ j) (s : Chip8) :
    l.foldlM (draw_bit a b (0x80 >>> j) i) s = some s := by
  induction l generalizing s with
  | nil => rfl
  | cons k ks ih =>
    have hk := hl k (List.mem_cons_self k ks)
    rw [List.foldlM_cons, draw_bit_other_cpp a b i j k s hj hk.1 hk.2]
    exact ih (fun k' hk' => hl k' (List.mem_cons_of_mem k hk')) s

/-- In `chip8.cpp`, the inner loop on a row with bit `j` as its only set bit is the
single iteration for that bit. -/
theorem draw_row_single_bit_cpp (a b i j : Nat) (s : Chip8) (hj : j < 8) :
    (List.range 8).foldlM (draw_bit a b (0x80 >>> j) i) s
      = draw_bit a b (0x80 >>> j) i s j := by
  rw [range_8_split j hj, List.foldlM_append,
    draw_bits_other_cpp a b i j hj (List.range j)
      (fun k hk => by have := List.mem_range.1 hk; omega) s]
  cases hd : draw_bit a b (0x80 >>> j) i s j with
  | none => simp [hd]
  | some s1 =>
    have h2 := draw_bits_other_cpp a b i j hj (List.range' (j + 1) (7 - j))
      (fun k hk => by have := List.mem_range'_1.1 hk; omega) s1
    simp [hd, h2]

/-- In `chip8.cpp`, `Dxy1` on a row with bit `j` as its only set bit XORs the
cell `coord Vx Vy 0 j` with 1 and leaves `VF = 1` if that cell held 1 and `VF = 0`
otherwise; memory, index, the other registers and the other cells are kept. -/
theorem draw_single_bit_cpp (rnd : Nat) (s : Chip8) (x y j : Nat)
    (hx : x < 16) (hy : y < 16) (hj : j < 8) (hpc : s.pc + 1 < MEMORY_SIZE)
    (h0 : s.memory s.pc = 0xD0 + x) (h1 : s.memory (s.pc + 1) = 16 * y + 1)
    (hidx : s.index < MEMORY_SIZE) (hb : s.memory s.index = 0x80 >>> j)
    (hc : coord (s.registers x) (s.registers y) 0 j < DISPLAY_SIZE) :
    ∃ s', execute_instruction rnd s = some s' ∧
      s'.pixels (coord (s.registers x) (s.registers y) 0 j)
        = u8 (s.pixels (coord (s.registers x) (s.registers y) 0 j) ^^^ 1) ∧
      s'.registers 0xF
        = (if s.pixels (coord (s.registers x) (s.registers y) 0 j) = 1 then 1 else 0) ∧
      s'.memory = s.memory ∧ s'.index = s.index ∧
      (∀ r, r ≠ 0xF → s'.registers r = s.registers r) ∧
      (∀ k, k ≠ coord (s.registers x) (s.registers y) 0 j → s'.pixels k = s.pixels k) := by
  have hr1 : List.range 1 = [0] := rfl
  have hbit : (0x80 >>> j) &&& (0x80 >>> j) ≠ 0 := (single_bit_mask j hj j hj).2 rfl
  have e := execute_Dxyn rnd s x y 1 hx hy (by decide) hpc h0 h1
  rw [hr1] at e
  simp only [List.foldlM_cons, List.foldlM_nil, draw_row, Nat.add_zero, hidx, if_true, hb]
    at e
  rw [draw_row_single_bit_cpp _ _ 0 j _ hj] at e
  unfold draw_bit at e
  rw [if_pos hbit] at e
  generalize coord (s.registers x) (s.registers y) 0 j = c at hc e ⊢
  simp only [hc, if_true] at e
  by_cases h1' : s.pixels c = 1
  · simp only [h1', if_true] at e ⊢
    simp only [bind, pure, Option.bind, Option.map] at e
    exact ⟨_, e, by simp [aset, h1'], by simp [aset], rfl, rfl,
      fun r hr => by simp [aset, hr], fun k hk => by simp [aset, hk]⟩
  · simp only [h1', if_false] at e ⊢
    simp only [bind, pure, Option.bind, Option.map] at e
    exact ⟨_, e, by simp [aset], by simp [aset], rfl, rfl,
      fun r hr => by simp [aset, hr], fun k hk => by simp [aset, hk]⟩

end StdStack.Chip8

/-- C11: in both variants, for a `Dxy1` whose sprite row has exactly one bit set
(bit `j` from the left) and whose target cell is in bounds and holds 0: the first
draw leaves the cell at 1 and `VF = 0`, and a second execution of the same
instruction (same `Vx`, `Vy`, index and sprite byte) on the framebuffer left by
the first leaves the cell at 0 again and `VF = 1`. -/
theorem draw_twice_single_pixel :
    (∀ (rnd1 : Nat) (s : ArrayStack.Chip8) (x y j : Nat), x < 16 → y < 16 → j < 8 →
      s.pc + 1 < MEMORY_SIZE → s.memory s.pc = 0xD0 + x → s.memory (s.pc + 1) = 16 * y + 1 →
      s.index < MEMORY_SIZE → s.memory s.index = 0x80 >>> j →
      ArrayStack.Chip8.first_pos s x y 0 j < DISPLAY_SIZE →
      s.display (ArrayStack.Chip8.first_pos s x y 0 j) = 0 →
      ∃ s1, ArrayStack.Chip8.execute_instruction rnd1 s = some s1 ∧
        s1.display (ArrayStack.Chip8.first_pos s x y 0 j) = 1 ∧ s1.registers 0xF = 0 ∧
        s1.memory = s.memory ∧ s1.index = s.index ∧
        (∀ r, r ≠ 0xF → s1.registers r = s.registers r) ∧
        ∀ (rnd2 : Nat) (t : ArrayStack.Chip8), t.pc + 1 < MEMORY_SIZE →
          t.memory t.pc = 0xD0 + x → t.memory (t.pc + 1) = 16 * y + 1 →
          t.index = s.index → t.memory t.index = s.memory s.index →
          t.registers x = s.registers x → t.registers y = s.registers y →
          t.display (ArrayStack.Chip8.first_pos s x y 0 j)
            = s1.display (ArrayStack.Chip8.first_pos s x y 0 j) →
          ∃ s2, ArrayStack.Chip8.execute_instruction rnd2 t = some s2 ∧
            s2.display (ArrayStack.Chip8.first_pos s x y 0 j) = 0 ∧ s2.registers 0xF = 1) ∧
    (∀ (rnd1 : Nat) (s : StdStack.Chip8) (x y j : Nat), x < 16 → y < 16 → j < 8 →
      s.pc + 1 < MEMORY_SIZE → s.memory s.pc = 0xD0 + x → s.memory (s.pc + 1) = 16 * y + 1 →
      s.index < MEMORY_SIZE → s.memory s.index = 0x80 >>> j →
      StdStack.Chip8.coord (s.registers x) (s.registers y) 0 j < DISPLAY_SIZE →
      s.pixels (StdStack.Chip8.coord (s.registers x) (s.registers y) 0 j) = 0 →
      ∃ s1, StdStack.Chip8.execute_instruction rnd1 s = some s1 ∧
        s1.pixels (StdStack.Chip8.coord (s.registers x) (s.registers y) 0 j) = 1 ∧
        s1.registers 0xF = 0 ∧
        s1.memory = s.memory ∧ s1.index = s.index ∧
        (∀ r, r ≠ 0xF → s1.registers r = s.registers r) ∧
        ∀ (rnd2 : Nat) (t : StdStack.Chip8), t.pc + 1 < MEMORY_SIZE →
          t.memory t.pc = 0xD0 + x → t.memory (t.pc + 1) = 16 * y + 1 →
          t.index = s.index → t.memory t.index = s.memory s.index →
          t.registers x = s.registers x → t.registers y = s.registers y →
          t.pixels (StdStack.Chip8.coord (s.registers x) (s.registers y) 0 j)
            = s1.pixels (StdStack.Chip8.coord (s.registers x) (s.registers y) 0 j) →
          ∃ s2, StdStack.Chip8.execute_instruction rnd2 t = some s2 ∧
            s2.pixels (StdStack.Chip8.coord (s.registers x) (s.registers y) 0 j) = 0 ∧
            s2.registers 0xF = 1) := by
  constructor
  · intro rnd1 s x y j hx hy hj hpc h0 h1 hidx hb hc hz
    obtain ⟨s1, e1, d1, v1, m1, i1, r1, -⟩ :=
      ArrayStack.Chip8.draw_single_bit_cc rnd1 s x y j hx hy hj hpc h0 h1 hidx hb hc
    rw [hz] at d1 v1
    refine ⟨s1, e1, d1.trans (by decide), v1, m1, i1, r1, ?_⟩
    intro rnd2 t tpc t0 t1 ti tb tx ty td
    have hpos : ArrayStack.Chip8.first_pos t x y 0 j = ArrayStack.Chip8.first_pos s x y 0 j := by
      simp only [ArrayStack.Chip8.first_pos, aset]
      rw [tx, ty]
    obtain ⟨s2, e2, d2, v2, -⟩ :=
      ArrayStack.Chip8.draw_single_bit_cc rnd2 t x y j hx hy hj tpc t0 t1
        (by rw [ti]; exact hidx) (by rw [tb]; exact hb) (by rw [hpos]; exact hc)
    rw [hpos, td, d1.trans (by decide : u8 (0 ^^^ 1) = 1)] at d2 v2
    exact ⟨s2, e2, d2.trans (by decide), v2⟩
  · intro rnd1 s x y j hx hy hj hpc h0 h1 hidx hb hc hz
    obtain ⟨s1, e1, d1, v1, m1, i1, r1, -⟩ :=
      StdStack.Chip8.draw_single_bit_cpp rnd1 s x y j hx hy hj hpc h0 h1 hidx hb hc
    rw [hz] at d1 v1
    refine ⟨s1, e1, d1.trans (by decide), v1.trans (by decide), m1, i1, r1, ?_⟩
    intro rnd2 t tpc t0 t1 ti tb tx ty td
    obtain ⟨s2, e2, d2, v2, -⟩ :=
      StdStack.Chip8.draw_single_bit_cpp rnd2 t x y j hx hy hj tpc t0 t1
        (by rw [ti]; exact hidx) (by rw [tb]; exact hb) (by rw [tx, ty]; exact hc)
    rw [tx, ty, td, d1.trans (by decide : u8 (0 ^^^ 1) = 1)] at d2 v2
    exact ⟨s2, e2, d2.trans (by decide), v2.trans (by decide)⟩

/-- Instance of `draw_twice_single_pixel` at the two `dot_example` states (`D011`,
row `0x20`, `V0 = 10`, `V1 = 3`, target cell 204): the first draw sets cell 204
with `VF = 0`; the same instruction run again from the resulting state, with `pc`
back at 512, clears it with `VF = 1`. -/
theorem draw_twice_single_pixel_witness :
    (∃ s1, ArrayStack.Chip8.execute_instruction 0 ArrayStack.Chip8.dot_example = some s1 ∧
      s1.display 204 = 1 ∧ s1.registers 0xF = 0 ∧
      ∃ s2, ArrayStack.Chip8.execute_instruction 0 { s1 with pc := 512 } = some s2 ∧
        s2.display 204 = 0 ∧ s2.registers 0xF = 1) ∧
    (∃ s1, StdStack.Chip8.execute_instruction 0 StdStack.Chip8.dot_example = some s1 ∧
      s1.pixels 204 = 1 ∧ s1.registers 0xF = 0 ∧
      ∃ s2, StdStack.Chip8.execute_instruction 0 { s1 with pc := 512 } = some s2 ∧
        s2.pixels 204 = 0 ∧ s2.registers 0xF = 1) := by
  constructor
  · obtain ⟨s1, e1, d1, v1, m1, i1, r1, next⟩ :=
      draw_twice_single_pixel.1 0 ArrayStack.Chip8.dot_example 0 1 2 (by decide) (by decide)
        (by decide) (by decide) (by decide) (by decide) (by decide) (by decide) (by decide)
        (by decide)
    have hp : ArrayStack.Chip8.first_pos ArrayStack.Chip8.dot_example 0 1 0 2 = 204 := by
      decide
    obtain ⟨s2, e2, d2, v2⟩ := next 0 { s1 with pc := 512 }
      (by show 512 + 1 < MEMORY_SIZE; decide)
      (by show s1.memory 512 = _; rw [m1]; rfl) (by show s1.memory 513 = _; rw [m1]; rfl)
      i1 (by show s1.memory s1.index = _; rw [m1, i1])
      (r1 0 (by decide)) (r1 1 (by decide)) rfl
    rw [hp] at d1 d2
    exact ⟨s1, e1, d1, v1, s2, e2, d2, v2⟩
  · obtain ⟨s1, e1, d1, v1, m1, i1, r1, next⟩ :=
      draw_twice_single_pixel.2 0 StdStack.Chip8.dot_example 0 1 2 (by decide) (by decide)
        (by decide) (by decide) (by decide) (by decide) (by decide) (by decide) (by decide)
        (by decide)
    have hp : StdStack.Chip8.coord (StdStack.Chip8.dot_example.registers 0)
        (StdStack.Chip8.dot_example.registers 1) 0 2 = 204 := by decide
    obtain ⟨s2, e2, d2, v2⟩ := next 0 { s1 with pc := 512 }
      (by show 512 + 1 < MEMORY_SIZE; decide)
      (by show s1.memory 512 = _; rw [m1]; rfl) (by show s1.memory 513 = _; rw [m1]; rfl)
      i1 (by show s1.memory s1.index = _; rw [m1, i1])
      (r1 0 (by decide)) (r1 1 (by decide)) rfl
    rw [hp] at d1 d2
    exact ⟨s1, e1, d1, v1, s2, e2, d2, v2⟩

/-- C19: in both variants, for every ROM image of at most 3584 bytes, `load_rom` on
the constructed state leaves byte `i` of the image at `memory[512 + i]`, the
80-byte font table at `memory[0 .. 80)`, every byte outside `[512, 512 + len)` as
it was, and every other field as constructed. -/
theorem load_rom_copies_image :
    (∀ buffer : List Nat, buffer.length ≤ 3584 →
      ∃ s', ArrayStack.Chip8.load_rom buffer ArrayStack.Chip8.new = some s' ∧
        (∀ i, i < buffer.length → buffer[i]? = some (s'.memory (512 + i))) ∧
        (∀ a, a < 80 → FONTSET[a]? = some (s'.memory a)) ∧
        (∀ a, ¬ (512 ≤ a ∧ a < 512 + buffer.length) →
          s'.memory a = ArrayStack.Chip8.new.memory a) ∧
        s' = { ArrayStack.Chip8.new with memory := s'.memory }) ∧
    (∀ buffer : List Nat, buffer.length ≤ 3584 →
      ∃ s', StdStack.Chip8.load_rom buffer StdStack.Chip8.new = some s' ∧
        (∀ i, i < buffer.length → buffer[i]? = some (s'.memory (512 + i))) ∧
        (∀ a, a < 80 → FONTSET[a]? = some (s'.memory a)) ∧
        (∀ a, ¬ (512 ≤ a ∧ a < 512 + buffer.length) →
          s'.memory a = StdStack.Chip8.new.memory a) ∧
        s' = { StdStack.Chip8.new with memory := s'.memory }) :=
  ⟨fun buffer h => ArrayStack.Chip8.load_rom_spec_cc buffer h,
    fun buffer h => StdStack.Chip8.load_rom_spec_cpp buffer h⟩

/-- Instance of `load_rom_copies_image` at `sample_rom`: the three bytes land at
512, 513, 514, address 515 stays 0 and the font still starts with `0xF0` and ends
with `0x80`. -/
theorem load_rom_copies_image_witness :
    (∃ s', ArrayStack.Chip8.load_rom sample_rom ArrayStack.Chip8.new = some s' ∧
      s'.memory 512 = 0x12 ∧ s'.memory 513 = 0x34 ∧ s'.memory 514 = 0x56 ∧
      s'.memory 515 = 0 ∧ s'.memory 0 = 0xF0 ∧ s'.memory 79 = 0x80) ∧
    (∃ s', StdStack.Chip8.load_rom sample_rom StdStack.Chip8.new = some s' ∧
      s'.memory 512 = 0x12 ∧ s'.memory 513 = 0x34 ∧ s'.memory 514 = 0x56 ∧
      s'.memory 515 = 0 ∧ s'.memory 0 = 0xF0 ∧ s'.memory 79 = 0x80) := by
  constructor
  · obtain ⟨s', e, hb, hf, ho, -⟩ := load_rom_copies_image.1 sample_rom (by decide)
    refine ⟨s', e, ?_, ?_, ?_, ?_, ?_, ?_⟩
    · exact (Option.some.inj (hb 0 (by decide))).symm
    · exact (Option.some.inj (hb 1 (by decide))).symm
    · exact (Option.some.inj (hb 2 (by decide))).symm
    · exact (ho 515 (by decide)).trans rfl
    · exact (Option.some.inj (hf 0 (by decide))).symm
    · exact (Option.some.inj (hf 79 (by decide))).symm
  · obtain ⟨s', e, hb, hf, ho, -⟩ := load_rom_copies_image.2 sample_rom (by decide)
    refine ⟨s', e, ?_, ?_, ?_, ?_, ?_, ?_⟩
    · exact (Option.some.inj (hb 0 (by decide))).symm
    · exact (Option.some.inj (hb 1 (by decide))).symm
    · exact (Option.some.inj (hb 2 (by decide))).symm
    · exact (ho 515 (by decide)).trans rfl
    · exact (Option.some.inj (hf 0 (by decide))).symm
    · exact (Option.some.inj (hf 79 (by decide))).symm

namespace ArrayStack.Chip8

/-- In `chip8.cc`, the loop of `Fx55` after `m` iterations has copied `V0..V(m-1)` to
`memory[index ..]` and changed nothing else. -/
theorem store_regs_spec_cc (s : Chip8) (m : Nat)
    (hb : ∀ i, i < m → s.index + i < MEMORY_SIZE) :
    ∃ s', (List.range m).foldlM store_reg s = some s' ∧
      (∀ a, s'.memory a =
        if s.index ≤ a ∧ a < s.index + m then s.registers (a - s.index) else s.memory a) ∧
      s' = { s with memory := s'.memory } := by
  induction m with
  | zero =>
    refine ⟨s, rfl, ?_, rfl⟩
    intro a
    have : ¬ (s.index ≤ a ∧ a < s.index + 0) := by omega
    rw [if_neg this]
  | succ m ih =>
    obtain ⟨s1, e1, hm, hs⟩ := ih (fun i hi => hb i (by omega))
    have hidx : s1.index = s.index := by rw [hs]
    have hreg : s1.registers = s.registers := by rw [hs]
    have hin : s1.index + m < MEMORY_SIZE := by rw [hidx]; exact hb m (by omega)
    refine ⟨{ s1 with memory := aset s1.memory (s1.index + m) (s1.registers m) }, ?_, ?_, ?_⟩
    · rw [List.range_succ, List.foldlM_append, e1]
      simp [store_reg, hin]
    · intro a
      show aset s1.memory (s1.index + m) (s1.registers m) a = _
      simp only [aset, hidx, hreg, hm a]
      by_cases h1 : a = s.index + m
      · subst h1
        have : s.index ≤ s.index + m ∧ s.index + m < s.index + (m + 1) := by omega
        rw [if_pos rfl, if_pos this]
        congr 1
        omega
      · rw [if_neg h1]
        by_cases h2 : s.index ≤ a ∧ a < s.index + m
        · have : s.index ≤ a ∧ a < s.index + (m + 1) := by omega
          rw [if_pos h2, if_pos this]
        · have : ¬ (s.index ≤ a ∧ a < s.index + (m + 1)) := by omega
          rw [if_neg h2, if_neg this]
    · rw [hs]

/-- In `chip8.cc`, `Fx33` stores the three decimal digits of `Vx` at `index`,
`index + 1`, `index + 2` and changes nothing else but `pc`. -/
theorem bcd_spec_cc (rnd : Nat) (s : Chip8) (x : Nat) (hwf : s.WF)
    (hx : x < 16) (hpc : s.pc + 1 < MEMORY_SIZE)
    (h0 : s.memory s.pc = 0xF0 + x) (h1 : s.memory (s.pc + 1) = 0x33)
    (hidx : s.index + 2 < MEMORY_SIZE) :
    ∃ s', execute_instruction rnd s = some s' ∧
      s'.memory s.index = s.registers x / 100 ∧
      s'.memory (s.index + 1) = (s.registers x / 10) % 10 ∧
      s'.memory (s.index + 2) = s.registers x % 10 ∧
      s'.memory s.index ≤ 9 ∧ s'.memory (s.index + 1) ≤ 9 ∧ s'.memory (s.index + 2) ≤ 9 ∧
      100 * s'.memory s.index + 10 * s'.memory (s.index + 1) + s'.memory (s.index + 2)
        = s.registers x ∧
      (∀ a, a ≠ s.index → a ≠ s.index + 1 → a ≠ s.index + 2 → s'.memory a = s.memory a) ∧
      s'.registers = s.registers ∧ s'.index = s.index := by
  have hr : s.registers x < 256 := hwf.2.2.2.1 x hx
  have e := execute_FxKK_cc rnd s x 0x33 hx (by decide) hpc h0 h1
  simp only [exec_F, hidx, if_true] at e
  simp only [show ¬ ((0x33 : Nat) = 0x07) by decide, show ¬ ((0x33 : Nat) = 0x0A) by decide,
    show ¬ ((0x33 : Nat) = 0x15) by decide, show ¬ ((0x33 : Nat) = 0x18) by decide,
    show ¬ ((0x33 : Nat) = 0x1E) by decide, show ¬ ((0x33 : Nat) = 0x29) by decide,
    if_false] at e
  have ha : s.index ≠ s.index + 1 := by omega
  have hb : s.index ≠ s.index + 2 := by omega
  have hc : s.index + 1 ≠ s.index + 2 := by omega
  have m0 : aset (aset (aset s.memory s.index (u8 (s.registers x / 100))) (s.index + 1)
      (u8 (s.registers x / 10 % 10))) (s.index + 2) (u8 (s.registers x % 10)) s.index
      = s.registers x / 100 := by
    simp only [aset, u8, if_neg ha, if_neg hb, if_true]; omega
  have m1 : aset (aset (aset s.memory s.index (u8 (s.registers x / 100))) (s.index + 1)
      (u8 (s.registers x / 10 % 10))) (s.index + 2) (u8 (s.registers x % 10)) (s.index + 1)
      = s.registers x / 10 % 10 := by
    simp only [aset, u8, if_neg hc, if_true]; omega
  have m2 : aset (aset (aset s.memory s.index (u8 (s.registers x / 100))) (s.index + 1)
      (u8 (s.registers x / 10 % 10))) (s.index + 2) (u8 (s.registers x % 10)) (s.index + 2)
      = s.registers x % 10 := by
    simp only [aset, u8, if_true]; omega
  refine ⟨_, e, m0, m1, m2, ?_, ?_, ?_, ?_, ?_, rfl, rfl⟩
  · show aset _ _ _ _ ≤ 9
    rw [m0]; omega
  · show aset _ _ _ _ ≤ 9
    rw [m1]; omega
  · show aset _ _ _ _ ≤ 9
    rw [m2]; omega
  · show 100 * aset _ _ _ _ + 10 * aset _ _ _ _ + aset _ _ _ _ = _
    rw [m0, m1, m2]; omega
  · intro a a0 a1 a2
    show aset _ _ _ a = _
    simp only [aset, if_neg a0, if_neg a1, if_neg a2]

/-- In `chip8.cc`, `Fx55` copies `V0..Vx` to `memory[index .. index + x]` and changes
nothing else but `pc`. -/
theorem store_block_spec_cc (rnd : Nat) (s : Chip8) (x : Nat)
    (hx : x < 16) (hpc : s.pc + 1 < MEMORY_SIZE)
    (h0 : s.memory s.pc = 0xF0 + x) (h1 : s.memory (s.pc + 1) = 0x55)
    (hidx : s.index + x < MEMORY_SIZE) :
    ∃ s', execute_instruction rnd s = some s' ∧
      (∀ i, i ≤ x → s'.memory (s.index + i) = s.registers i) ∧
      (∀ a, ¬ (s.index ≤ a ∧ a ≤ s.index + x) → s'.memory a = s.memory a) ∧
      s'.registers = s.registers ∧ s'.index = s.index := by
  have e := execute_FxKK_cc rnd s x 0x55 hx (by decide) hpc h0 h1
  simp only [exec_F] at e
  simp only [show ¬ ((0x55 : Nat) = 0x07) by decide, show ¬ ((0x55 : Nat) = 0x0A) by decide,
    show ¬ ((0x55 : Nat) = 0x15) by decide, show ¬ ((0x55 : Nat) = 0x18) by decide,
    show ¬ ((0x55 : Nat) = 0x1E) by decide, show ¬ ((0x55 : Nat) = 0x29) by decide,
    show ¬ ((0x55 : Nat) = 0x33) by decide, if_false, if_true] at e
  obtain ⟨s', e', hm, hs⟩ := store_regs_spec_cc { s with pc := u16 (s.pc + 2) } (x + 1)
    (fun i hi => by show s.index + i < MEMORY_SIZE; omega)
  refine ⟨s', e.trans e', ?_, ?_, by rw [hs], by rw [hs]⟩
  · intro i hi
    have := hm (s.index + i)
    simp only at this
    rw [this, if_pos (by omega)]
    congr 1
    omega
  · intro a ha
    have := hm a
    simp only at this
    rw [this, if_neg (by omega)]

end ArrayStack.Chip8

namespace StdStack.Chip8

/-- In `chip8.cpp`, the loop of `Fx55` after `m` iterations has copied `V0..V(m-1)` to
`memory[index ..]` and changed nothing else. -/
theorem store_regs_spec_cpp (s : Chip8) (m : Nat)
    (hb : ∀ i, i < m → s.index + i < MEMORY_SIZE) :
    ∃ s', (List.range m).foldlM store_reg s = some s' ∧
      (∀ a, s'.memory a =
        if s.index ≤ a ∧ a < s.index + m then s.registers (a - s.index) else s.memory a) ∧
      s' = { s with memory := s'.memory } := by
  induction m with
  | zero =>
    refine ⟨s, rfl, ?_, rfl⟩
    intro a
    have : ¬ (s.index ≤ a ∧ a < s.index + 0) := by omega
    rw [if_neg this]
  | succ m ih =>
    obtain ⟨s1, e1, hm, hs⟩ := ih (fun i hi => hb i (by omega))
    have hidx : s1.index = s.index := by rw [hs]
    have hreg : s1.registers = s.registers := by rw [hs]
    have hin : s1.index + m < MEMORY_SIZE := by rw [hidx]; exact hb m (by omega)
    refine ⟨{ s1 with memory := aset s1.memory (s1.index + m) (s1.registers m) }, ?_, ?_, ?_⟩
    · rw [List.range_succ, List.foldlM_append, e1]
      simp [store_reg, hin]
    · intro a
      show aset s1.memory (s1.index + m) (s1.registers m) a = _
      simp only [aset, hidx, hreg, hm a]
      by_cases h1 : a = s.index + m
      · subst h1
        have : s.index ≤ s.index + m ∧ s.index + m < s.index + (m + 1) := by omega
        rw [if_pos rfl, if_pos this]
        congr 1
        omega
      · rw [if_neg h1]
        by_cases h2 : s.index ≤ a ∧ a < s.index + m
        · have : s.index ≤ a ∧ a < s.index + (m + 1) := by omega
          rw [if_pos h2, if_pos this]
        · have : ¬ (s.index ≤ a ∧ a < s.index + (m + 1)) := by omega
          rw [if_neg h2, if_neg this]
    · rw [hs]

/-- In `chip8.cpp`, `Fx33` stores the three decimal digits of `Vx` at `index`,
`index + 1`, `index + 2` and changes nothing else but `pc`. -/
theorem bcd_spec_cpp (rnd : Nat) (s : Chip8) (x : Nat) (hwf : s.WF)
    (hx : x < 16) (hpc : s.pc + 1 < MEMORY_SIZE)
    (h0 : s.memory s.pc = 0xF0 + x) (h1 : s.memory (s.pc + 1) = 0x33)
    (hidx : s.index + 2 < MEMORY_SIZE) :
    ∃ s', execute_instruction rnd s = some s' ∧
      s'.memory s.index = s.registers x / 100 ∧
      s'.memory (s.index + 1) = (s.registers x / 10) % 10 ∧
      s'.memory (s.index + 2) = s.registers x % 10 ∧
      s'.memory s.index ≤ 9 ∧ s'.memory (s.index + 1) ≤ 9 ∧ s'.memory (s.index + 2) ≤ 9 ∧
      100 * s'.memory s.index + 10 * s'.memory (s.index + 1) + s'.memory (s.index + 2)
        = s.registers x ∧
      (∀ a, a ≠ s.index → a ≠ s.index + 1 → a ≠ s.index + 2 → s'.memory a = s.memory a) ∧
      s'.registers = s.registers ∧ s'.index = s.index := by
  have hr : s.registers x < 256 := hwf.2.2.1 x hx
  have e := execute_FxKK_cpp rnd s x 0x33 hx (by decide) hpc h0 h1
  simp only [exec_F, hidx, if_true] at e
  simp only [show ¬ ((0x33 : Nat) = 0x07) by decide, show ¬ ((0x33 : Nat) = 0x0A) by decide,
    show ¬ ((0x33 : Nat) = 0x15) by decide, show ¬ ((0x33 : Nat) = 0x18) by decide,
    show ¬ ((0x33 : Nat) = 0x1E) by decide, show ¬ ((0x33 : Nat) = 0x29) by decide,
    if_false] at e
  have ha : s.index ≠ s.index + 1 := by omega
  have hb : s.index ≠ s.index + 2 := by omega
  have hc : s.index + 1 ≠ s.index + 2 := by omega
  have m0 : aset (aset (aset s.memory s.index (u8 (s.registers x / 100))) (s.index + 1)
      (u8 (s.registers x / 10 % 10))) (s.index + 2) (u8 (s.registers x % 10)) s.index
      = s.registers x / 100 := by
    simp only [aset, u8, if_neg ha, if_neg hb, if_true]; omega
  have m1 : aset (aset (aset s.memory s.index (u8 (s.registers x / 100))) (s.index + 1)
      (u8 (s.registers x / 10 % 10))) (s.index + 2) (u8 (s.registers x % 10)) (s.index + 1)
      = s.registers x / 10 % 10 := by
    simp only [aset, u8, if_neg hc, if_true]; omega
  have m2 : aset (aset (aset s.memory s.index (u8 (s.registers x / 100))) (s.index + 1)
      (u8 (s.registers x / 10 % 10))) (s.index + 2) (u8 (s.registers x % 10)) (s.index + 2)
      = s.registers x % 10 := by
    simp only [aset, u8, if_true]; omega
  refine ⟨_, e, m0, m1, m2, ?_, ?_, ?_, ?_, ?_, rfl, rfl⟩
  · show aset _ _ _ _ ≤ 9
    rw [m0]; omega
  · show aset _ _ _ _ ≤ 9
    rw [m1]; omega
  · show aset _ _ _ _ ≤ 9
    rw [m2]; omega
  · show 100 * aset _ _ _ _ + 10 * aset _ _ _ _ + aset _ _ _ _ = _
    rw [m0, m1, m2]; omega
  · intro a a0 a1 a2
    show aset _ _ _ a = _
    simp only [aset, if_neg a0, if_neg a1, if_neg a2]

/-- In `chip8.cpp`, `Fx55` copies `V0..Vx` to `memory[index .. index + x]` and changes
nothing else but `pc`. -/
theorem store_block_spec_cpp (rnd : Nat) (s : Chip8) (x : Nat)
    (hx : x < 16) (hpc : s.pc + 1 < MEMORY_SIZE)
    (h0 : s.memory s.pc = 0xF0 + x) (h1 : s.memory (s.pc + 1) = 0x55)
    (hidx : s.index + x < MEMORY_SIZE) :
    ∃ s', execute_instruction rnd s = some s' ∧
      (∀ i, i ≤ x → s'.memory (s.index + i) = s.registers i) ∧
      (∀ a, ¬ (s.index ≤ a ∧ a ≤ s.index + x) → s'.memory a = s.memory a) ∧
      s'.registers = s.registers ∧ s'.index = s.index := by
  have e := execute_FxKK_cpp rnd s x 0x55 hx (by decide) hpc h0 h1
  simp only [exec_F] at e
  simp only [show ¬ ((0x55 : Nat) = 0x07) by decide, show ¬ ((0x55 : Nat) = 0x0A) by decide,
    show ¬ ((0x55 : Nat) = 0x15) by decide, show ¬ ((0x55 : Nat) = 0x18) by decide,
    show ¬ ((0x55 : Nat) = 0x1E) by decide, show ¬ ((0x55 : Nat) = 0x29) by decide,
    show ¬ ((0x55 : Nat) = 0x33) by decide, if_false, if_true] at e
  obtain ⟨s', e', hm, hs⟩ := store_regs_spec_cpp { s with pc := u16 (s.pc + 2) } (x + 1)
    (fun i hi => by show s.index + i < MEMORY_SIZE; omega)
  refine ⟨s', e.trans e', ?_, ?_, by rw [hs], by rw [hs]⟩
  · intro i hi
    have := hm (s.index + i)
    simp only at this
    rw [this, if_pos (by omega)]
    congr 1
    omega
  · intro a ha
    have := hm a
    simp only at this
    rw [this, if_neg (by omega)]

end StdStack.Chip8

namespace ArrayStack.Chip8

theorem bcd_example_WF_cc : bcd_example.WF := by
  refine ⟨by simp [bcd_example], ?_, by simp [bcd_example], ?_, by simp [bcd_example],
    by simp [bcd_example], by simp [bcd_example], by simp [bcd_example],
    by simp [bcd_example]⟩
  · intro a _
    simp only [bcd_example]
    split_ifs <;> omega
  · intro r _
    simp only [bcd_example]
    split_ifs <;> omega

end ArrayStack.Chip8

namespace StdStack.Chip8

theorem bcd_example_WF_cpp : bcd_example.WF := by
  refine ⟨?_, by simp [bcd_example], ?_, by simp [bcd_example], by simp [bcd_example],
    by simp [bcd_example], by simp [bcd_example], by simp [bcd_example]⟩
  · intro a _
    simp only [bcd_example]
    split_ifs <;> omega
  · intro r _
    simp only [bcd_example]
    split_ifs <;> omega

end StdStack.Chip8

/-- C21: in both variants the constructed state has the 80-byte font table at
`memory[0 .. 80)` with glyph `d` at offset `5 * d`, zero in `memory[80 .. 4096)`,
all 16 registers zero, `index = 0`, `pc = 512`, an empty call stack, both timers 0,
all 2048 framebuffer cells 0, all 16 key flags false and the draw flag false. -/
theorem constructor_state :
    (FONTSET.length = 80 ∧
      (∀ a, a < 80 → FONTSET[a]? = some (ArrayStack.Chip8.new.memory a)) ∧
      (∀ d, d < 16 →
        (List.range 5).map (fun r => ArrayStack.Chip8.new.memory (5 * d + r)) = glyph d) ∧
      (∀ a, 80 ≤ a → a < MEMORY_SIZE → ArrayStack.Chip8.new.memory a = 0) ∧
      (∀ r, r < NUM_REGISTERS → ArrayStack.Chip8.new.registers r = 0) ∧
      ArrayStack.Chip8.new.index = 0 ∧ ArrayStack.Chip8.new.pc = 512 ∧
      ArrayStack.Chip8.new.sp = 0 ∧
      (∀ k, k < STACK_SIZE → ArrayStack.Chip8.new.stack k = 0) ∧
      ArrayStack.Chip8.new.delay_timer = 0 ∧ ArrayStack.Chip8.new.sound_timer = 0 ∧
      (∀ c, c < DISPLAY_SIZE → ArrayStack.Chip8.new.display c = 0) ∧
      (∀ k, k < NUM_KEYS → ArrayStack.Chip8.new.keys k = false) ∧
      ArrayStack.Chip8.new.draw_flag = false) ∧
    (FONTSET.length = 80 ∧
      (∀ a, a < 80 → FONTSET[a]? = some (StdStack.Chip8.new.memory a)) ∧
      (∀ d, d < 16 →
        (List.range 5).map (fun r => StdStack.Chip8.new.memory (5 * d + r)) = glyph d) ∧
      (∀ a, 80 ≤ a → a < MEMORY_SIZE → StdStack.Chip8.new.memory a = 0) ∧
      (∀ r, r < NUM_REGISTERS → StdStack.Chip8.new.registers r = 0) ∧
      StdStack.Chip8.new.index = 0 ∧ StdStack.Chip8.new.pc = 512 ∧
      StdStack.Chip8.new.stack = [] ∧
      StdStack.Chip8.new.delay_timer = 0 ∧ StdStack.Chip8.new.sound_timer = 0 ∧
      (∀ c, c < DISPLAY_SIZE → StdStack.Chip8.new.pixels c = 0) ∧
      (∀ k, k < NUM_KEYS → StdStack.Chip8.new.keys k = false) ∧
      StdStack.Chip8.new.draw_flag = false) := by
  have hfont : ∀ a, a < 80 → FONTSET[a]? = some (copyInto (fun _ => 0) 0 FONTSET a) := by
    intro a ha
    have hlen : FONTSET.length = 80 := rfl
    have hlt : a < FONTSET.length := by omega
    simp only [copyInto]
    rw [if_pos (by omega), Nat.sub_zero, List.getD_eq_getElem _ _ hlt,
      List.getElem?_eq_getElem hlt]
  have hglyph : ∀ d, d < 16 →
      (List.range 5).map (fun r => copyInto (fun _ => 0) 0 FONTSET (5 * d + r)) = glyph d := by
    decide
  have hzero : ∀ a, 80 ≤ a → copyInto (fun _ => 0) 0 FONTSET a = 0 := by
    intro a ha
    have hlen : FONTSET.length = 80 := rfl
    simp only [copyInto, hlen]
    rw [if_neg (by omega)]
  exact ⟨⟨rfl, hfont, hglyph, fun a ha _ => hzero a ha, fun _ _ => rfl, rfl, rfl, rfl,
      fun _ _ => rfl, rfl, rfl, fun _ _ => rfl, fun _ _ => rfl, rfl⟩,
    ⟨rfl, hfont, hglyph, fun a ha _ => hzero a ha, fun _ _ => rfl, rfl, rfl, rfl,
      rfl, rfl, fun _ _ => rfl, fun _ _ => rfl, rfl⟩⟩

/-- Instance of `constructor_state`: glyph `A` sits at `memory[50 .. 55)`, address
79 holds the last font byte and address 80 is zero, in both variants. -/
theorem constructor_state_witness :
    ((List.range 5).map (fun r => ArrayStack.Chip8.new.memory (5 * 0xA + r))
        = [0xF0, 0x90, 0xF0, 0x90, 0x90] ∧
      ArrayStack.Chip8.new.memory 79 = 0x80 ∧ ArrayStack.Chip8.new.memory 80 = 0 ∧
      ArrayStack.Chip8.new.registers 0xF = 0 ∧ ArrayStack.Chip8.new.display 2047 = 0) ∧
    ((List.range 5).map (fun r => StdStack.Chip8.new.memory (5 * 0xA + r))
        = [0xF0, 0x90, 0xF0, 0x90, 0x90] ∧
      StdStack.Chip8.new.memory 79 = 0x80 ∧ StdStack.Chip8.new.memory 80 = 0 ∧
      StdStack.Chip8.new.registers 0xF = 0 ∧ StdStack.Chip8.new.pixels 2047 = 0) := by
  obtain ⟨⟨-, cf, cg, cz, cr, -, -, -, -, -, -, cd, -, -⟩,
    ⟨-, pf, pg, pz, pr, -, -, -, -, -, pd, -, -⟩⟩ := constructor_state
  refine ⟨⟨(cg 0xA (by decide)).trans (by decide), ?_, cz 80 (by decide) (by decide),
      cr 0xF (by decide), cd 2047 (by decide)⟩,
    ⟨(pg 0xA (by decide)).trans (by decide), ?_, pz 80 (by decide) (by decide),
      pr 0xF (by decide), pd 2047 (by decide)⟩⟩
  · exact (Option.some.inj (cf 79 (by decide))).symm.trans (by decide)
  · exact (Option.some.inj (pf 79 (by decide))).symm.trans (by decide)

/-- C22: in both variants, for every state whose values fit their types and with
`index + 2 < 4096`, `Fx33` stores `Vx div 100`, `(Vx div 10) mod 10` and
`Vx mod 10` at `index`, `index + 1`, `index + 2`; each stored byte is a digit in
`0..9`, the three digits recombine to `Vx`, and the rest of memory, all registers
and `index` are unchanged. -/
theorem bcd_store_digits :
    (∀ (rnd : Nat) (s : ArrayStack.Chip8) (x : Nat), s.WF → x < 16 →
      s.pc + 1 < MEMORY_SIZE → s.memory s.pc = 0xF0 + x → s.memory (s.pc + 1) = 0x33 →
      s.index + 2 < MEMORY_SIZE →
      ∃ s', ArrayStack.Chip8.execute_instruction rnd s = some s' ∧
        s'.memory s.index = s.registers x / 100 ∧
        s'.memory (s.index + 1) = (s.registers x / 10) % 10 ∧
        s'.memory (s.index + 2) = s.registers x % 10 ∧
        s'.memory s.index ≤ 9 ∧ s'.memory (s.index + 1) ≤ 9 ∧ s'.memory (s.index + 2) ≤ 9 ∧
        100 * s'.memory s.index + 10 * s'.memory (s.index + 1) + s'.memory (s.index + 2)
          = s.registers x ∧
        (∀ a, a ≠ s.index → a ≠ s.index + 1 → a ≠ s.index + 2 →
          s'.memory a = s.memory a) ∧
        s'.registers = s.registers ∧ s'.index = s.index) ∧
    (∀ (rnd : Nat) (s : StdStack.Chip8) (x : Nat), s.WF → x < 16 →
      s.pc + 1 < MEMORY_SIZE → s.memory s.pc = 0xF0 + x → s.memory (s.pc + 1) = 0x33 →
      s.index + 2 < MEMORY_SIZE →
      ∃ s', StdStack.Chip8.execute_instruction rnd s = some s' ∧
        s'.memory s.index = s.registers x / 100 ∧
        s'.memory (s.index + 1) = (s.registers x / 10) % 10 ∧
        s'.memory (s.index + 2) = s.registers x % 10 ∧
        s'.memory s.index ≤ 9 ∧ s'.memory (s.index + 1) ≤ 9 ∧ s'.memory (s.index + 2) ≤ 9 ∧
        100 * s'.memory s.index + 10 * s'.memory (s.index + 1) + s'.memory (s.index + 2)
          = s.registers x ∧
        (∀ a, a ≠ s.index → a ≠ s.index + 1 → a ≠ s.index + 2 →
          s'.memory a = s.memory a) ∧
        s'.registers = s.registers ∧ s'.index = s.index) :=
  ⟨fun rnd s x hwf hx hpc h0 h1 hidx =>
      ArrayStack.Chip8.bcd_spec_cc rnd s x hwf hx hpc h0 h1 hidx,
    fun rnd s x hwf hx hpc h0 h1 hidx =>
      StdStack.Chip8.bcd_spec_cpp rnd s x hwf hx hpc h0 h1 hidx⟩

/-- Instance of `bcd_store_digits` at the two `bcd_example` states (`F233`,
`V2 = 254`, `index = 0x300`): the bytes 2, 5, 4 are stored at `0x300..0x302`. -/
theorem bcd_store_digits_witness :
    (ArrayStack.Chip8.bcd_example.WF ∧
      ∃ s', ArrayStack.Chip8.execute_instruction 0 ArrayStack.Chip8.bcd_example = some s' ∧
        s'.memory 0x300 = 2 ∧ s'.memory 0x301 = 5 ∧ s'.memory 0x302 = 4 ∧
        s'.memory 0x303 = 0 ∧ s'.registers 2 = 254) ∧
    (StdStack.Chip8.bcd_example.WF ∧
      ∃ s', StdStack.Chip8.execute_instruction 0 StdStack.Chip8.bcd_example = some s' ∧
        s'.memory 0x300 = 2 ∧ s'.memory 0x301 = 5 ∧ s'.memory 0x302 = 4 ∧
        s'.memory 0x303 = 0 ∧ s'.registers 2 = 254) := by
  obtain ⟨c, ce, c0, c1, c2, -, -, -, -, co, cr, -⟩ :=
    bcd_store_digits.1 0 ArrayStack.Chip8.bcd_example 2 ArrayStack.Chip8.bcd_example_WF_cc
      (by decide) (by decide) (by decide) (by decide) (by decide)
  obtain ⟨p, pe, p0, p1, p2, -, -, -, -, po, pr, -⟩ :=
    bcd_store_digits.2 0 StdStack.Chip8.bcd_example 2 StdStack.Chip8.bcd_example_WF_cpp
      (by decide) (by decide) (by decide) (by decide) (by decide)
  exact ⟨⟨ArrayStack.Chip8.bcd_example_WF_cc, c, ce, c0.trans (by decide),
      c1.trans (by decide), c2.trans (by decide),
      (co 0x303 (by decide) (by decide) (by decide)).trans rfl, by rw [cr]; rfl⟩,
    ⟨StdStack.Chip8.bcd_example_WF_cpp, p, pe, p0.trans (by decide),
      p1.trans (by decide), p2.trans (by decide),
      (po 0x303 (by decide) (by decide) (by decide)).trans rfl, by rw [pr]; rfl⟩⟩

/-- C23: in both variants, for every `x` in `0..15` with `index + x < 4096`, `Fx55`
leaves `memory[index + i] = Vi` for every `i ≤ x`, every other memory byte
unchanged, and all registers and `index` as before. -/
theorem store_registers_block :
    (∀ (rnd : Nat) (s : ArrayStack.Chip8) (x : Nat), x < 16 →
      s.pc + 1 < MEMORY_SIZE → s.memory s.pc = 0xF0 + x → s.memory (s.pc + 1) = 0x55 →
      s.index + x < MEMORY_SIZE →
      ∃ s', ArrayStack.Chip8.execute_instruction rnd s = some s' ∧
        (∀ i, i ≤ x → s'.memory (s.index + i) = s.registers i) ∧
        (∀ a, ¬ (s.index ≤ a ∧ a ≤ s.index + x) → s'.memory a = s.memory a) ∧
        s'.registers = s.registers ∧ s'.index = s.index) ∧
    (∀ (rnd : Nat) (s : StdStack.Chip8) (x : Nat), x < 16 →
      s.pc + 1 < MEMORY_SIZE → s.memory s.pc = 0xF0 + x → s.memory (s.pc + 1) = 0x55 →
      s.index + x < MEMORY_SIZE →
      ∃ s', StdStack.Chip8.execute_instruction rnd s = some s' ∧
        (∀ i, i ≤ x → s'.memory (s.index + i) = s.registers i) ∧
        (∀ a, ¬ (s.index ≤ a ∧ a ≤ s.index + x) → s'.memory a = s.memory a) ∧
        s'.registers = s.registers ∧ s'.index = s.index) :=
  ⟨fun rnd s x hx hpc h0 h1 hidx =>
      ArrayStack.Chip8.store_block_spec_cc rnd s x hx hpc h0 h1 hidx,
    fun rnd s x hx hpc h0 h1 hidx =>
      StdStack.Chip8.store_block_spec_cpp rnd s x hx hpc h0 h1 hidx⟩

/-- Instance of `store_registers_block` at the two `store_example` states (`F255`,
`V0..V3 = 7, 8, 9, 10`, `index = 0x300`): 7, 8, 9 land at `0x300..0x302`, address
`0x303` keeps its 0 and `V3`, `index` are as before. -/
theorem store_registers_block_witness :
    (∃ s', ArrayStack.Chip8.execute_instruction 0 ArrayStack.Chip8.store_example = some s' ∧
      s'.memory 0x300 = 7 ∧ s'.memory 0x301 = 8 ∧ s'.memory 0x302 = 9 ∧
      s'.memory 0x303 = 0 ∧ s'.registers 3 = 10 ∧ s'.index = 0x300) ∧
    (∃ s', StdStack.Chip8.execute_instruction 0 StdStack.Chip8.store_example = some s' ∧
      s'.memory 0x300 = 7 ∧ s'.memory 0x301 = 8 ∧ s'.memory 0x302 = 9 ∧
      s'.memory 0x303 = 0 ∧ s'.registers 3 = 10 ∧ s'.index = 0x300) := by
  obtain ⟨c, ce, cm, co, cr, ci⟩ :=
    store_registers_block.1 0 ArrayStack.Chip8.store_example 2 (by decide) (by decide)
      (by decide) (by decide) (by decide)
  obtain ⟨p, pe, pm, po, pr, pi⟩ :=
    store_registers_block.2 0 StdStack.Chip8.store_example 2 (by decide) (by decide)
      (by decide) (by decide) (by decide)
  exact ⟨⟨c, ce, (cm 0 (by decide)).trans rfl, (cm 1 (by decide)).trans rfl,
      (cm 2 (by decide)).trans rfl, (co 0x303 (by decide)).trans rfl, by rw [cr]; rfl, ci⟩,
    ⟨p, pe, (pm 0 (by decide)).trans rfl, (pm 1 (by decide)).trans rfl,
      (pm 2 (by decide)).trans rfl, (po 0x303 (by decide)).trans rfl, by rw [pr]; rfl, pi⟩⟩

/-! ## What a step does to the framebuffer and the draw flag -/

/-- A property kept by every iteration of a loop is kept by the loop. -/
theorem foldlM_invariant {σ : Type} (P : σ → Prop) (f : σ → Nat → Option σ)
    (hf : ∀ s i s', P s → f s i = some s' → P s') :
    ∀ (l : List Nat) (s s' : σ), P s → l.foldlM f s = some s' → P s' := by
  intro l
  induction l with
  | nil =>
    intro s s' hs h
    simp only [List.foldlM_nil] at h
    cases h
    exact hs
  | cons i l ih =>
    intro s s' hs h
    rw [List.foldlM_cons] at h
    cases h1 : f s i with
    | none => rw [h1] at h; exact Option.noConfusion h
    | some s1 =>
      rw [h1] at h
      exact ih s1 s' (hf s i s1 hs h1) h

/-- XOR with 1 keeps a cell that is 0 or 1 at 0 or 1. -/
theorem xor_one_binary (v : Nat) (h : v = 0 ∨ v = 1) : u8 (v ^^^ 1) = 0 ∨ u8 (v ^^^ 1) = 1 := by
  rcases h with h | h <;> subst h <;> decide

namespace ArrayStack.Chip8

/-- In `chip8.cc`, the `8xyN` family touches neither the framebuffer nor the draw
flag. -/
theorem exec_8_frame_cc (x y n : Nat) (s : Chip8) :
    (exec_8 x y n s).display = s.display ∧ (exec_8 x y n s).draw_flag = s.draw_flag := by
  unfold exec_8
  repeat' split
  all_goals exact ⟨rfl, rfl⟩

/-- In `chip8.cc`, the `FxKK` family touches neither the framebuffer nor the draw
flag. -/
theorem exec_F_frame_cc (x kk : Nat) (s s' : Chip8) (h : exec_F x kk s = some s') :
    s'.display = s.display ∧ s'.draw_flag = s.draw_flag := by
  have hstore : ∀ (l : List Nat) (t t' : Chip8),
      (t.display = s.display ∧ t.draw_flag = s.draw_flag) → l.foldlM store_reg t = some t' →
      (t'.display = s.display ∧ t'.draw_flag = s.draw_flag) :=
    foldlM_invariant (fun t => t.display = s.display ∧ t.draw_flag = s.draw_flag) store_reg
      (by
        intro t i t' ht e
        unfold store_reg at e
        split at e
        · cases e
          exact ht
        · exact Option.noConfusion e)
  have hload : ∀ (l : List Nat) (t t' : Chip8),
      (t.display = s.display ∧ t.draw_flag = s.draw_flag) → l.foldlM load_reg t = some t' →
      (t'.display = s.display ∧ t'.draw_flag = s.draw_flag) :=
    foldlM_invariant (fun t => t.display = s.display ∧ t.draw_flag = s.draw_flag) load_reg
      (by
        intro t i t' ht e
        unfold load_reg at e
        split at e
        · cases e
          exact ht
        · exact Option.noConfusion e)
  unfold exec_F at h
  by_cases k1 : kk = 0x07
  · rw [if_pos k1] at h; cases h; exact ⟨rfl, rfl⟩
  rw [if_neg k1] at h
  by_cases k2 : kk = 0x0A
  · rw [if_pos k2] at h
    split at h <;> (cases h; exact ⟨rfl, rfl⟩)
  rw [if_neg k2] at h
  by_cases k3 : kk = 0x15
  · rw [if_pos k3] at h; cases h; exact ⟨rfl, rfl⟩
  rw [if_neg k3] at h
  by_cases k4 : kk = 0x18
  · rw [if_pos k4] at h; cases h; exact ⟨rfl, rfl⟩
  rw [if_neg k4] at h
  by_cases k5 : kk = 0x1E
  · rw [if_pos k5] at h; cases h; exact ⟨rfl, rfl⟩
  rw [if_neg k5] at h
  by_cases k6 : kk = 0x29
  · rw [if_pos k6] at h; cases h; exact ⟨rfl, rfl⟩
  rw [if_neg k6] at h
  by_cases k7 : kk = 0x33
  · rw [if_pos k7] at h
    split at h
    · cases h; exact ⟨rfl, rfl⟩
    · exact Option.noConfusion h
  rw [if_neg k7] at h
  by_cases k8 : kk = 0x55
  · rw [if_pos k8] at h; exact hstore _ _ _ ⟨rfl, rfl⟩ h
  rw [if_neg k8] at h
  by_cases k9 : kk = 0x65
  · rw [if_pos k9] at h; exact hload _ _ _ ⟨rfl, rfl⟩ h
  rw [if_neg k9] at h
  cases h; exact ⟨rfl, rfl⟩

end ArrayStack.Chip8

namespace StdStack.Chip8

/-- In `chip8.cpp`, the `8xyN` family touches neither the framebuffer nor the draw
flag. -/
theorem exec_8_frame_cpp (x y n : Nat) (s : Chip8) :
    (exec_8 x y n s).pixels = s.pixels ∧ (exec_8 x y n s).draw_flag = s.draw_flag := by
  unfold exec_8
  repeat' split
  all_goals exact ⟨rfl, rfl⟩

/-- In `chip8.cpp`, the `FxKK` family touches neither the framebuffer nor the draw
flag. -/
theorem exec_F_frame_cpp (x kk : Nat) (s s' : Chip8) (h : exec_F x kk s = some s') :
    s'.pixels = s.pixels ∧ s'.draw_flag = s.draw_flag := by
  have hstore : ∀ (l : List Nat) (t t' : Chip8),
      (t.pixels = s.pixels ∧ t.draw_flag = s.draw_flag) → l.foldlM store_reg t = some t' →
      (t'.pixels = s.pixels ∧ t'.draw_flag = s.draw_flag) :=
    foldlM_invariant (fun t => t.pixels = s.pixels ∧ t.draw_flag = s.draw_flag) store_reg
      (by
        intro t i t' ht e
        unfold store_reg at e
        split at e
        · cases e
          exact ht
        · exact Option.noConfusion e)
  have hload : ∀ (l : List Nat) (t t' : Chip8),
      (t.pixels = s.pixels ∧ t.draw_flag = s.draw_flag) → l.foldlM load_reg t = some t' →
      (t'.pixels = s.pixels ∧ t'.draw_flag = s.draw_flag) :=
    foldlM_invariant (fun t => t.pixels = s.pixels ∧ t.draw_flag = s.draw_flag) load_reg
      (by
        intro t i t' ht e
        unfold load_reg at e
        split at e
        · cases e
          exact ht
        · exact Option.noConfusion e)
  unfold exec_F at h
  by_cases k1 : kk = 0x07
  · rw [if_pos k1] at h; cases h; exact ⟨rfl, rfl⟩
  rw [if_neg k1] at h
  by_cases k2 : kk = 0x0A
  · rw [if_pos k2] at h
    split at h <;> (cases h; exact ⟨rfl, rfl⟩)
  rw [if_neg k2] at h
  by_cases k3 : kk = 0x15
  · rw [if_pos k3] at h; cases h; exact ⟨rfl, rfl⟩
  rw [if_neg k3] at h
  by_cases k4 : kk = 0x18
  · rw [if_pos k4] at h; cases h; exact ⟨rfl, rfl⟩
  rw [if_neg k4] at h
  by_cases k5 : kk = 0x1E
  · rw [if_pos k5] at h; cases h; exact ⟨rfl, rfl⟩
  rw [if_neg k5] at h
  by_cases k6 : kk = 0x29
  · rw [if_pos k6] at h; cases h; exact ⟨rfl, rfl⟩
  rw [if_neg k6] at h
  by_cases k7 : kk = 0x33
  · rw [if_pos k7] at h
    split at h
    · cases h; exact ⟨rfl, rfl⟩
    · exact Option.noConfusion h
  rw [if_neg k7] at h
  by_cases k8 : kk = 0x55
  · rw [if_pos k8] at h; exact hstore _ _ _ ⟨rfl, rfl⟩ h
  rw [if_neg k8] at h
  by_cases k9 : kk = 0x65
  · rw [if_pos k9] at h; exact hload _ _ _ ⟨rfl, rfl⟩ h
  rw [if_neg k9] at h
  cases h; exact ⟨rfl, rfl⟩

end StdStack.Chip8

namespace ArrayStack.Chip8

/-- In `chip8.cc`, one iteration of the inner drawing loop keeps every framebuffer
cell and `VF` at 0 or 1. -/
theorem draw_bit_binary_cc (a b pixel i j : Nat) (s s' : Chip8)
    (hs : binary_display s.display ∧ (s.registers 0xF = 0 ∨ s.registers 0xF = 1))
    (h : draw_bit a b pixel i s j = some s') :
    binary_display s'.display ∧ (s'.registers 0xF = 0 ∨ s'.registers 0xF = 1) := by
  unfold draw_bit at h
  split at h
  · dsimp only at h
    split at h
    · rename_i hpos
      cases h
      refine ⟨?_, ?_⟩
      · intro c hc
        show aset s.display _ _ c = 0 ∨ aset s.display _ _ c = 1
        unfold aset
        split
        · exact xor_one_binary _ (hs.1 _ hpos)
        · exact hs.1 c hc
      · show aset s.registers 0xF _ 0xF = 0 ∨ aset s.registers 0xF _ 0xF = 1
        simp only [aset, if_true]
        exact hs.1 _ hpos
    · exact Option.noConfusion h
  · cases h
    exact hs

/-- In `chip8.cc`, the drawing loop keeps every framebuffer cell and `VF` at 0
or 1. -/
theorem draw_rows_binary_cc (a b : Nat) (l : List Nat) (s s' : Chip8)
    (hs : binary_display s.display ∧ (s.registers 0xF = 0 ∨ s.registers 0xF = 1))
    (h : l.foldlM (draw_row a b) s = some s') :
    binary_display s'.display ∧ (s'.registers 0xF = 0 ∨ s'.registers 0xF = 1) := by
  refine foldlM_invariant
    (fun t => binary_display t.display ∧ (t.registers 0xF = 0 ∨ t.registers 0xF = 1))
    (draw_row a b) ?_ l s s' hs h
  intro t i t' ht e
  unfold draw_row at e
  split at e
  · refine foldlM_invariant
      (fun t => binary_display t.display ∧ (t.registers 0xF = 0 ∨ t.registers 0xF = 1))
      (draw_bit a b (t.memory (t.index + i)) i) ?_ (List.range 8) t t' ht e
    intro u j u' hu e'
    exact draw_bit_binary_cc a b _ i j u u' hu e'
  · exact Option.noConfusion e

/-- In `chip8.cc`, a step that has a result either keeps the framebuffer and the draw
flag (any opcode but `00E0` and `Dxyn`), or clears the framebuffer and sets the
flag (`00E0`), or draws and sets the flag (`Dxyn`); a draw keeps every cell and
`VF` at 0 or 1. -/
theorem step_frame_cc (rnd : Nat) (s s' : Chip8) (h : execute_instruction rnd s = some s') :
    (fetch s.memory s.pc &&& 0xF000 ≠ 0xD000 ∧ fetch s.memory s.pc ≠ 0x00E0 ∧
      s'.display = s.display ∧ s'.draw_flag = s.draw_flag) ∨
    (fetch s.memory s.pc = 0x00E0 ∧ s'.display = (fun _ => 0) ∧ s'.draw_flag = true) ∨
    (fetch s.memory s.pc &&& 0xF000 = 0xD000 ∧ s'.draw_flag = true ∧
      (binary_display s.display →
        binary_display s'.display ∧ (s'.registers 0xF = 0 ∨ s'.registers 0xF = 1))) := by
  unfold execute_instruction at h
  by_cases hpc : s.pc + 1 < MEMORY_SIZE
  swap
  · rw [if_neg hpc] at h; exact Option.noConfusion h
  rw [if_pos hpc] at h
  unfold fetch
  dsimp only at h
  generalize u16 (s.memory s.pc <<< 8 ||| s.memory (s.pc + 1)) = opc at h ⊢
  by_cases hD : opc &&& 0xF000 = 0xD000
  · right; right
    simp only [hD] at h
    simp only [show ¬ ((0xD000 : Nat) = 0x0000) by decide, show ¬ ((0xD000 : Nat) = 0x1000) by decide,
      show ¬ ((0xD000 : Nat) = 0x2000) by decide, show ¬ ((0xD000 : Nat) = 0x3000) by decide,
      show ¬ ((0xD000 : Nat) = 0x4000) by decide, show ¬ ((0xD000 : Nat) = 0x5000) by decide,
      show ¬ ((0xD000 : Nat) = 0x6000) by decide, show ¬ ((0xD000 : Nat) = 0x7000) by decide,
      show ¬ ((0xD000 : Nat) = 0x8000) by decide, show ¬ ((0xD000 : Nat) = 0x9000) by decide,
      show ¬ ((0xD000 : Nat) = 0xA000) by decide, show ¬ ((0xD000 : Nat) = 0xB000) by decide,
      show ¬ ((0xD000 : Nat) = 0xC000) by decide, if_false, if_true] at h
    cases hf : (List.range (opc &&& 0x000F)).foldlM
        (draw_row ((opc &&& 0x0F00) >>> 8) ((opc &&& 0x00F0) >>> 4))
        { s with pc := u16 (s.pc + 2), registers := aset s.registers 0xF 0 } with
    | none => rw [hf] at h; exact Option.noConfusion h
    | some s2 =>
      rw [hf] at h
      cases h
      refine ⟨hD, rfl, ?_⟩
      intro hb
      have hs1 : binary_display
          ({ s with pc := u16 (s.pc + 2), registers := aset s.registers 0xF 0 } : Chip8).display ∧
          (({ s with pc := u16 (s.pc + 2), registers := aset s.registers 0xF 0 } :
              Chip8).registers 0xF = 0 ∨
            ({ s with pc := u16 (s.pc + 2), registers := aset s.registers 0xF 0 } :
              Chip8).registers 0xF = 1) := ⟨hb, Or.inl rfl⟩
      exact draw_rows_binary_cc _ _ _ _ s2 hs1 hf
  by_cases hE : opc = 0x00E0
  · right; left
    subst hE
    simp only [show (0x00E0 : Nat) &&& 0xF000 = 0 by decide, if_true] at h
    cases h
    exact ⟨rfl, rfl, rfl⟩
  left
  have keep : ∀ t : Chip8, some t = some s' → t.display = s.display → t.draw_flag = s.draw_flag →
      (opc &&& 0xF000 ≠ 0xD000 ∧ opc ≠ 0x00E0 ∧ s'.display = s.display ∧
        s'.draw_flag = s.draw_flag) := by
    intro t e h1 h2
    cases e
    exact ⟨hD, hE, h1, h2⟩
  by_cases c0 : opc &&& 0xF000 = 0x0000
  · rw [if_pos c0, if_neg hE] at h
    repeat' (first | exact keep _ h rfl rfl | exact Option.noConfusion h | split at h)
  rw [if_neg c0] at h
  by_cases c1 : opc &&& 0xF000 = 0x1000
  · rw [if_pos c1] at h
    exact keep _ h rfl rfl
  rw [if_neg c1] at h
  by_cases c2 : opc &&& 0xF000 = 0x2000
  · rw [if_pos c2] at h
    repeat' (first | exact keep _ h rfl rfl | exact Option.noConfusion h | split at h)
  rw [if_neg c2] at h
  by_cases c3 : opc &&& 0xF000 = 0x3000
  · rw [if_pos c3] at h
    repeat' (first | exact keep _ h rfl rfl | exact Option.noConfusion h | split at h)
  rw [if_neg c3] at h
  by_cases c4 : opc &&& 0xF000 = 0x4000
  · rw [if_pos c4] at h
    repeat' (first | exact keep _ h rfl rfl | exact Option.noConfusion h | split at h)
  rw [if_neg c4] at h
  by_cases c5 : opc &&& 0xF000 = 0x5000
  · rw [if_pos c5] at h
    repeat' (first | exact keep _ h rfl rfl | exact Option.noConfusion h | split at h)
  rw [if_neg c5] at h
  by_cases c6 : opc &&& 0xF000 = 0x6000
  · rw [if_pos c6] at h
    exact keep _ h rfl rfl
  rw [if_neg c6] at h
  by_cases c7 : opc &&& 0xF000 = 0x7000
  · rw [if_pos c7] at h
    exact keep _ h rfl rfl
  rw [if_neg c7] at h
  by_cases c8 : opc &&& 0xF000 = 0x8000
  · rw [if_pos c8] at h
    exact keep _ h (exec_8_frame_cc _ _ _ _).1 (exec_8_frame_cc _ _ _ _).2
  rw [if_neg c8] at h
  by_cases c9 : opc &&& 0xF000 = 0x9000
  · rw [if_pos c9] at h
    repeat' (first | exact keep _ h rfl rfl | exact Option.noConfusion h | split at h)
  rw [if_neg c9] at h
  by_cases cA : opc &&& 0xF000 = 0xA000
  · rw [if_pos cA] at h
    exact keep _ h rfl rfl
  rw [if_neg cA] at h
  by_cases cB : opc &&& 0xF000 = 0xB000
  · rw [if_pos cB] at h
    exact keep _ h rfl rfl
  rw [if_neg cB] at h
  by_cases cC : opc &&& 0xF000 = 0xC000
  · rw [if_pos cC] at h
    exact keep _ h rfl rfl
  rw [if_neg cC] at h
  rw [if_neg hD] at h
  by_cases cE : opc &&& 0xF000 = 0xE000
  · rw [if_pos cE] at h
    repeat' (first | exact keep _ h rfl rfl | exact Option.noConfusion h | split at h)
  rw [if_neg cE] at h
  by_cases cF : opc &&& 0xF000 = 0xF000
  · rw [if_pos cF] at h
    have hF := exec_F_frame_cc _ _ _ _ h
    exact ⟨hD, hE, hF⟩
  rw [if_neg cF] at h
  exact keep _ h rfl rfl

end ArrayStack.Chip8

namespace StdStack.Chip8

/-- In `chip8.cpp`, one iteration of the inner drawing loop keeps every framebuffer
cell and `VF` at 0 or 1. -/
theorem draw_bit_binary_cpp (a b pixel i j : Nat) (s s' : Chip8)
    (hs : binary_display s.pixels ∧ (s.registers 0xF = 0 ∨ s.registers 0xF = 1))
    (h : draw_bit a b pixel i s j = some s') :
    binary_display s'.pixels ∧ (s'.registers 0xF = 0 ∨ s'.registers 0xF = 1) := by
  unfold draw_bit at h
  split at h
  · dsimp only at h
    split at h
    · rename_i hpos
      by_cases h1 : s.pixels (coord a b i j) = 1
      · rw [if_pos h1] at h
        cases h
        refine ⟨?_, ?_⟩
        · intro c hc
          show aset s.pixels _ _ c = 0 ∨ aset s.pixels _ _ c = 1
          unfold aset
          split
          · exact xor_one_binary _ (hs.1 _ hpos)
          · exact hs.1 c hc
        · right
          show aset s.registers 0xF 1 0xF = 1
          simp [aset]
      · rw [if_neg h1] at h
        cases h
        refine ⟨?_, hs.2⟩
        intro c hc
        show aset s.pixels _ _ c = 0 ∨ aset s.pixels _ _ c = 1
        unfold aset
        split
        · exact xor_one_binary _ (hs.1 _ hpos)
        · exact hs.1 c hc
    · exact Option.noConfusion h
  · cases h
    exact hs

/-- In `chip8.cpp`, the drawing loop keeps every framebuffer cell and `VF` at 0
or 1. -/
theorem draw_rows_binary_cpp (a b : Nat) (l : List Nat) (s s' : Chip8)
    (hs : binary_display s.pixels ∧ (s.registers 0xF = 0 ∨ s.registers 0xF = 1))
    (h : l.foldlM (draw_row a b) s = some s') :
    binary_display s'.pixels ∧ (s'.registers 0xF = 0 ∨ s'.registers 0xF = 1) := by
  refine foldlM_invariant
    (fun t => binary_display t.pixels ∧ (t.registers 0xF = 0 ∨ t.registers 0xF = 1))
    (draw_row a b) ?_ l s s' hs h
  intro t i t' ht e
  unfold draw_row at e
  split at e
  · refine foldlM_invariant
      (fun t => binary_display t.pixels ∧ (t.registers 0xF = 0 ∨ t.registers 0xF = 1))
      (draw_bit a b (t.memory (t.index + i)) i) ?_ (List.range 8) t t' ht e
    intro u j u' hu e'
    exact draw_bit_binary_cpp a b _ i j u u' hu e'
  · exact Option.noConfusion e

/-- In `chip8.cpp`, a step that has a result either keeps the framebuffer and the draw
flag (any opcode but `00E0` and `Dxyn`), or clears the framebuffer and sets the
flag (`00E0`), or draws and sets the flag (`Dxyn`); a draw keeps every cell and
`VF` at 0 or 1. -/
theorem step_frame_cpp (rnd : Nat) (s s' : Chip8) (h : execute_instruction rnd s = some s') :
    (fetch s.memory s.pc &&& 0xF000 ≠ 0xD000 ∧ fetch s.memory s.pc ≠ 0x00E0 ∧
      s'.pixels = s.pixels ∧ s'.draw_flag = s.draw_flag) ∨
    (fetch s.memory s.pc = 0x00E0 ∧ s'.pixels = (fun _ => 0) ∧ s'.draw_flag = true) ∨
    (fetch s.memory s.pc &&& 0xF000 = 0xD000 ∧ s'.draw_flag = true ∧
      (binary_display s.pixels →
        binary_display s'.pixels ∧ (s'.registers 0xF = 0 ∨ s'.registers 0xF = 1))) := by
  unfold execute_instruction at h
  by_cases hpc : s.pc + 1 < MEMORY_SIZE
  swap
  · rw [if_neg hpc] at h; exact Option.noConfusion h
  rw [if_pos hpc] at h
  unfold fetch
  dsimp only at h
  generalize u16 (s.memory s.pc <<< 8 ||| s.memory (s.pc + 1)) = opc at h ⊢
  by_cases hD : opc &&& 0xF000 = 0xD000
  · right; right
    simp only [hD] at h
    simp only [show ¬ ((0xD000 : Nat) = 0x0000) by decide, show ¬ ((0xD000 : Nat) = 0x1000) by decide,
      show ¬ ((0xD000 : Nat) = 0x2000) by decide, show ¬ ((0xD000 : Nat) = 0x3000) by decide,
      show ¬ ((0xD000 : Nat) = 0x4000) by decide, show ¬ ((0xD000 : Nat) = 0x5000) by decide,
      show ¬ ((0xD000 : Nat) = 0x6000) by decide, show ¬ ((0xD000 : Nat) = 0x7000) by decide,
      show ¬ ((0xD000 : Nat) = 0x8000) by decide, show ¬ ((0xD000 : Nat) = 0x9000) by decide,
      show ¬ ((0xD000 : Nat) = 0xA000) by decide, show ¬ ((0xD000 : Nat) = 0xB000) by decide,
      show ¬ ((0xD000 : Nat) = 0xC000) by decide, if_false, if_true] at h
    cases hf : (List.range (opc &&& 0x000F)).foldlM
        (draw_row (s.registers ((opc &&& 0x0F00) >>> 8)) (s.registers ((opc &&& 0x00F0) >>> 4)))
        { s with pc := u16 (s.pc + 2), registers := aset s.registers 0xF 0 } with
    | none => rw [hf] at h; exact Option.noConfusion h
    | some s2 =>
      rw [hf] at h
      cases h
      refine ⟨hD, rfl, ?_⟩
      intro hb
      have hs1 : binary_display
          ({ s with pc := u16 (s.pc + 2), registers := aset s.registers 0xF 0 } : Chip8).pixels ∧
          (({ s with pc := u16 (s.pc + 2), registers := aset s.registers 0xF 0 } :
              Chip8).registers 0xF = 0 ∨
            ({ s with pc := u16 (s.pc + 2), registers := aset s.registers 0xF 0 } :
              Chip8).registers 0xF = 1) := ⟨hb, Or.inl rfl⟩
      exact draw_rows_binary_cpp _ _ _ _ s2 hs1 hf
  by_cases hE : opc = 0x00E0
  · right; left
    subst hE
    simp only [show (0x00E0 : Nat) &&& 0xF000 = 0 by decide, if_true] at h
    cases h
    exact ⟨rfl, rfl, rfl⟩
  left
  have keep : ∀ t : Chip8, some t = some s' → t.pixels = s.pixels → t.draw_flag = s.draw_flag →
      (opc &&& 0xF000 ≠ 0xD000 ∧ opc ≠ 0x00E0 ∧ s'.pixels = s.pixels ∧
        s'.draw_flag = s.draw_flag) := by
    intro t e h1 h2
    cases e
    exact ⟨hD, hE, h1, h2⟩
  by_cases c0 : opc &&& 0xF000 = 0x0000
  · rw [if_pos c0, if_neg hE] at h
    repeat' (first | exact keep _ h rfl rfl | exact Option.noConfusion h | split at h)
  rw [if_neg c0] at h
  by_cases c1 : opc &&& 0xF000 = 0x1000
  · rw [if_pos c1] at h
    exact keep _ h rfl rfl
  rw [if_neg c1] at h
  by_cases c2 : opc &&& 0xF000 = 0x2000
  · rw [if_pos c2] at h
    exact keep _ h rfl rfl
  rw [if_neg c2] at h
  by_cases c3 : opc &&& 0xF000 = 0x3000
  · rw [if_pos c3] at h
    repeat' (first | exact keep _ h rfl rfl | exact Option.noConfusion h | split at h)
  rw [if_neg c3] at h
  by_cases c4 : opc &&& 0xF000 = 0x4000
  · rw [if_pos c4] at h
    repeat' (first | exact keep _ h rfl rfl | exact Option.noConfusion h | split at h)
  rw [if_neg c4] at h
  by_cases c5 : opc &&& 0xF000 = 0x5000
  · rw [if_pos c5] at h
    repeat' (first | exact keep _ h rfl rfl | exact Option.noConfusion h | split at h)
  rw [if_neg c5] at h
  by_cases c6 : opc &&& 0xF000 = 0x6000
  · rw [if_pos c6] at h
    exact keep _ h rfl rfl
  rw [if_neg c6] at h
  by_cases c7 : opc &&& 0xF000 = 0x7000
  · rw [if_pos c7] at h
    exact keep _ h rfl rfl
  rw [if_neg c7] at h
  by_cases c8 : opc &&& 0xF000 = 0x8000
  · rw [if_pos c8] at h
    exact keep _ h (exec_8_frame_cpp _ _ _ _).1 (exec_8_frame_cpp _ _ _ _).2
  rw [if_neg c8] at h
  by_cases c9 : opc &&& 0xF000 = 0x9000
  · rw [if_pos c9] at h
    repeat' (first | exact keep _ h rfl rfl | exact Option.noConfusion h | split at h)
  rw [if_neg c9] at h
  by_cases cA : opc &&& 0xF000 = 0xA000
  · rw [if_pos cA] at h
    exact keep _ h rfl rfl
  rw [if_neg cA] at h
  by_cases cB : opc &&& 0xF000 = 0xB000
  · rw [if_pos cB] at h
    exact keep _ h rfl rfl
  rw [if_neg cB] at h
  by_cases cC : opc &&& 0xF000 = 0xC000
  · rw [if_pos cC] at h
    exact keep _ h rfl rfl
  rw [if_neg cC] at h
  rw [if_neg hD] at h
  by_cases cE : opc &&& 0xF000 = 0xE000
  · rw [if_pos cE] at h
    repeat' (first | exact keep _ h rfl rfl | exact Option.noConfusion h | split at h)
  rw [if_neg cE] at h
  by_cases cF : opc &&& 0xF000 = 0xF000
  · rw [if_pos cF] at h
    have hF := exec_F_frame_cpp _ _ _ _ h
    exact ⟨hD, hE, hF⟩
  rw [if_neg cF] at h
  exact keep _ h rfl rfl

end StdStack.Chip8

/-! ## Memory addresses of a step -/

/-- A loop over `0 .. n - 1` whose iteration `i` subscripts `memory[idx + i]` has
no result when one of these subscripts is out of range. -/
theorem foldlM_range_oob {σ : Type} (f : σ → Nat → Option σ) (idx : σ → Nat)
    (hidx : ∀ s i s', f s i = some s' → idx s' = idx s)
    (hoob : ∀ s i, MEMORY_SIZE ≤ idx s + i → f s i = none) :
    ∀ (n : Nat) (s : σ), (∃ i, i < n ∧ MEMORY_SIZE ≤ idx s + i) →
      (List.range n).foldlM f s = none := by
  intro n
  induction n with
  | zero =>
    rintro s ⟨i, hi, -⟩
    omega
  | succ n ih =>
    rintro s ⟨i, hi, hge⟩
    rw [List.range_succ, List.foldlM_append]
    by_cases hlt : i < n
    · rw [ih s ⟨i, hlt, hge⟩]
      rfl
    · have hin : i = n := by omega
      subst hin
      cases h1 : (List.range i).foldlM f s with
      | none => rfl
      | some s1 =>
        have hk : idx s1 = idx s :=
          foldlM_invariant (fun t => idx t = idx s) f
            (fun t j t' ht e => (hidx t j t' e).trans ht) (List.range i) s s1 rfl h1
        have : f s1 i = none := hoob s1 i (by rw [hk]; exact hge)
        simp [this]

namespace ArrayStack.Chip8

/-- One bit of `Dxyn` leaves `index` alone. -/
theorem draw_bit_index_cc (x y pixel i : Nat) (u : Chip8) (k : Nat) (u' : Chip8)
    (e : draw_bit x y pixel i u k = some u') : u'.index = u.index := by
  unfold draw_bit at e
  by_cases h0 : pixel &&& (0x80 >>> k) ≠ 0
  · rw [if_pos h0] at e
    dsimp only at e
    split at e
    · have e2 := Option.some.inj e
      subst e2
      rfl
    · exact Option.noConfusion e
  · rw [if_neg h0] at e
    rw [← Option.some.inj e]
/-- In `chip8.cc`, a step that subscripts `memory` out of range has no result: no
address is checked or reduced modulo 4096. -/
theorem mem_oob_undefined_cc (rnd : Nat) (s : Chip8)
    (h : ∃ a ∈ mem_accesses s.memory s.pc s.index, MEMORY_SIZE ≤ a) :
    execute_instruction rnd s = none := by
  obtain ⟨a, ha, hge⟩ := h
  unfold execute_instruction
  by_cases hpc : s.pc + 1 < MEMORY_SIZE
  swap
  · rw [if_neg hpc]
  rw [if_pos hpc]
  unfold mem_accesses at ha
  rw [if_pos hpc] at ha
  rcases List.mem_append.1 ha with h1 | h1
  · simp only [List.mem_cons, List.mem_singleton, List.not_mem_nil, or_false] at h1
    omega
  unfold fetch at h1
  dsimp only
  generalize u16 (s.memory s.pc <<< 8 ||| s.memory (s.pc + 1)) = opc at h1 ⊢
  by_cases hD : opc &&& 0xF000 = 0xD000
  · rw [if_pos hD] at h1
    obtain ⟨i, hi, rfl⟩ := List.mem_map.1 h1
    simp only [hD]
    simp only [show ¬ ((0xD000 : Nat) = 0x0000) by decide, show ¬ ((0xD000 : Nat) = 0x1000) by decide,
      show ¬ ((0xD000 : Nat) = 0x2000) by decide, show ¬ ((0xD000 : Nat) = 0x3000) by decide,
      show ¬ ((0xD000 : Nat) = 0x4000) by decide, show ¬ ((0xD000 : Nat) = 0x5000) by decide,
      show ¬ ((0xD000 : Nat) = 0x6000) by decide, show ¬ ((0xD000 : Nat) = 0x7000) by decide,
      show ¬ ((0xD000 : Nat) = 0x8000) by decide, show ¬ ((0xD000 : Nat) = 0x9000) by decide,
      show ¬ ((0xD000 : Nat) = 0xA000) by decide, show ¬ ((0xD000 : Nat) = 0xB000) by decide,
      show ¬ ((0xD000 : Nat) = 0xC000) by decide, if_false, if_true]
    have hrow := foldlM_range_oob (draw_row ((opc &&& 0x0F00) >>> 8) ((opc &&& 0x00F0) >>> 4)) (fun t => t.index)
      (by
        intro t j t' e
        unfold draw_row at e
        split at e
        · exact foldlM_invariant (fun u => u.index = t.index) (draw_bit _ _ _ _)
            (fun u k u' hu e' => (draw_bit_index_cc _ _ _ _ u k u' e').trans hu)
            (List.range 8) t t' rfl e
        · exact Option.noConfusion e)
      (by
        intro t j hj
        dsimp only at hj
        unfold draw_row
        rw [if_neg (by omega)])
      (opc &&& 0x000F)
      { s with pc := u16 (s.pc + 2), registers := aset s.registers 0xF 0 }
      ⟨i, List.mem_range.1 hi, hge⟩
    rw [hrow]
    rfl
  rw [if_neg hD] at h1
  by_cases hF : opc &&& 0xF000 = 0xF000
  swap
  · rw [if_neg hF] at h1
    simp at h1
  rw [if_pos hF] at h1
  simp only [hF]
  simp only [show ¬ ((0xF000 : Nat) = 0x0000) by decide, show ¬ ((0xF000 : Nat) = 0x1000) by decide,
    show ¬ ((0xF000 : Nat) = 0x2000) by decide, show ¬ ((0xF000 : Nat) = 0x3000) by decide,
    show ¬ ((0xF000 : Nat) = 0x4000) by decide, show ¬ ((0xF000 : Nat) = 0x5000) by decide,
    show ¬ ((0xF000 : Nat) = 0x6000) by decide, show ¬ ((0xF000 : Nat) = 0x7000) by decide,
    show ¬ ((0xF000 : Nat) = 0x8000) by decide, show ¬ ((0xF000 : Nat) = 0x9000) by decide,
    show ¬ ((0xF000 : Nat) = 0xA000) by decide, show ¬ ((0xF000 : Nat) = 0xB000) by decide,
    show ¬ ((0xF000 : Nat) = 0xC000) by decide, show ¬ ((0xF000 : Nat) = 0xD000) by decide,
    show ¬ ((0xF000 : Nat) = 0xE000) by decide, if_false, if_true]
  unfold exec_F
  by_cases k33 : opc &&& 0x00FF = 0x33
  · rw [if_pos k33] at h1
    simp only [List.mem_cons, List.mem_singleton, List.not_mem_nil, or_false] at h1
    simp only [k33]
    simp only [show ¬ ((0x33 : Nat) = 0x07) by decide, show ¬ ((0x33 : Nat) = 0x0A) by decide,
      show ¬ ((0x33 : Nat) = 0x15) by decide, show ¬ ((0x33 : Nat) = 0x18) by decide,
      show ¬ ((0x33 : Nat) = 0x1E) by decide, show ¬ ((0x33 : Nat) = 0x29) by decide,
      if_false, if_true]
    rw [if_neg (by show ¬ s.index + 2 < MEMORY_SIZE; omega)]
  rw [if_neg k33] at h1
  by_cases k5 : opc &&& 0x00FF = 0x55 ∨ opc &&& 0x00FF = 0x65
  swap
  · rw [if_neg k5] at h1
    simp at h1
  rw [if_pos k5] at h1
  obtain ⟨i, hi, rfl⟩ := List.mem_map.1 h1
  rcases k5 with k55 | k65
  · simp only [k55]
    simp only [show ¬ ((0x55 : Nat) = 0x07) by decide, show ¬ ((0x55 : Nat) = 0x0A) by decide,
      show ¬ ((0x55 : Nat) = 0x15) by decide, show ¬ ((0x55 : Nat) = 0x18) by decide,
      show ¬ ((0x55 : Nat) = 0x1E) by decide, show ¬ ((0x55 : Nat) = 0x29) by decide,
      show ¬ ((0x55 : Nat) = 0x33) by decide, if_false, if_true]
    exact foldlM_range_oob store_reg (fun t => t.index)
      (by
        intro t j t' e
        unfold store_reg at e
        split at e
        · cases e; rfl
        · exact Option.noConfusion e)
      (by
        intro t j hj
        dsimp only at hj
        unfold store_reg
        rw [if_neg (by omega)])
      _ { s with pc := u16 (s.pc + 2) } ⟨i, List.mem_range.1 hi, hge⟩
  · simp only [k65]
    simp only [show ¬ ((0x65 : Nat) = 0x07) by decide, show ¬ ((0x65 : Nat) = 0x0A) by decide,
      show ¬ ((0x65 : Nat) = 0x15) by decide, show ¬ ((0x65 : Nat) = 0x18) by decide,
      show ¬ ((0x65 : Nat) = 0x1E) by decide, show ¬ ((0x65 : Nat) = 0x29) by decide,
      show ¬ ((0x65 : Nat) = 0x33) by decide, show ¬ ((0x65 : Nat) = 0x55) by decide,
      if_false, if_true]
    exact foldlM_range_oob load_reg (fun t => t.index)
      (by
        intro t j t' e
        unfold load_reg at e
        split at e
        · cases e; rfl
        · exact Option.noConfusion e)
      (by
        intro t j hj
        dsimp only at hj
        unfold load_reg
        rw [if_neg (by omega)])
      _ { s with pc := u16 (s.pc + 2) } ⟨i, List.mem_range.1 hi, hge⟩

end ArrayStack.Chip8

namespace StdStack.Chip8

/-- One bit of `Dxyn` leaves `index` alone. -/
theorem draw_bit_index_cpp (x y pixel i : Nat) (u : Chip8) (k : Nat) (u' : Chip8)
    (e : draw_bit x y pixel i u k = some u') : u'.index = u.index := by
  unfold draw_bit at e
  by_cases h0 : pixel &&& (0x80 >>> k) ≠ 0
  · rw [if_pos h0] at e
    dsimp only at e
    split at e
    · have e2 := Option.some.inj e
      subst e2
      dsimp only
      split <;> rfl
    · exact Option.noConfusion e
  · rw [if_neg h0] at e
    rw [← Option.some.inj e]
/-- In `chip8.cpp`, a step that subscripts `memory` out of range has no result: no
address is checked or reduced modulo 4096. -/
theorem mem_oob_undefined_cpp (rnd : Nat) (s : Chip8)
    (h : ∃ a ∈ mem_accesses s.memory s.pc s.index, MEMORY_SIZE ≤ a) :
    execute_instruction rnd s = none := by
  obtain ⟨a, ha, hge⟩ := h
  unfold execute_instruction
  by_cases hpc : s.pc + 1 < MEMORY_SIZE
  swap
  · rw [if_neg hpc]
  rw [if_pos hpc]
  unfold mem_accesses at ha
  rw [if_pos hpc] at ha
  rcases List.mem_append.1 ha with h1 | h1
  · simp only [List.mem_cons, List.mem_singleton, List.not_mem_nil, or_false] at h1
    omega
  unfold fetch at h1
  dsimp only
  generalize u16 (s.memory s.pc <<< 8 ||| s.memory (s.pc + 1)) = opc at h1 ⊢
  by_cases hD : opc &&& 0xF000 = 0xD000
  · rw [if_pos hD] at h1
    obtain ⟨i, hi, rfl⟩ := List.mem_map.1 h1
    simp only [hD]
    simp only [show ¬ ((0xD000 : Nat) = 0x0000) by decide, show ¬ ((0xD000 : Nat) = 0x1000) by decide,
      show ¬ ((0xD000 : Nat) = 0x2000) by decide, show ¬ ((0xD000 : Nat) = 0x3000) by decide,
      show ¬ ((0xD000 : Nat) = 0x4000) by decide, show ¬ ((0xD000 : Nat) = 0x5000) by decide,
      show ¬ ((0xD000 : Nat) = 0x6000) by decide, show ¬ ((0xD000 : Nat) = 0x7000) by decide,
      show ¬ ((0xD000 : Nat) = 0x8000) by decide, show ¬ ((0xD000 : Nat) = 0x9000) by decide,
      show ¬ ((0xD000 : Nat) = 0xA000) by decide, show ¬ ((0xD000 : Nat) = 0xB000) by decide,
      show ¬ ((0xD000 : Nat) = 0xC000) by decide, if_false, if_true]
    have hrow := foldlM_range_oob (draw_row (s.registers ((opc &&& 0x0F00) >>> 8)) (s.registers ((opc &&& 0x00F0) >>> 4))) (fun t => t.index)
      (by
        intro t j t' e
        unfold draw_row at e
        split at e
        · exact foldlM_invariant (fun u => u.index = t.index) (draw_bit _ _ _ _)
            (fun u k u' hu e' => (draw_bit_index_cpp _ _ _ _ u k u' e').trans hu)
            (List.range 8) t t' rfl e
        · exact Option.noConfusion e)
      (by
        intro t j hj
        dsimp only at hj
        unfold draw_row
        rw [if_neg (by omega)])
      (opc &&& 0x000F)
      { s with pc := u16 (s.pc + 2), registers := aset s.registers 0xF 0 }
      ⟨i, List.mem_range.1 hi, hge⟩
    rw [hrow]
    rfl
  rw [if_neg hD] at h1
  by_cases hF : opc &&& 0xF000 = 0xF000
  swap
  · rw [if_neg hF] at h1
    simp at h1
  rw [if_pos hF] at h1
  simp only [hF]
  simp only [show ¬ ((0xF000 : Nat) = 0x0000) by decide, show ¬ ((0xF000 : Nat) = 0x1000) by decide,
    show ¬ ((0xF000 : Nat) = 0x2000) by decide, show ¬ ((0xF000 : Nat) = 0x3000) by decide,
    show ¬ ((0xF000 : Nat) = 0x4000) by decide, show ¬ ((0xF000 : Nat) = 0x5000) by decide,
    show ¬ ((0xF000 : Nat) = 0x6000) by decide, show ¬ ((0xF000 : Nat) = 0x7000) by decide,
    show ¬ ((0xF000 : Nat) = 0x8000) by decide, show ¬ ((0xF000 : Nat) = 0x9000) by decide,
    show ¬ ((0xF000 : Nat) = 0xA000) by decide, show ¬ ((0xF000 : Nat) = 0xB000) by decide,
    show ¬ ((0xF000 : Nat) = 0xC000) by decide, show ¬ ((0xF000 : Nat) = 0xD000) by decide,
    show ¬ ((0xF000 : Nat) = 0xE000) by decide, if_false, if_true]
  unfold exec_F
  by_cases k33 : opc &&& 0x00FF = 0x33
  · rw [if_pos k33] at h1
    simp only [List.mem_cons, List.mem_singleton, List.not_mem_nil, or_false] at h1
    simp only [k33]
    simp only [show ¬ ((0x33 : Nat) = 0x07) by decide, show ¬ ((0x33 : Nat) = 0x0A) by decide,
      show ¬ ((0x33 : Nat) = 0x15) by decide, show ¬ ((0x33 : Nat) = 0x18) by decide,
      show ¬ ((0x33 : Nat) = 0x1E) by decide, show ¬ ((0x33 : Nat) = 0x29) by decide,
      if_false, if_true]
    rw [if_neg (by show ¬ s.index + 2 < MEMORY_SIZE; omega)]
  rw [if_neg k33] at h1
  by_cases k5 : opc &&& 0x00FF = 0x55 ∨ opc &&& 0x00FF = 0x65
  swap
  · rw [if_neg k5] at h1
    simp at h1
  rw [if_pos k5] at h1
  obtain ⟨i, hi, rfl⟩ := List.mem_map.1 h1
  rcases k5 with k55 | k65
  · simp only [k55]
    simp only [show ¬ ((0x55 : Nat) = 0x07) by decide, show ¬ ((0x55 : Nat) = 0x0A) by decide,
      show ¬ ((0x55 : Nat) = 0x15) by decide, show ¬ ((0x55 : Nat) = 0x18) by decide,
      show ¬ ((0x55 : Nat) = 0x1E) by decide, show ¬ ((0x55 : Nat) = 0x29) by decide,
      show ¬ ((0x55 : Nat) = 0x33) by decide, if_false, if_true]
    exact foldlM_range_oob store_reg (fun t => t.index)
      (by
        intro t j t' e
        unfold store_reg at e
        split at e
        · cases e; rfl
        · exact Option.noConfusion e)
      (by
        intro t j hj
        dsimp only at hj
        unfold store_reg
        rw [if_neg (by omega)])
      _ { s with pc := u16 (s.pc + 2) } ⟨i, List.mem_range.1 hi, hge⟩
  · simp only [k65]
    simp only [show ¬ ((0x65 : Nat) = 0x07) by decide, show ¬ ((0x65 : Nat) = 0x0A) by decide,
      show ¬ ((0x65 : Nat) = 0x15) by decide, show ¬ ((0x65 : Nat) = 0x18) by decide,
      show ¬ ((0x65 : Nat) = 0x1E) by decide, show ¬ ((0x65 : Nat) = 0x29) by decide,
      show ¬ ((0x65 : Nat) = 0x33) by decide, show ¬ ((0x65 : Nat) = 0x55) by decide,
      if_false, if_true]
    exact foldlM_range_oob load_reg (fun t => t.index)
      (by
        intro t j t' e
        unfold load_reg at e
        split at e
        · cases e; rfl
        · exact Option.noConfusion e)
      (by
        intro t j hj
        dsimp only at hj
        unfold load_reg
        rw [if_neg (by omega)])
      _ { s with pc := u16 (s.pc + 2) } ⟨i, List.mem_range.1 hi, hge⟩

end StdStack.Chip8

/-- C24 (counterexample): the program `1FFF` sets `pc = 0xFFF`, so the next fetch
subscripts `memory[4095]` and `memory[4096]`; the program `AFFF F033` sets
`index = 0xFFF`, so `Fx33` subscripts `memory[4095]`, `memory[4096]` and
`memory[4097]`.  Neither variant checks or reduces these addresses: the step is an
array access out of range and has no defined result. -/
theorem memory_address_beyond_4096 :
    ((ArrayStack.Chip8.load_rom jump_to_end_rom ArrayStack.Chip8.new).bind
        (ArrayStack.Chip8.run [0])).map
      (fun s => (s.pc, mem_accesses s.memory s.pc s.index)) = some (0xFFF, [4095, 4096]) ∧
    (ArrayStack.Chip8.load_rom jump_to_end_rom ArrayStack.Chip8.new).bind
        (ArrayStack.Chip8.run [0, 0]) = none ∧
    ((ArrayStack.Chip8.load_rom bcd_at_end_rom ArrayStack.Chip8.new).bind
        (ArrayStack.Chip8.run [0])).map
      (fun s => (s.pc, s.index, mem_accesses s.memory s.pc s.index))
      = some (514, 0xFFF, [514, 515, 4095, 4096, 4097]) ∧
    (ArrayStack.Chip8.load_rom bcd_at_end_rom ArrayStack.Chip8.new).bind
        (ArrayStack.Chip8.run [0, 0]) = none ∧
    ((StdStack.Chip8.load_rom jump_to_end_rom StdStack.Chip8.new).bind
        (StdStack.Chip8.run [0])).map
      (fun s => (s.pc, mem_accesses s.memory s.pc s.index)) = some (0xFFF, [4095, 4096]) ∧
    (StdStack.Chip8.load_rom jump_to_end_rom StdStack.Chip8.new).bind
        (StdStack.Chip8.run [0, 0]) = none ∧
    ((StdStack.Chip8.load_rom bcd_at_end_rom StdStack.Chip8.new).bind
        (StdStack.Chip8.run [0])).map
      (fun s => (s.pc, s.index, mem_accesses s.memory s.pc s.index))
      = some (514, 0xFFF, [514, 515, 4095, 4096, 4097]) ∧
    (StdStack.Chip8.load_rom bcd_at_end_rom StdStack.Chip8.new).bind
        (StdStack.Chip8.run [0, 0]) = none :=
  ⟨rfl, rfl, rfl, rfl, rfl, rfl, rfl, rfl⟩

/-! ## Drawing twice -/

set_option maxRecDepth 100000 in
/-- Toggling a byte-sized cell twice gives the cell back. -/
theorem xor_one_twice : ∀ v < 256, u8 (u8 (v ^^^ 1) ^^^ 1) = v := by
  decide

namespace ArrayStack.Chip8

/-- In `chip8.cc`, distinct sprite bits of one `Dxyn` address distinct framebuffer
cells. -/
theorem pos_inj_cc (vx vy i j i2 j2 : Nat)
    (hi : i < 16) (hj : j < 8) (hi2 : i2 < 16) (hj2 : j2 < 8)
    (h : pos vx vy i j = pos vx vy i2 j2) : i = i2 ∧ j = j2 := by
  unfold pos u16 at h
  omega

theorem toggled_refl_cc (s : Chip8) : Toggled ∅ s s := by
  refine ⟨rfl, rfl, fun _ _ => rfl, ?_, fun _ _ => rfl⟩
  intro c hc
  exact absurd hc (Set.not_mem_empty c)

theorem toggled_trans_cc {D1 D2 : Set Nat} {s s1 s2 : Chip8}
    (h1 : Toggled D1 s s1) (h2 : Toggled D2 s1 s2) (hd : ∀ c, c ∈ D1 → c ∉ D2) :
    Toggled (D1 ∪ D2) s s2 := by
  obtain ⟨m1, i1, r1, t1, k1⟩ := h1
  obtain ⟨m2, i2, r2, t2, k2⟩ := h2
  refine ⟨m2.trans m1, i2.trans i1, fun r hr => (r2 r hr).trans (r1 r hr), ?_, ?_⟩
  · intro c hc
    rcases hc with hc | hc
    · rw [k2 c (hd c hc), t1 c hc]
    · rw [t2 c hc, k1 c (fun h' => hd c h' hc)]
  · intro c hc
    have hc1 : c ∉ D1 := fun h => hc (Or.inl h)
    have hc2 : c ∉ D2 := fun h => hc (Or.inr h)
    rw [k2 c hc2, k1 c hc1]

theorem toggled_congr_cc {D1 D2 : Set Nat} {s s' : Chip8} (h : Toggled D1 s s')
    (e : D1 = D2) : Toggled D2 s s' := e ▸ h

/-- One bit of a sprite row in `chip8.cc`. -/
theorem draw_bit_toggle_cc (x y pixel i j vx vy : Nat) (s : Chip8) (hj : j < 8)
    (hvx : s.registers x = vx) (hvy : s.registers y = vy)
    (hb : pixel.testBit (7 - j) = true → pos vx vy i j < DISPLAY_SIZE) :
    ∃ s', draw_bit x y pixel i s j = some s' ∧
      Toggled {c | pixel.testBit (7 - j) = true ∧ c = pos vx vy i j} s s' := by
  subst hvx hvy
  unfold draw_bit
  by_cases hbit : pixel.testBit (7 - j) = true
  · have ht : pixel &&& (0x80 >>> j) ≠ 0 := (sprite_bit_test pixel j hj).2 hbit
    have hc := hb hbit
    unfold pos at hc
    rw [if_pos ht]
    dsimp only
    rw [if_pos hc]
    refine ⟨_, rfl, rfl, rfl, ?_, ?_, ?_⟩
    · intro r hr
      simp [aset, hr]
    · rintro c ⟨-, rfl⟩
      simp [aset, pos]
    · intro c hc'
      have hne : c ≠ u16 (s.registers x + j + (s.registers y + i) * 64) :=
        fun h => hc' ⟨hbit, h⟩
      simp [aset, hne]
  · have ht : ¬ pixel &&& (0x80 >>> j) ≠ 0 := fun h => hbit ((sprite_bit_test pixel j hj).1 h)
    rw [if_neg ht]
    refine ⟨s, rfl, toggled_congr_cc (toggled_refl_cc s) ?_⟩
    ext c
    simp [hbit]

/-- The inner loop of `Dxyn` in `chip8.cc`, after `m` of its 8 iterations. -/
theorem draw_bits_toggle_cc (x y pixel i vx vy : Nat) (s : Chip8)
    (hx : x ≠ 0xF) (hy : y ≠ 0xF) (hvx : s.registers x = vx) (hvy : s.registers y = vy)
    (hi : i < 16) (m : Nat) (hm : m ≤ 8)
    (hb : ∀ j, j < m → pixel.testBit (7 - j) = true → pos vx vy i j < DISPLAY_SIZE) :
    ∃ s', (List.range m).foldlM (draw_bit x y pixel i) s = some s' ∧
      Toggled {c | ∃ j, j < m ∧ pixel.testBit (7 - j) = true ∧ c = pos vx vy i j} s s' := by
  induction m with
  | zero =>
    refine ⟨s, rfl, toggled_congr_cc (toggled_refl_cc s) ?_⟩
    ext c
    simp
  | succ m ih =>
    obtain ⟨s1, e1, inv1⟩ := ih (by omega) (fun j hj => hb j (by omega))
    obtain ⟨s2, e2, inv2⟩ := draw_bit_toggle_cc x y pixel i m vx vy s1 (by omega)
      ((inv1.2.2.1 x hx).trans hvx) ((inv1.2.2.1 y hy).trans hvy) (hb m (by omega))
    refine ⟨s2, ?_, toggled_congr_cc (toggled_trans_cc inv1 inv2 ?_) ?_⟩
    · rw [List.range_succ, List.foldlM_append, e1]
      simpa using e2
    · rintro c ⟨j, hj, -, rfl⟩ ⟨-, h⟩
      have := pos_inj_cc vx vy i j i m hi (by omega) hi (by omega) h
      omega
    · ext c
      simp only [Set.mem_union, Set.mem_setOf_eq]
      constructor
      · rintro (⟨j, hj, hbit, rfl⟩ | ⟨hbit, rfl⟩)
        · exact ⟨j, by omega, hbit, rfl⟩
        · exact ⟨m, by omega, hbit, rfl⟩
      · rintro ⟨j, hj, hbit, rfl⟩
        by_cases hjm : j = m
        · subst hjm; exact Or.inr ⟨hbit, rfl⟩
        · exact Or.inl ⟨j, by omega, hbit, rfl⟩

/-- The outer loop of `Dxyn` in `chip8.cc`, after `m` iterations. -/
theorem draw_rows_toggle_cc (x y vx vy : Nat) (s : Chip8) (m : Nat) (hm : m ≤ 16)
    (hx : x ≠ 0xF) (hy : y ≠ 0xF) (hvx : s.registers x = vx) (hvy : s.registers y = vy)
    (hrows : ∀ i, i < m → s.index + i < MEMORY_SIZE)
    (hcells : ∀ c, c ∈ drawn_cells s.memory s.index vx vy m → c < DISPLAY_SIZE) :
    ∃ s', (List.range m).foldlM (draw_row x y) s = some s' ∧
      Toggled (drawn_cells s.memory s.index vx vy m) s s' := by
  induction m with
  | zero =>
    refine ⟨s, rfl, toggled_congr_cc (toggled_refl_cc s) ?_⟩
    ext c
    simp [drawn_cells]
  | succ m ih =>
    obtain ⟨s1, e1, inv1⟩ := ih (by omega) (fun i hi => hrows i (by omega))
      (fun c ⟨i, hi, h⟩ => hcells c ⟨i, by omega, h⟩)
    have hmem : s1.memory = s.memory := inv1.1
    have hidx : s1.index = s.index := inv1.2.1
    obtain ⟨s2, e2, inv2⟩ := draw_bits_toggle_cc x y (s.memory (s.index + m)) m vx vy s1
      hx hy ((inv1.2.2.1 x hx).trans hvx) ((inv1.2.2.1 y hy).trans hvy)
      (by omega) 8 (le_refl 8)
      (fun j hj hbit => hcells _ ⟨m, by omega, j, hj, hbit, rfl⟩)
    refine ⟨s2, ?_, toggled_congr_cc (toggled_trans_cc inv1 inv2 ?_) ?_⟩
    · rw [List.range_succ, List.foldlM_append, e1]
      have hr : s1.index + m < MEMORY_SIZE := by rw [hidx]; exact hrows m (by omega)
      have hrow : draw_row x y s1 m = some s2 := by
        unfold draw_row
        rw [if_pos hr, hmem, hidx]
        exact e2
      simp [hrow]
    · rintro c ⟨i, hi, j, hj, -, rfl⟩ ⟨j2, hj2, -, h⟩
      have := pos_inj_cc vx vy i j m j2 (by omega) hj (by omega) hj2 h
      omega
    · ext c
      simp only [Set.mem_union, Set.mem_setOf_eq, drawn_cells]
      constructor
      · rintro (⟨i, hi, h⟩ | h)
        · exact ⟨i, by omega, h⟩
        · exact ⟨m, by omega, h⟩
      · rintro ⟨i, hi, h⟩
        by_cases him : i = m
        · subst him; exact Or.inr h
        · exact Or.inl ⟨i, by omega, h⟩

/-- In `chip8.cc`, `Dxyn` with `x`, `y` other than `0xF` and rows and cells in
bounds toggles the addressed cells once each and keeps everything else of the
framebuffer, the memory, `index` and the registers other than `VF`. -/
theorem draw_toggles_cc (rnd : Nat) (s : Chip8) (x y n : Nat)
    (hx : x < 16) (hy : y < 16) (hxF : x ≠ 0xF) (hyF : y ≠ 0xF) (hn : n < 16)
    (hpc : s.pc + 1 < MEMORY_SIZE)
    (h0 : s.memory s.pc = 0xD0 + x) (h1 : s.memory (s.pc + 1) = 16 * y + n)
    (hrows : ∀ i, i < n → s.index + i < MEMORY_SIZE)
    (hcells : ∀ c, c ∈ drawn_cells s.memory s.index (s.registers x) (s.registers y) n →
      c < DISPLAY_SIZE) :
    ∃ s', execute_instruction rnd s = some s' ∧
      Toggled (drawn_cells s.memory s.index (s.registers x) (s.registers y) n) s s' := by
  obtain ⟨s2, e2, m2, i2, r2, t2, k2⟩ := draw_rows_toggle_cc x y (s.registers x) (s.registers y)
    { s with pc := u16 (s.pc + 2), registers := aset s.registers 0xF 0 } n (by omega)
    hxF hyF (by simp [aset, hxF]) (by simp [aset, hyF]) hrows hcells
  refine ⟨{ s2 with draw_flag := true }, ?_, m2, i2, ?_, t2, k2⟩
  · rw [execute_Dxyn_cc rnd s x y n hx hy hn hpc h0 h1, e2]
    rfl
  · intro r hr
    rw [show ({ s2 with draw_flag := true } : Chip8).registers r = s2.registers r from rfl,
      r2 r hr]
    simp [aset, hr]

/-- The cells a sprite addresses depend on the sprite rows, `index` and the two
coordinates only. -/
theorem drawn_cells_congr_cc (mem mem2 : Nat → Nat) (idx idx2 vx vy vx2 vy2 n : Nat)
    (hidx : idx2 = idx) (hvx : vx2 = vx) (hvy : vy2 = vy)
    (hmem : ∀ i, i < n → mem2 (idx2 + i) = mem (idx + i)) :
    drawn_cells mem2 idx2 vx2 vy2 n = drawn_cells mem idx vx vy n := by
  subst hidx hvx hvy
  ext c
  simp only [drawn_cells, Set.mem_setOf_eq]
  constructor
  · rintro ⟨i, hi, j, hj, hbit, rfl⟩
    exact ⟨i, hi, j, hj, by rw [← hmem i hi]; exact hbit, rfl⟩
  · rintro ⟨i, hi, j, hj, hbit, rfl⟩
    exact ⟨i, hi, j, hj, by rw [hmem i hi]; exact hbit, rfl⟩

theorem draw_example_WF_cc : draw_example.WF := by
  refine ⟨by simp [draw_example], ?_, ?_, by simp [draw_example], by simp [draw_example],
    by simp [draw_example], by simp [draw_example], by simp [draw_example],
    by simp [draw_example]⟩
  · intro a _
    simp only [draw_example]
    repeat' split
    all_goals omega
  · intro c _
    simp only [draw_example]
    repeat' split
    all_goals omega

end ArrayStack.Chip8

namespace StdStack.Chip8

/-- In `chip8.cpp`, the drawing loop writes no register other than `VF`. -/
theorem draw_rows_regs_cpp (a b : Nat) (n : Nat) (s s' : Chip8)
    (h : (List.range n).foldlM (draw_row a b) s = some s') :
    ∀ r, r ≠ 0xF → s'.registers r = s.registers r := by
  refine foldlM_invariant (fun u => ∀ r, r ≠ 0xF → u.registers r = s.registers r)
    (draw_row a b) ?_ (List.range n) s s' (fun _ _ => rfl) h
  intro t i t' ht e
  unfold draw_row at e
  split at e
  · refine foldlM_invariant (fun u => ∀ r, r ≠ 0xF → u.registers r = s.registers r)
      (draw_bit a b _ i) ?_ (List.range 8) t t' ht e
    intro u k u' hu e'
    unfold draw_bit at e'
    by_cases h0 : t.memory (t.index + i) &&& (0x80 >>> k) ≠ 0
    · rw [if_pos h0] at e'
      dsimp only at e'
      split at e'
      · have e2 := Option.some.inj e'
        subst e2
        intro r hr
        dsimp only
        split
        · simp [aset, hr, hu r hr]
        · exact hu r hr
      · exact Option.noConfusion e'
    · rw [if_neg h0] at e'
      rw [← Option.some.inj e']
      exact hu
  · exact Option.noConfusion e

/-- The cells a sprite addresses depend on the sprite rows, `index` and the two
coordinates only. -/
theorem sprite_cells_congr (mem mem2 : Nat → Nat) (idx idx2 vx vy vx2 vy2 n : Nat)
    (hidx : idx2 = idx) (hvx : vx2 = vx) (hvy : vy2 = vy)
    (hmem : ∀ i, i < n → mem2 (idx2 + i) = mem (idx + i)) :
    sprite_cells mem2 idx2 vx2 vy2 n = sprite_cells mem idx vx vy n := by
  subst hidx hvx hvy
  ext c
  simp only [sprite_cells, Set.mem_setOf_eq]
  constructor
  · rintro ⟨i, hi, j, hj, hbit, rfl⟩
    exact ⟨i, hi, j, hj, by rw [← hmem i hi]; exact hbit, rfl⟩
  · rintro ⟨i, hi, j, hj, hbit, rfl⟩
    exact ⟨i, hi, j, hj, by rw [hmem i hi]; exact hbit, rfl⟩

/-- In `chip8.cpp`, `Dxyn` with rows and cells in bounds toggles the addressed cells
once each and keeps everything else of the framebuffer, the memory, `index` and the
registers other than `VF`. -/
theorem draw_toggles_cpp (rnd : Nat) (s : Chip8) (x y n : Nat)
    (hx : x < 16) (hy : y < 16) (hn : n < 16)
    (hpc : s.pc + 1 < MEMORY_SIZE)
    (h0 : s.memory s.pc = 0xD0 + x) (h1 : s.memory (s.pc + 1) = 16 * y + n)
    (hrows : ∀ i, i < n → s.index + i < MEMORY_SIZE)
    (hcells : ∀ c, c ∈ sprite_cells s.memory s.index (s.registers x) (s.registers y) n →
      c < DISPLAY_SIZE) :
    ∃ s', execute_instruction rnd s = some s' ∧
      s'.memory = s.memory ∧ s'.index = s.index ∧
      (∀ r, r ≠ 0xF → s'.registers r = s.registers r) ∧
      (∀ c, c ∈ sprite_cells s.memory s.index (s.registers x) (s.registers y) n →
        s'.pixels c = u8 (s.pixels c ^^^ 1)) ∧
      (∀ c, c ∉ sprite_cells s.memory s.index (s.registers x) (s.registers y) n →
        s'.pixels c = s.pixels c) := by
  obtain ⟨s2, e2, m2, i2, t2, k2, -, -⟩ := draw_rows_spec (s.registers x) (s.registers y)
    { s with pc := u16 (s.pc + 2), registers := aset s.registers 0xF 0 } n (by omega)
    hrows hcells
  have r2 := draw_rows_regs_cpp _ _ _ _ _ e2
  refine ⟨{ s2 with draw_flag := true }, ?_, m2, i2, ?_, t2, k2⟩
  · rw [execute_Dxyn rnd s x y n hx hy hn hpc h0 h1, e2]
    rfl
  · intro r hr
    rw [show ({ s2 with draw_flag := true } : Chip8).registers r = s2.registers r from rfl,
      r2 r hr]
    simp [aset, hr]

end StdStack.Chip8

/-- C27: in both variants, for `x`, `y` other than `0xF` and a height `n` with the
sprite rows and all target cells in bounds, `Dxyn` has a result that keeps the
memory, `index` and the registers other than `VF`; and the same `Dxyn` executed
again on that framebuffer (same `Vx`, `Vy`, `index`, same sprite bytes) has a result
whose framebuffer equals, cell by cell, the framebuffer before the first draw. -/
theorem draw_twice_restores_framebuffer :
    (∀ (rnd : Nat) (s : ArrayStack.Chip8) (x y n : Nat), s.WF →
      x < 16 → y < 16 → x ≠ 0xF → y ≠ 0xF → n < 16 → s.pc + 1 < MEMORY_SIZE →
      s.memory s.pc = 0xD0 + x → s.memory (s.pc + 1) = 16 * y + n →
      (∀ i, i < n → s.index + i < MEMORY_SIZE) →
      (∀ c, c ∈ ArrayStack.Chip8.drawn_cells s.memory s.index (s.registers x) (s.registers y) n →
        c < DISPLAY_SIZE) →
      ∃ s1, ArrayStack.Chip8.execute_instruction rnd s = some s1 ∧
        s1.memory = s.memory ∧ s1.index = s.index ∧
        (∀ r, r ≠ 0xF → s1.registers r = s.registers r) ∧
        ∀ (rnd2 : Nat) (t : ArrayStack.Chip8), t.pc + 1 < MEMORY_SIZE →
          t.memory t.pc = 0xD0 + x → t.memory (t.pc + 1) = 16 * y + n →
          t.index = s.index → (∀ i, i < n → t.memory (t.index + i) = s.memory (s.index + i)) →
          t.registers x = s.registers x → t.registers y = s.registers y →
          (∀ c, t.display c = s1.display c) →
          ∃ s2, ArrayStack.Chip8.execute_instruction rnd2 t = some s2 ∧
            ∀ c, s2.display c = s.display c) ∧
    (∀ (rnd : Nat) (s : StdStack.Chip8) (x y n : Nat), s.WF →
      x < 16 → y < 16 → x ≠ 0xF → y ≠ 0xF → n < 16 → s.pc + 1 < MEMORY_SIZE →
      s.memory s.pc = 0xD0 + x → s.memory (s.pc + 1) = 16 * y + n →
      (∀ i, i < n → s.index + i < MEMORY_SIZE) →
      (∀ c, c ∈ StdStack.Chip8.sprite_cells s.memory s.index (s.registers x) (s.registers y) n →
        c < DISPLAY_SIZE) →
      ∃ s1, StdStack.Chip8.execute_instruction rnd s = some s1 ∧
        s1.memory = s.memory ∧ s1.index = s.index ∧
        (∀ r, r ≠ 0xF → s1.registers r = s.registers r) ∧
        ∀ (rnd2 : Nat) (t : StdStack.Chip8), t.pc + 1 < MEMORY_SIZE →
          t.memory t.pc = 0xD0 + x → t.memory (t.pc + 1) = 16 * y + n →
          t.index = s.index → (∀ i, i < n → t.memory (t.index + i) = s.memory (s.index + i)) →
          t.registers x = s.registers x → t.registers y = s.registers y →
          (∀ c, t.pixels c = s1.pixels c) →
          ∃ s2, StdStack.Chip8.execute_instruction rnd2 t = some s2 ∧
            ∀ c, s2.pixels c = s.pixels c) := by
  constructor
  · intro rnd s x y n hwf hx hy hxF hyF hn hpc h0 h1 hrows hcells
    obtain ⟨s1, e1, m1, i1, r1, t1, k1⟩ :=
      ArrayStack.Chip8.draw_toggles_cc rnd s x y n hx hy hxF hyF hn hpc h0 h1 hrows hcells
    refine ⟨s1, e1, m1, i1, r1, ?_⟩
    intro rnd2 t tpc t0 t1m ti tb tx ty td
    have hD := ArrayStack.Chip8.drawn_cells_congr_cc s.memory t.memory s.index t.index
      (s.registers x) (s.registers y) (t.registers x) (t.registers y) n ti tx ty tb
    obtain ⟨s2, e2, -, -, -, t2, k2⟩ :=
      ArrayStack.Chip8.draw_toggles_cc rnd2 t x y n hx hy hxF hyF hn tpc t0 t1m
        (fun i hi => by rw [ti]; exact hrows i hi)
        (fun c hc => by rw [hD] at hc; exact hcells c hc)
    rw [hD] at t2 k2
    refine ⟨s2, e2, ?_⟩
    intro c
    by_cases hc : c ∈ ArrayStack.Chip8.drawn_cells s.memory s.index (s.registers x) (s.registers y) n
    · rw [t2 c hc, td c, t1 c hc]
      exact xor_one_twice _ (hwf.2.2.1 c (hcells c hc))
    · rw [k2 c hc, td c, k1 c hc]
  · intro rnd s x y n hwf hx hy hxF hyF hn hpc h0 h1 hrows hcells
    obtain ⟨s1, e1, m1, i1, r1, t1, k1⟩ :=
      StdStack.Chip8.draw_toggles_cpp rnd s x y n hx hy hn hpc h0 h1 hrows hcells
    refine ⟨s1, e1, m1, i1, r1, ?_⟩
    intro rnd2 t tpc t0 t1m ti tb tx ty td
    have hD := StdStack.Chip8.sprite_cells_congr s.memory t.memory s.index t.index
      (s.registers x) (s.registers y) (t.registers x) (t.registers y) n ti tx ty tb
    obtain ⟨s2, e2, -, -, -, t2, k2⟩ :=
      StdStack.Chip8.draw_toggles_cpp rnd2 t x y n hx hy hn tpc t0 t1m
        (fun i hi => by rw [ti]; exact hrows i hi)
        (fun c hc => by rw [hD] at hc; exact hcells c hc)
    rw [hD] at t2 k2
    refine ⟨s2, e2, ?_⟩
    intro c
    by_cases hc : c ∈ StdStack.Chip8.sprite_cells s.memory s.index (s.registers x) (s.registers y) n
    · rw [t2 c hc, td c, t1 c hc]
      exact xor_one_twice _ (hwf.2.1 c (hcells c hc))
    · rw [k2 c hc, td c, k1 c hc]

/-- Instance of `draw_twice_restores_framebuffer` at the two `draw_example` states
(`D012`, rows `0xF0`, `0x90` at `V0 = V1 = 0`, cell 0 set before): the instruction
run again from the resulting state, with `pc` back at 512, gives the first
framebuffer back. -/
theorem draw_twice_restores_framebuffer_witness :
    (∃ s1, ArrayStack.Chip8.execute_instruction 0 ArrayStack.Chip8.draw_example = some s1 ∧
      ∃ s2, ArrayStack.Chip8.execute_instruction 0 { s1 with pc := 512 } = some s2 ∧
        ∀ c, s2.display c = ArrayStack.Chip8.draw_example.display c) ∧
    (∃ s1, StdStack.Chip8.execute_instruction 0 StdStack.Chip8.draw_example = some s1 ∧
      ∃ s2, StdStack.Chip8.execute_instruction 0 { s1 with pc := 512 } = some s2 ∧
        ∀ c, s2.pixels c = StdStack.Chip8.draw_example.pixels c) := by
  constructor
  · obtain ⟨s1, e1, m1, i1, r1, next⟩ :=
      draw_twice_restores_framebuffer.1 0 ArrayStack.Chip8.draw_example 0 1 2
        ArrayStack.Chip8.draw_example_WF_cc
        (by decide) (by decide) (by decide) (by decide) (by decide) (by decide) (by decide)
        (by decide)
        (by intro i hi; simp only [ArrayStack.Chip8.draw_example, MEMORY_SIZE]; omega)
        (by
          rintro c ⟨i, hi, j, hj, -, rfl⟩
          simp only [ArrayStack.Chip8.pos, u16, ArrayStack.Chip8.draw_example, DISPLAY_SIZE]
          omega)
    obtain ⟨s2, e2, d2⟩ := next 0 { s1 with pc := 512 }
      (by show 512 + 1 < MEMORY_SIZE; decide)
      (by show s1.memory 512 = _; rw [m1]; rfl) (by show s1.memory 513 = _; rw [m1]; rfl)
      i1 (fun i _ => by show s1.memory (s1.index + i) = _; rw [m1, i1])
      (r1 0 (by decide)) (r1 1 (by decide)) (fun _ => rfl)
    exact ⟨s1, e1, s2, e2, d2⟩
  · obtain ⟨s1, e1, m1, i1, r1, next⟩ :=
      draw_twice_restores_framebuffer.2 0 StdStack.Chip8.draw_example 0 1 2
        StdStack.Chip8.draw_example_WF
        (by decide) (by decide) (by decide) (by decide) (by decide) (by decide) (by decide)
        (by decide)
        (by intro i hi; simp only [StdStack.Chip8.draw_example, MEMORY_SIZE]; omega)
        (by
          rintro c ⟨i, hi, j, hj, -, rfl⟩
          simp only [StdStack.Chip8.coord, u16, StdStack.Chip8.draw_example, DISPLAY_SIZE]
          omega)
    obtain ⟨s2, e2, d2⟩ := next 0 { s1 with pc := 512 }
      (by show 512 + 1 < MEMORY_SIZE; decide)
      (by show s1.memory 512 = _; rw [m1]; rfl) (by show s1.memory 513 = _; rw [m1]; rfl)
      i1 (fun i _ => by show s1.memory (s1.index + i) = _; rw [m1, i1])
      (r1 0 (by decide)) (r1 1 (by decide)) (fun _ => rfl)
    exact ⟨s1, e1, s2, e2, d2⟩

/-! ## The two variants side by side -/

/-- Two loops whose bodies commute with a map of the state commute with it. -/
theorem foldlM_map_comm {σ τ : Type} (f : σ → Nat → Option σ) (g : τ → Nat → Option τ)
    (abs : σ → τ) (h : ∀ s i, g (abs s) i = (f s i).map abs) :
    ∀ (l : List Nat) (s : σ), l.foldlM g (abs s) = (l.foldlM f s).map abs := by
  intro l
  induction l with
  | nil => intro s; rfl
  | cons i l ih =>
    intro s
    rw [List.foldlM_cons, List.foldlM_cons, h s i]
    cases f s i with
    | none => rfl
    | some s1 => exact ih s1

/-- A loop over `0 .. n - 1` whose iteration `i` needs only `idx + i` in range has
a result when all these subscripts are in range. -/
theorem foldlM_range_defined {σ : Type} (f : σ → Nat → Option σ) (idx : σ → Nat)
    (hidx : ∀ s i s', f s i = some s' → idx s' = idx s)
    (hdef : ∀ s i, idx s + i < MEMORY_SIZE → ∃ s', f s i = some s') :
    ∀ (n : Nat) (s : σ), (∀ i, i < n → idx s + i < MEMORY_SIZE) →
      ∃ s', (List.range n).foldlM f s = some s' := by
  intro n
  induction n with
  | zero => intro s _; exact ⟨s, rfl⟩
  | succ n ih =>
    intro s hb
    obtain ⟨s1, e1⟩ := ih s (fun i hi => hb i (by omega))
    have hk : idx s1 = idx s :=
      foldlM_invariant (fun t => idx t = idx s) f
        (fun t j t' ht e => (hidx t j t' e).trans ht) (List.range n) s s1 rfl e1
    obtain ⟨s2, e2⟩ := hdef s1 n (by rw [hk]; exact hb n (by omega))
    refine ⟨s2, ?_⟩
    rw [List.range_succ, List.foldlM_append, e1]
    simpa using e2

/-- Corresponding states are the pairs of a `chip8.cc` state with at most 16
return addresses and its `chip8.cpp` image. -/
theorem corresponding_iff (a : ArrayStack.Chip8) (b : StdStack.Chip8) :
    corresponding a b ↔ a.sp ≤ STACK_SIZE ∧ b = a.toStd := by
  constructor
  · rintro ⟨h1, h2, h3, h4, h5, h6, h7, h8, h9, h10, h11⟩
    refine ⟨h10, ?_⟩
    cases b
    simp only [ArrayStack.Chip8.toStd] at *
    subst h1 h2 h3 h4 h5 h6 h7 h8 h9
    rw [← h11, List.reverse_reverse]
  · rintro ⟨h, rfl⟩
    exact ⟨rfl, rfl, rfl, rfl, rfl, rfl, rfl, rfl, rfl, h, List.reverse_reverse _⟩

/-- Outside the flag cases, `8xyN` is the same in both variants. -/
theorem exec_8_toStd (x y n : Nat) (a : ArrayStack.Chip8)
    (h4 : n ≠ 0x4) (h5 : n ≠ 0x5) (h6 : n ≠ 0x6) (h7 : n ≠ 0x7) (hE : n ≠ 0xE) :
    StdStack.Chip8.exec_8 x y n a.toStd = (ArrayStack.Chip8.exec_8 x y n a).toStd := by
  unfold StdStack.Chip8.exec_8 ArrayStack.Chip8.exec_8
  simp only [if_neg h4, if_neg h5, if_neg h6, if_neg h7, if_neg hE]
  by_cases k0 : n = 0x0
  · simp only [if_pos k0]; rfl
  simp only [if_neg k0]
  by_cases k1 : n = 0x1
  · simp only [if_pos k1]; rfl
  simp only [if_neg k1]
  by_cases k2 : n = 0x2
  · simp only [if_pos k2]; rfl
  simp only [if_neg k2]
  by_cases k3 : n = 0x3
  · simp only [if_pos k3]; rfl
  simp only [if_neg k3]

/-- The loop body of `Fx55` is the same in both variants. -/
theorem store_reg_toStd (a : ArrayStack.Chip8) (i : Nat) :
    StdStack.Chip8.store_reg a.toStd i = (ArrayStack.Chip8.store_reg a i).map
      ArrayStack.Chip8.toStd := by
  unfold StdStack.Chip8.store_reg ArrayStack.Chip8.store_reg
  by_cases h : a.index + i < MEMORY_SIZE
  · rw [if_pos h, if_pos (show a.toStd.index + i < MEMORY_SIZE from h)]; rfl
  · rw [if_neg h, if_neg (show ¬ a.toStd.index + i < MEMORY_SIZE from h)]; rfl

/-- The loop body of `Fx65` is the same in both variants. -/
theorem load_reg_toStd (a : ArrayStack.Chip8) (i : Nat) :
    StdStack.Chip8.load_reg a.toStd i = (ArrayStack.Chip8.load_reg a i).map
      ArrayStack.Chip8.toStd := by
  unfold StdStack.Chip8.load_reg ArrayStack.Chip8.load_reg
  by_cases h : a.index + i < MEMORY_SIZE
  · rw [if_pos h, if_pos (show a.toStd.index + i < MEMORY_SIZE from h)]; rfl
  · rw [if_neg h, if_neg (show ¬ a.toStd.index + i < MEMORY_SIZE from h)]; rfl

/-- The family `FxKK` is the same in both variants. -/
theorem exec_F_toStd (x kk : Nat) (a : ArrayStack.Chip8) :
    StdStack.Chip8.exec_F x kk a.toStd = (ArrayStack.Chip8.exec_F x kk a).map
      ArrayStack.Chip8.toStd := by
  unfold StdStack.Chip8.exec_F ArrayStack.Chip8.exec_F
  by_cases k07 : kk = 0x07
  · simp only [if_pos k07]; rfl
  simp only [if_neg k07]
  by_cases k0A : kk = 0x0A
  · simp only [if_pos k0A]
    show (match (List.range NUM_KEYS).find? (fun i => a.keys i) with
      | some i => some { a.toStd with registers := aset a.registers x (b2n (a.keys i)) }
      | none => some { a.toStd with pc := u16i ((a.pc : Int) - 2) }) = _
    cases (List.range NUM_KEYS).find? (fun i => a.keys i) <;> rfl
  simp only [if_neg k0A]
  by_cases k15 : kk = 0x15
  · simp only [if_pos k15]; rfl
  simp only [if_neg k15]
  by_cases k18 : kk = 0x18
  · simp only [if_pos k18]; rfl
  simp only [if_neg k18]
  by_cases k1E : kk = 0x1E
  · simp only [if_pos k1E]; rfl
  simp only [if_neg k1E]
  by_cases k29 : kk = 0x29
  · simp only [if_pos k29]; rfl
  simp only [if_neg k29]
  by_cases k33 : kk = 0x33
  · simp only [if_pos k33]
    by_cases h : a.index + 2 < MEMORY_SIZE
    · rw [if_pos h, if_pos (show a.toStd.index + 2 < MEMORY_SIZE from h)]; rfl
    · rw [if_neg h, if_neg (show ¬ a.toStd.index + 2 < MEMORY_SIZE from h)]; rfl
  simp only [if_neg k33]
  by_cases k55 : kk = 0x55
  · simp only [if_pos k55]
    exact foldlM_map_comm _ _ _ store_reg_toStd _ a
  simp only [if_neg k55]
  by_cases k65 : kk = 0x65
  · simp only [if_pos k65]
    exact foldlM_map_comm _ _ _ load_reg_toStd _ a
  simp only [if_neg k65]
  rfl

/-- A push on the array stack is a push on the `std::stack`. -/
theorem push_toStd (stk : Nat → Nat) (sp v : Nat) (h : sp < STACK_SIZE) :
    ((List.range (u16 (sp + 1))).map (aset stk sp v)).reverse
      = v :: ((List.range sp).map stk).reverse := by
  have e : u16 (sp + 1) = sp + 1 := by
    simp only [STACK_SIZE] at h
    unfold u16
    omega
  have hm : (List.range sp).map (aset stk sp v) = (List.range sp).map stk := by
    apply List.map_congr_left
    intro i hi
    have := List.mem_range.1 hi
    simp only [aset]
    rw [if_neg (by omega)]
  rw [e, List.range_succ, List.map_append, List.reverse_append, hm]
  simp [aset]

/-- A pop on the array stack is a pop on the `std::stack`. -/
theorem pop_toStd (stk : Nat → Nat) (sp : Nat) (h0 : 0 < sp) (h : sp ≤ STACK_SIZE) :
    u16i ((sp : Int) - 1) = sp - 1 ∧
    ((List.range sp).map stk).reverse
      = stk (sp - 1) :: ((List.range (sp - 1)).map stk).reverse := by
  constructor
  · simp only [STACK_SIZE] at h
    unfold u16i
    omega
  · obtain ⟨k, rfl⟩ : ∃ k, sp = k + 1 := ⟨sp - 1, by omega⟩
    rw [List.range_succ, List.map_append, List.reverse_append]
    simp

/-- Outside the flag and draw instructions, with the call and the return inside the
16 stack entries, one step of `chip8.cpp` on the image of a `chip8.cc` state is the
image of the step of `chip8.cc`; the two steps are undefined together. -/
theorem step_toStd (rnd : Nat) (a : ArrayStack.Chip8) (hsp : a.sp ≤ STACK_SIZE)
    (hfd : ¬ flag_or_draw (fetch a.memory a.pc))
    (hcall : fetch a.memory a.pc &&& 0xF000 = 0x2000 → a.sp < STACK_SIZE)
    (hret : fetch a.memory a.pc = 0x00EE → 0 < a.sp) :
    StdStack.Chip8.execute_instruction rnd a.toStd
      = (ArrayStack.Chip8.execute_instruction rnd a).map ArrayStack.Chip8.toStd := by
  obtain ⟨stk, mem, disp, regs, keys, sp, pc, idx, dt, st, df⟩ := a
  unfold StdStack.Chip8.execute_instruction ArrayStack.Chip8.execute_instruction
  unfold fetch flag_or_draw at *
  simp only [ArrayStack.Chip8.toStd] at *
  by_cases hpc : pc + 1 < MEMORY_SIZE
  swap
  · rw [if_neg hpc, if_neg hpc]; rfl
  rw [if_pos hpc, if_pos hpc]
  generalize u16 (mem pc <<< 8 ||| mem (pc + 1)) = opc at hfd hcall hret ⊢
  by_cases c0 : opc &&& 0xF000 = 0x0000
  · simp only [if_pos c0]
    by_cases cE0 : opc = 0x00E0
    · simp only [if_pos cE0]; rfl
    simp only [if_neg cE0]
    by_cases cEE : opc = 0x00EE
    · simp only [if_pos cEE]
      obtain ⟨e1, e2⟩ := pop_toStd stk sp (hret cEE) hsp
      have hlt : sp - 1 < STACK_SIZE := by
        have := hret cEE
        omega
      rw [e1, if_pos hlt, e2]
      rfl
    simp only [if_neg cEE]
    rfl
  simp only [if_neg c0]
  by_cases c1 : opc &&& 0xF000 = 0x1000
  · simp only [if_pos c1]; rfl
  simp only [if_neg c1]
  by_cases c2 : opc &&& 0xF000 = 0x2000
  · simp only [if_pos c2]
    rw [if_pos (hcall c2)]
    exact congrArg some (by
      simp only [ArrayStack.Chip8.toStd, push_toStd stk sp _ (hcall c2)])
  simp only [if_neg c2]
  by_cases c3 : opc &&& 0xF000 = 0x3000
  · simp only [if_pos c3]
    split <;> rfl
  simp only [if_neg c3]
  by_cases c4 : opc &&& 0xF000 = 0x4000
  · simp only [if_pos c4]
    split <;> rfl
  simp only [if_neg c4]
  by_cases c5 : opc &&& 0xF000 = 0x5000
  · simp only [if_pos c5]
    split <;> rfl
  simp only [if_neg c5]
  by_cases c6 : opc &&& 0xF000 = 0x6000
  · simp only [if_pos c6]; rfl
  simp only [if_neg c6]
  by_cases c7 : opc &&& 0xF000 = 0x7000
  · simp only [if_pos c7]; rfl
  simp only [if_neg c7]
  by_cases c8 : opc &&& 0xF000 = 0x8000
  · simp only [if_pos c8]
    have h4 : opc &&& 0x000F ≠ 0x4 := fun h => hfd (Or.inl ⟨c8, Or.inl h⟩)
    have h5 : opc &&& 0x000F ≠ 0x5 := fun h => hfd (Or.inl ⟨c8, Or.inr (Or.inl h)⟩)
    have h6 : opc &&& 0x000F ≠ 0x6 := fun h => hfd (Or.inl ⟨c8, Or.inr (Or.inr (Or.inl h))⟩)
    have h7 : opc &&& 0x000F ≠ 0x7 :=
      fun h => hfd (Or.inl ⟨c8, Or.inr (Or.inr (Or.inr (Or.inl h)))⟩)
    have hE : opc &&& 0x000F ≠ 0xE :=
      fun h => hfd (Or.inl ⟨c8, Or.inr (Or.inr (Or.inr (Or.inr h)))⟩)
    exact congrArg some (exec_8_toStd _ _ _
      ⟨stk, mem, disp, regs, keys, sp, u16 (pc + 2), idx, dt, st, df⟩ h4 h5 h6 h7 hE)
  simp only [if_neg c8]
  by_cases c9 : opc &&& 0xF000 = 0x9000
  · simp only [if_pos c9]
    split <;> rfl
  simp only [if_neg c9]
  by_cases cA : opc &&& 0xF000 = 0xA000
  · simp only [if_pos cA]; rfl
  simp only [if_neg cA]
  by_cases cB : opc &&& 0xF000 = 0xB000
  · simp only [if_pos cB]; rfl
  simp only [if_neg cB]
  by_cases cC : opc &&& 0xF000 = 0xC000
  · simp only [if_pos cC]; rfl
  simp only [if_neg cC]
  have cD : ¬ opc &&& 0xF000 = 0xD000 := fun h => hfd (Or.inr h)
  simp only [if_neg cD]
  by_cases cE : opc &&& 0xF000 = 0xE000
  · simp only [if_pos cE]
    repeat' split
    all_goals rfl
  simp only [if_neg cE]
  by_cases cF : opc &&& 0xF000 = 0xF000
  · simp only [if_pos cF]
    exact exec_F_toStd _ _ ⟨stk, mem, disp, regs, keys, sp, u16 (pc + 2), idx, dt, st, df⟩
  simp only [if_neg cF]
  rfl

namespace ArrayStack.Chip8

/-- In `chip8.cc`, `8xyN` leaves the stack depth alone. -/
theorem exec_8_sp_cc (x y n : Nat) (s : Chip8) : (exec_8 x y n s).sp = s.sp := by
  unfold exec_8
  repeat' split
  all_goals rfl

/-- In `chip8.cc`, `FxKK` has a result when its memory subscripts are in range, and
leaves the stack depth alone. -/
theorem exec_F_defined_cc (x kk : Nat) (s : Chip8)
    (h33 : kk = 0x33 → s.index + 2 < MEMORY_SIZE)
    (h55 : kk = 0x55 ∨ kk = 0x65 → ∀ i, i < x + 1 → s.index + i < MEMORY_SIZE) :
    ∃ s', exec_F x kk s = some s' ∧ s'.sp = s.sp := by
  unfold exec_F
  by_cases k07 : kk = 0x07
  · rw [if_pos k07]; exact ⟨_, rfl, rfl⟩
  rw [if_neg k07]
  by_cases k0A : kk = 0x0A
  · rw [if_pos k0A]
    cases (List.range NUM_KEYS).find? (fun i => s.keys i) with
    | none => exact ⟨_, rfl, rfl⟩
    | some i => exact ⟨_, rfl, rfl⟩
  rw [if_neg k0A]
  by_cases k15 : kk = 0x15
  · rw [if_pos k15]; exact ⟨_, rfl, rfl⟩
  rw [if_neg k15]
  by_cases k18 : kk = 0x18
  · rw [if_pos k18]; exact ⟨_, rfl, rfl⟩
  rw [if_neg k18]
  by_cases k1E : kk = 0x1E
  · rw [if_pos k1E]; exact ⟨_, rfl, rfl⟩
  rw [if_neg k1E]
  by_cases k29 : kk = 0x29
  · rw [if_pos k29]; exact ⟨_, rfl, rfl⟩
  rw [if_neg k29]
  by_cases k33 : kk = 0x33
  · rw [if_pos k33, if_pos (h33 k33)]; exact ⟨_, rfl, rfl⟩
  rw [if_neg k33]
  by_cases k55 : kk = 0x55
  · rw [if_pos k55]
    obtain ⟨s', e⟩ := foldlM_range_defined store_reg (fun t => t.index)
      (by
        intro t j t' e
        unfold store_reg at e
        split at e
        · cases e; rfl
        · exact Option.noConfusion e)
      (by
        intro t j hj
        dsimp only at hj
        unfold store_reg
        rw [if_pos hj]
        exact ⟨_, rfl⟩)
      (x + 1) s (h55 (Or.inl k55))
    refine ⟨s', e, ?_⟩
    refine foldlM_invariant (fun t => t.sp = s.sp) store_reg ?_ _ s s' rfl e
    intro t j t' ht e'
    unfold store_reg at e'
    split at e'
    · cases e'; exact ht
    · exact Option.noConfusion e'
  rw [if_neg k55]
  by_cases k65 : kk = 0x65
  · rw [if_pos k65]
    obtain ⟨s', e⟩ := foldlM_range_defined load_reg (fun t => t.index)
      (by
        intro t j t' e
        unfold load_reg at e
        split at e
        · cases e; rfl
        · exact Option.noConfusion e)
      (by
        intro t j hj
        dsimp only at hj
        unfold load_reg
        rw [if_pos hj]
        exact ⟨_, rfl⟩)
      (x + 1) s (h55 (Or.inr k65))
    refine ⟨s', e, ?_⟩
    refine foldlM_invariant (fun t => t.sp = s.sp) load_reg ?_ _ s s' rfl e
    intro t j t' ht e'
    unfold load_reg at e'
    split at e'
    · cases e'; exact ht
    · exact Option.noConfusion e'
  rw [if_neg k65]
  exact ⟨_, rfl, rfl⟩

/-- In `chip8.cc`, outside `Dxyn`, a step whose memory, key and stack subscripts are
in range has a result, with at most 16 return addresses again. -/
theorem step_defined_cc (rnd : Nat) (a : Chip8) (hsp : a.sp ≤ STACK_SIZE)
    (hD : fetch a.memory a.pc &&& 0xF000 ≠ 0xD000)
    (hcall : fetch a.memory a.pc &&& 0xF000 = 0x2000 → a.sp < STACK_SIZE)
    (hret : fetch a.memory a.pc = 0x00EE → 0 < a.sp)
    (hmem : ∀ addr ∈ mem_accesses a.memory a.pc a.index, addr < MEMORY_SIZE)
    (hkey : key_in_range (fetch a.memory a.pc)
      (a.registers ((fetch a.memory a.pc &&& 0x0F00) >>> 8))) :
    ∃ a', execute_instruction rnd a = some a' ∧ a'.sp ≤ STACK_SIZE := by
  have hpc : a.pc + 1 < MEMORY_SIZE := hmem (a.pc + 1) (by simp [mem_accesses])
  unfold execute_instruction
  rw [if_pos hpc]
  unfold mem_accesses at hmem
  rw [if_pos hpc, if_neg hD] at hmem
  unfold key_in_range at hkey
  unfold fetch at hD hcall hret hmem hkey
  dsimp only
  generalize u16 (a.memory a.pc <<< 8 ||| a.memory (a.pc + 1)) = opc at hD hcall hret hmem hkey ⊢
  by_cases c0 : opc &&& 0xF000 = 0x0000
  · rw [if_pos c0]
    by_cases cE0 : opc = 0x00E0
    · rw [if_pos cE0]; exact ⟨_, rfl, hsp⟩
    rw [if_neg cE0]
    by_cases cEE : opc = 0x00EE
    · rw [if_pos cEE]
      obtain ⟨e1, -⟩ := pop_toStd a.stack a.sp (hret cEE) hsp
      have hlt : a.sp - 1 < STACK_SIZE := by
        have := hret cEE
        omega
      rw [e1, if_pos hlt]
      exact ⟨_, rfl, Nat.le_of_lt hlt⟩
    rw [if_neg cEE]
    exact ⟨_, rfl, hsp⟩
  rw [if_neg c0]
  by_cases c1 : opc &&& 0xF000 = 0x1000
  · rw [if_pos c1]; exact ⟨_, rfl, hsp⟩
  rw [if_neg c1]
  by_cases c2 : opc &&& 0xF000 = 0x2000
  · rw [if_pos c2, if_pos (hcall c2)]
    refine ⟨_, rfl, ?_⟩
    have := hcall c2
    simp only [STACK_SIZE] at this ⊢
    show u16 (a.sp + 1) ≤ 16
    unfold u16
    omega
  rw [if_neg c2]
  by_cases c3 : opc &&& 0xF000 = 0x3000
  · rw [if_pos c3]
    split <;> exact ⟨_, rfl, hsp⟩
  rw [if_neg c3]
  by_cases c4 : opc &&& 0xF000 = 0x4000
  · rw [if_pos c4]
    split <;> exact ⟨_, rfl, hsp⟩
  rw [if_neg c4]
  by_cases c5 : opc &&& 0xF000 = 0x5000
  · rw [if_pos c5]
    split <;> exact ⟨_, rfl, hsp⟩
  rw [if_neg c5]
  by_cases c6 : opc &&& 0xF000 = 0x6000
  · rw [if_pos c6]; exact ⟨_, rfl, hsp⟩
  rw [if_neg c6]
  by_cases c7 : opc &&& 0xF000 = 0x7000
  · rw [if_pos c7]; exact ⟨_, rfl, hsp⟩
  rw [if_neg c7]
  by_cases c8 : opc &&& 0xF000 = 0x8000
  · rw [if_pos c8]
    exact ⟨_, rfl, (exec_8_sp_cc _ _ _ _).trans_le hsp⟩
  rw [if_neg c8]
  by_cases c9 : opc &&& 0xF000 = 0x9000
  · rw [if_pos c9]
    split <;> exact ⟨_, rfl, hsp⟩
  rw [if_neg c9]
  by_cases cA : opc &&& 0xF000 = 0xA000
  · rw [if_pos cA]; exact ⟨_, rfl, hsp⟩
  rw [if_neg cA]
  by_cases cB : opc &&& 0xF000 = 0xB000
  · rw [if_pos cB]; exact ⟨_, rfl, hsp⟩
  rw [if_neg cB]
  by_cases cC : opc &&& 0xF000 = 0xC000
  · rw [if_pos cC]; exact ⟨_, rfl, hsp⟩
  rw [if_neg cC, if_neg hD]
  by_cases cE : opc &&& 0xF000 = 0xE000
  · rw [if_pos cE]
    by_cases k9E : opc &&& 0x00FF = 0x9E
    · rw [if_pos k9E, if_pos (hkey cE (Or.inl k9E))]
      split <;> exact ⟨_, rfl, hsp⟩
    rw [if_neg k9E]
    by_cases kA1 : opc &&& 0x00FF = 0xA1
    · rw [if_pos kA1, if_pos (hkey cE (Or.inr kA1))]
      split <;> exact ⟨_, rfl, hsp⟩
    rw [if_neg kA1]
    exact ⟨_, rfl, hsp⟩
  rw [if_neg cE]
  by_cases cF : opc &&& 0xF000 = 0xF000
  · rw [if_pos cF]
    rw [if_pos cF] at hmem
    obtain ⟨s', e, hs'⟩ := exec_F_defined_cc ((opc &&& 0x0F00) >>> 8) (opc &&& 0x00FF)
      { a with pc := u16 (a.pc + 2) }
      (by
        intro k33
        rw [if_pos k33] at hmem
        exact hmem (a.index + 2) (by simp))
      (by
        intro k5 i hi
        have k33 : ¬ opc &&& 0x00FF = 0x33 := by
          rcases k5 with k | k <;> rw [k] <;> decide
        rw [if_neg k33, if_pos k5] at hmem
        exact hmem (a.index + i)
          (List.mem_append_right _ (List.mem_map.2 ⟨i, List.mem_range.2 hi, rfl⟩)))
    exact ⟨s', e, hs'.trans_le hsp⟩
  rw [if_neg cF]
  exact ⟨_, rfl, hsp⟩

end ArrayStack.Chip8

/-- C28 (counterexample): the states with `F255` at `pc = 512`, `V0 .. V3 = 7 .. 10`
and `index = 0xFFF` correspond, and `F255` is no flag or draw instruction, call or
return; its stores go to `memory[4095]`, `memory[4096]`, `memory[4097]`.  Neither
variant checks the subscript, so neither step produces a state. -/
theorem corresponding_step_out_of_range :
    corresponding ArrayStack.Chip8.store_end_example StdStack.Chip8.store_end_example ∧
    fetch ArrayStack.Chip8.store_end_example.memory ArrayStack.Chip8.store_end_example.pc
      = 0xF255 ∧
    ¬ flag_or_draw 0xF255 ∧
    mem_accesses ArrayStack.Chip8.store_end_example.memory
      ArrayStack.Chip8.store_end_example.pc ArrayStack.Chip8.store_end_example.index
      = [512, 513, 4095, 4096, 4097] ∧
    ArrayStack.Chip8.execute_instruction 0 ArrayStack.Chip8.store_end_example = none ∧
    StdStack.Chip8.execute_instruction 0 StdStack.Chip8.store_end_example = none :=
  ⟨⟨rfl, rfl, rfl, rfl, rfl, rfl, rfl, rfl, rfl, by decide, rfl⟩, by decide, by decide,
    by decide, rfl, rfl⟩

/-- C28 (amended): for corresponding states (same memory, registers, index, PC,
timers, keys, framebuffer and draw flag, the same sequence of at most 16 return
addresses) and an opcode other than `8xy4`, `8xy5`, `8xy6`, `8xy7`, `8xyE` and
`Dxyn`, with the call not overflowing and the return not underflowing the stack and
the same random byte: the step of `chip8.cc` is undefined exactly when the step of
`chip8.cpp` is, and when every memory subscript of the step is below 4096 and the
key subscript of `Ex9E`/`ExA1` is below 16, both steps have a result and the
results correspond again. -/
theorem variants_step_alike (rnd : Nat) (a : ArrayStack.Chip8) (b : StdStack.Chip8)
    (hc : corresponding a b)
    (hfd : ¬ flag_or_draw (fetch a.memory a.pc))
    (hcall : fetch a.memory a.pc &&& 0xF000 = 0x2000 → a.sp < STACK_SIZE)
    (hret : fetch a.memory a.pc = 0x00EE → 0 < a.sp) :
    (ArrayStack.Chip8.execute_instruction rnd a = none ↔
      StdStack.Chip8.execute_instruction rnd b = none) ∧
    ((∀ addr ∈ mem_accesses a.memory a.pc a.index, addr < MEMORY_SIZE) →
      key_in_range (fetch a.memory a.pc)
        (a.registers ((fetch a.memory a.pc &&& 0x0F00) >>> 8)) →
      ∃ a' b', ArrayStack.Chip8.execute_instruction rnd a = some a' ∧
        StdStack.Chip8.execute_instruction rnd b = some b' ∧ corresponding a' b') := by
  obtain ⟨hsp, rfl⟩ := (corresponding_iff a b).1 hc
  have sim := step_toStd rnd a hsp hfd hcall hret
  constructor
  · rw [sim]
    cases ArrayStack.Chip8.execute_instruction rnd a <;> simp
  · intro hmem hkey
    obtain ⟨a', e, hsp'⟩ := ArrayStack.Chip8.step_defined_cc rnd a hsp
      (fun h => hfd (Or.inr h)) hcall hret hmem hkey
    refine ⟨a', a'.toStd, e, ?_, (corresponding_iff a' a'.toStd).2 ⟨hsp', rfl⟩⟩
    rw [sim, e]
    rfl

/-- Instance of `variants_step_alike` at the two `call_example` states (`2300` at
`pc = 512`, return addresses `0x250`, `0x260` on the stack): both calls have a
result, and the results correspond. -/
theorem variants_step_alike_witness :
    corresponding ArrayStack.Chip8.call_example StdStack.Chip8.call_example ∧
    fetch ArrayStack.Chip8.call_example.memory ArrayStack.Chip8.call_example.pc = 0x2300 ∧
    ¬ flag_or_draw 0x2300 ∧
    ArrayStack.Chip8.call_example.sp < STACK_SIZE ∧
    ∃ a' b', ArrayStack.Chip8.execute_instruction 0 ArrayStack.Chip8.call_example = some a' ∧
      StdStack.Chip8.execute_instruction 0 StdStack.Chip8.call_example = some b' ∧
      corresponding a' b' :=
  ⟨⟨rfl, rfl, rfl, rfl, rfl, rfl, rfl, rfl, rfl, by decide, rfl⟩, by decide, by decide,
    by decide,
    (variants_step_alike 0 ArrayStack.Chip8.call_example StdStack.Chip8.call_example
      ⟨rfl, rfl, rfl, rfl, rfl, rfl, rfl, rfl, rfl, by decide, rfl⟩
      (by decide) (fun _ => by decide) (fun _ => by decide)).2 (by decide) (by decide)⟩

/-! ## Steps with every subscript in range -/

namespace ArrayStack.Chip8

/-- In `chip8.cc`, one iteration of the inner drawing loop has a result when its
framebuffer subscript, if it performs one, is in range. -/
theorem draw_bit_defined_cc (x y pixel i : Nat) (s : Chip8) (j : Nat)
    (h : pixel &&& (0x80 >>> j) ≠ 0 → pos (s.registers x) (s.registers y) i j < DISPLAY_SIZE) :
    ∃ s', draw_bit x y pixel i s j = some s' := by
  unfold draw_bit
  by_cases hb : pixel &&& (0x80 >>> j) ≠ 0
  · rw [if_pos hb]
    dsimp only
    have hc := h hb
    unfold pos at hc
    rw [if_pos hc]
    exact ⟨_, rfl⟩
  · rw [if_neg hb]
    exact ⟨_, rfl⟩

/-- In `chip8.cc`, the inner drawing loop has a result when its framebuffer
subscripts are in range. -/
theorem row_defined_cc (x y pixel i : Nat) : ∀ (js : List Nat) (s : Chip8),
    (∀ c ∈ row_targets x y pixel i js s, c < DISPLAY_SIZE) →
    ∃ s', js.foldlM (draw_bit x y pixel i) s = some s' := by
  intro js
  induction js with
  | nil =>
    intro s _
    exact ⟨s, rfl⟩
  | cons j js ih =>
    intro s h
    obtain ⟨s1, e1⟩ := draw_bit_defined_cc x y pixel i s j (by
      intro hb
      apply h
      simp only [row_targets, if_pos hb]
      exact List.mem_append_left _ (List.mem_singleton.2 rfl))
    have h2 : ∀ c ∈ row_targets x y pixel i js s1, c < DISPLAY_SIZE := by
      intro c hc
      apply h
      simp only [row_targets, e1]
      exact List.mem_append_right _ hc
    obtain ⟨s2, e2⟩ := ih s1 h2
    refine ⟨s2, ?_⟩
    rw [List.foldlM_cons, e1]
    exact e2

/-- In `chip8.cc`, one sprite row of `Dxyn` leaves `index` alone. -/
theorem draw_row_index_cc (x y : Nat) (s : Chip8) (i : Nat) (s' : Chip8)
    (e : draw_row x y s i = some s') : s'.index = s.index := by
  unfold draw_row at e
  split at e
  · exact foldlM_invariant (fun u => u.index = s.index) (draw_bit _ _ _ _)
      (fun u k u' hu e' => (draw_bit_index_cc _ _ _ _ u k u' e').trans hu)
      (List.range 8) s s' rfl e
  · exact Option.noConfusion e

/-- In `chip8.cc`, the drawing loop over the sprite rows has a result when the rows
are inside `memory` and the framebuffer subscripts are in range. -/
theorem rows_defined_cc (x y : Nat) : ∀ (rows : List Nat) (s : Chip8),
    (∀ i ∈ rows, s.index + i < MEMORY_SIZE) →
    (∀ c ∈ rows_targets x y rows s, c < DISPLAY_SIZE) →
    ∃ s', rows.foldlM (draw_row x y) s = some s' := by
  intro rows
  induction rows with
  | nil =>
    intro s _ _
    exact ⟨s, rfl⟩
  | cons i rows ih =>
    intro s hr ht
    have hrow : ∃ s1, draw_row x y s i = some s1 := by
      unfold draw_row
      rw [if_pos (hr i (List.mem_cons_self _ _))]
      refine row_defined_cc x y _ i (List.range 8) s (fun c hc => ht c ?_)
      simp only [rows_targets]
      exact List.mem_append_left _ hc
    obtain ⟨s1, e1⟩ := hrow
    have hi : s1.index = s.index := draw_row_index_cc x y s i s1 e1
    obtain ⟨s2, e2⟩ := ih s1
      (fun k hk => by rw [hi]; exact hr k (List.mem_cons_of_mem _ hk))
      (fun c hc => ht c (by
        simp only [rows_targets, e1]
        exact List.mem_append_right _ hc))
    refine ⟨s2, ?_⟩
    rw [List.foldlM_cons, e1]
    exact e2

/-- In `chip8.cc`, a step all of whose array subscripts are in range has a
result. -/
theorem step_in_range_defined_cc (rnd : Nat) (s : Chip8) (h : subscripts_in_range s) :
    ∃ s', execute_instruction rnd s = some s' := by
  obtain ⟨hmem, hkey, hcall, hret, hdraw⟩ := h
  have hpc : s.pc + 1 < MEMORY_SIZE := hmem (s.pc + 1) (by simp [mem_accesses])
  unfold execute_instruction
  rw [if_pos hpc]
  unfold mem_accesses at hmem
  rw [if_pos hpc] at hmem
  unfold key_in_range at hkey
  unfold draw_targets at hdraw
  unfold fetch at hmem hkey hcall hret hdraw
  dsimp only
  generalize u16 (s.memory s.pc <<< 8 ||| s.memory (s.pc + 1)) = opc
    at hmem hkey hcall hret hdraw ⊢
  by_cases c0 : opc &&& 0xF000 = 0x0000
  · rw [if_pos c0]
    by_cases cE0 : opc = 0x00E0
    · rw [if_pos cE0]; exact ⟨_, rfl⟩
    rw [if_neg cE0]
    by_cases cEE : opc = 0x00EE
    · rw [if_pos cEE]
      rw [if_pos (hret cEE)]
      exact ⟨_, rfl⟩
    rw [if_neg cEE]
    exact ⟨_, rfl⟩
  rw [if_neg c0]
  by_cases c1 : opc &&& 0xF000 = 0x1000
  · rw [if_pos c1]; exact ⟨_, rfl⟩
  rw [if_neg c1]
  by_cases c2 : opc &&& 0xF000 = 0x2000
  · rw [if_pos c2]
    rw [if_pos (hcall c2)]
    exact ⟨_, rfl⟩
  rw [if_neg c2]
  by_cases c3 : opc &&& 0xF000 = 0x3000
  · rw [if_pos c3]
    split <;> exact ⟨_, rfl⟩
  rw [if_neg c3]
  by_cases c4 : opc &&& 0xF000 = 0x4000
  · rw [if_pos c4]
    split <;> exact ⟨_, rfl⟩
  rw [if_neg c4]
  by_cases c5 : opc &&& 0xF000 = 0x5000
  · rw [if_pos c5]
    split <;> exact ⟨_, rfl⟩
  rw [if_neg c5]
  by_cases c6 : opc &&& 0xF000 = 0x6000
  · rw [if_pos c6]; exact ⟨_, rfl⟩
  rw [if_neg c6]
  by_cases c7 : opc &&& 0xF000 = 0x7000
  · rw [if_pos c7]; exact ⟨_, rfl⟩
  rw [if_neg c7]
  by_cases c8 : opc &&& 0xF000 = 0x8000
  · rw [if_pos c8]; exact ⟨_, rfl⟩
  rw [if_neg c8]
  by_cases c9 : opc &&& 0xF000 = 0x9000
  · rw [if_pos c9]
    split <;> exact ⟨_, rfl⟩
  rw [if_neg c9]
  by_cases cA : opc &&& 0xF000 = 0xA000
  · rw [if_pos cA]; exact ⟨_, rfl⟩
  rw [if_neg cA]
  by_cases cB : opc &&& 0xF000 = 0xB000
  · rw [if_pos cB]; exact ⟨_, rfl⟩
  rw [if_neg cB]
  by_cases cC : opc &&& 0xF000 = 0xC000
  · rw [if_pos cC]; exact ⟨_, rfl⟩
  rw [if_neg cC]
  by_cases cD : opc &&& 0xF000 = 0xD000
  · rw [if_pos cD]
    rw [if_pos cD] at hmem hdraw
    have hrows : ∀ i ∈ List.range (opc &&& 0x000F), s.index + i < MEMORY_SIZE :=
      fun i hi => hmem (s.index + i)
        (List.mem_append_right _ (List.mem_map.2 ⟨i, hi, rfl⟩))
    obtain ⟨s2, e2⟩ := rows_defined_cc _ _ _
      { s with pc := u16 (s.pc + 2), registers := aset s.registers 0xF 0 } hrows hdraw
    rw [e2]
    exact ⟨_, rfl⟩
  rw [if_neg cD]
  rw [if_neg cD] at hmem
  by_cases cE : opc &&& 0xF000 = 0xE000
  · rw [if_pos cE]
    by_cases k9E : opc &&& 0x00FF = 0x9E
    · rw [if_pos k9E, if_pos (hkey cE (Or.inl k9E))]
      split <;> exact ⟨_, rfl⟩
    rw [if_neg k9E]
    by_cases kA1 : opc &&& 0x00FF = 0xA1
    · rw [if_pos kA1, if_pos (hkey cE (Or.inr kA1))]
      split <;> exact ⟨_, rfl⟩
    rw [if_neg kA1]
    exact ⟨_, rfl⟩
  rw [if_neg cE]
  by_cases cF : opc &&& 0xF000 = 0xF000
  · rw [if_pos cF]
    rw [if_pos cF] at hmem
    obtain ⟨s', e, -⟩ := exec_F_defined_cc ((opc &&& 0x0F00) >>> 8) (opc &&& 0x00FF)
      { s with pc := u16 (s.pc + 2) }
      (by
        intro k33
        rw [if_pos k33] at hmem
        exact hmem (s.index + 2) (by simp))
      (by
        intro k5 i hi
        have k33 : ¬ opc &&& 0x00FF = 0x33 := by
          rcases k5 with k | k <;> rw [k] <;> decide
        rw [if_neg k33, if_pos k5] at hmem
        exact hmem (s.index + i)
          (List.mem_append_right _ (List.mem_map.2 ⟨i, List.mem_range.2 hi, rfl⟩)))
    exact ⟨s', e⟩
  rw [if_neg cF]
  exact ⟨_, rfl⟩

end ArrayStack.Chip8

namespace StdStack.Chip8

/-- In `chip8.cpp`, one iteration of the inner drawing loop has a result when its
framebuffer subscript, if it performs one, is in range. -/
theorem draw_bit_defined_cpp (x_pos y_pos pixel i : Nat) (s : Chip8) (j : Nat)
    (h : pixel &&& (0x80 >>> j) ≠ 0 → coord x_pos y_pos i j < DISPLAY_SIZE) :
    ∃ s', draw_bit x_pos y_pos pixel i s j = some s' := by
  unfold draw_bit
  by_cases hb : pixel &&& (0x80 >>> j) ≠ 0
  · rw [if_pos hb]
    dsimp only
    have hc := h hb
    rw [if_pos hc]
    exact ⟨_, rfl⟩
  · rw [if_neg hb]
    exact ⟨_, rfl⟩

/-- In `chip8.cpp`, the inner drawing loop has a result when its framebuffer
subscripts are in range. -/
theorem row_defined_cpp (x_pos y_pos pixel i : Nat) : ∀ (js : List Nat) (s : Chip8),
    (∀ c ∈ row_targets x_pos y_pos pixel i js s, c < DISPLAY_SIZE) →
    ∃ s', js.foldlM (draw_bit x_pos y_pos pixel i) s = some s' := by
  intro js
  induction js with
  | nil =>
    intro s _
    exact ⟨s, rfl⟩
  | cons j js ih =>
    intro s h
    obtain ⟨s1, e1⟩ := draw_bit_defined_cpp x_pos y_pos pixel i s j (by
      intro hb
      apply h
      simp only [row_targets, if_pos hb]
      exact List.mem_append_left _ (List.mem_singleton.2 rfl))
    have h2 : ∀ c ∈ row_targets x_pos y_pos pixel i js s1, c < DISPLAY_SIZE := by
      intro c hc
      apply h
      simp only [row_targets, e1]
      exact List.mem_append_right _ hc
    obtain ⟨s2, e2⟩ := ih s1 h2
    refine ⟨s2, ?_⟩
    rw [List.foldlM_cons, e1]
    exact e2

/-- In `chip8.cpp`, one sprite row of `Dxyn` leaves `index` alone. -/
theorem draw_row_index_cpp (x_pos y_pos : Nat) (s : Chip8) (i : Nat) (s' : Chip8)
    (e : draw_row x_pos y_pos s i = some s') : s'.index = s.index := by
  unfold draw_row at e
  split at e
  · exact foldlM_invariant (fun u => u.index = s.index) (draw_bit _ _ _ _)
      (fun u k u' hu e' => (draw_bit_index_cpp _ _ _ _ u k u' e').trans hu)
      (List.range 8) s s' rfl e
  · exact Option.noConfusion e

/-- In `chip8.cpp`, the drawing loop over the sprite rows has a result when the rows
are inside `memory` and the framebuffer subscripts are in range. -/
theorem rows_defined_cpp (x_pos y_pos : Nat) : ∀ (rows : List Nat) (s : Chip8),
    (∀ i ∈ rows, s.index + i < MEMORY_SIZE) →
    (∀ c ∈ rows_targets x_pos y_pos rows s, c < DISPLAY_SIZE) →
    ∃ s', rows.foldlM (draw_row x_pos y_pos) s = some s' := by
  intro rows
  induction rows with
  | nil =>
    intro s _ _
    exact ⟨s, rfl⟩
  | cons i rows ih =>
    intro s hr ht
    have hrow : ∃ s1, draw_row x_pos y_pos s i = some s1 := by
      unfold draw_row
      rw [if_pos (hr i (List.mem_cons_self _ _))]
      refine row_defined_cpp x_pos y_pos _ i (List.range 8) s (fun c hc => ht c ?_)
      simp only [rows_targets]
      exact List.mem_append_left _ hc
    obtain ⟨s1, e1⟩ := hrow
    have hi : s1.index = s.index := draw_row_index_cpp x_pos y_pos s i s1 e1
    obtain ⟨s2, e2⟩ := ih s1
      (fun k hk => by rw [hi]; exact hr k (List.mem_cons_of_mem _ hk))
      (fun c hc => ht c (by
        simp only [rows_targets, e1]
        exact List.mem_append_right _ hc))
    refine ⟨s2, ?_⟩
    rw [List.foldlM_cons, e1]
    exact e2

/-- In `chip8.cpp`, `FxKK` has a result when its memory subscripts are in range. -/
theorem exec_F_defined_cpp (x kk : Nat) (s : Chip8)
    (h33 : kk = 0x33 → s.index + 2 < MEMORY_SIZE)
    (h55 : kk = 0x55 ∨ kk = 0x65 → ∀ i, i < x + 1 → s.index + i < MEMORY_SIZE) :
    ∃ s', exec_F x kk s = some s' := by
  unfold exec_F
  by_cases k07 : kk = 0x07
  · rw [if_pos k07]; exact ⟨_, rfl⟩
  rw [if_neg k07]
  by_cases k0A : kk = 0x0A
  · rw [if_pos k0A]
    cases (List.range NUM_KEYS).find? (fun i => s.keys i) with
    | none => exact ⟨_, rfl⟩
    | some i => exact ⟨_, rfl⟩
  rw [if_neg k0A]
  by_cases k15 : kk = 0x15
  · rw [if_pos k15]; exact ⟨_, rfl⟩
  rw [if_neg k15]
  by_cases k18 : kk = 0x18
  · rw [if_pos k18]; exact ⟨_, rfl⟩
  rw [if_neg k18]
  by_cases k1E : kk = 0x1E
  · rw [if_pos k1E]; exact ⟨_, rfl⟩
  rw [if_neg k1E]
  by_cases k29 : kk = 0x29
  · rw [if_pos k29]; exact ⟨_, rfl⟩
  rw [if_neg k29]
  by_cases k33 : kk = 0x33
  · rw [if_pos k33, if_pos (h33 k33)]; exact ⟨_, rfl⟩
  rw [if_neg k33]
  by_cases k55 : kk = 0x55
  · rw [if_pos k55]
    exact foldlM_range_defined store_reg (fun t => t.index)
      (by
        intro t j t' e
        unfold store_reg at e
        split at e
        · cases e; rfl
        · exact Option.noConfusion e)
      (by
        intro t j hj
        dsimp only at hj
        unfold store_reg
        rw [if_pos hj]
        exact ⟨_, rfl⟩)
      (x + 1) s (h55 (Or.inl k55))
  rw [if_neg k55]
  by_cases k65 : kk = 0x65
  · rw [if_pos k65]
    exact foldlM_range_defined load_reg (fun t => t.index)
      (by
        intro t j t' e
        unfold load_reg at e
        split at e
        · cases e; rfl
        · exact Option.noConfusion e)
      (by
        intro t j hj
        dsimp only at hj
        unfold load_reg
        rw [if_pos hj]
        exact ⟨_, rfl⟩)
      (x + 1) s (h55 (Or.inr k65))
  rw [if_neg k65]
  exact ⟨_, rfl⟩

/-- In `chip8.cpp`, a step all of whose array subscripts are in range has a
result. -/
theorem step_in_range_defined_cpp (rnd : Nat) (s : Chip8) (h : subscripts_in_range s) :
    ∃ s', execute_instruction rnd s = some s' := by
  obtain ⟨hmem, hkey, hret, hdraw⟩ := h
  have hpc : s.pc + 1 < MEMORY_SIZE := hmem (s.pc + 1) (by simp [mem_accesses])
  unfold execute_instruction
  rw [if_pos hpc]
  unfold mem_accesses at hmem
  rw [if_pos hpc] at hmem
  unfold key_in_range at hkey
  unfold draw_targets at hdraw
  unfold fetch at hmem hkey hret hdraw
  dsimp only
  generalize u16 (s.memory s.pc <<< 8 ||| s.memory (s.pc + 1)) = opc
    at hmem hkey hret hdraw ⊢
  by_cases c0 : opc &&& 0xF000 = 0x0000
  · rw [if_pos c0]
    by_cases cE0 : opc = 0x00E0
    · rw [if_pos cE0]; exact ⟨_, rfl⟩
    rw [if_neg cE0]
    by_cases cEE : opc = 0x00EE
    · rw [if_pos cEE]
      cases hs : s.stack with
      | nil => exact absurd hs (hret cEE)
      | cons top rest => exact ⟨_, rfl⟩
    rw [if_neg cEE]
    exact ⟨_, rfl⟩
  rw [if_neg c0]
  by_cases c1 : opc &&& 0xF000 = 0x1000
  · rw [if_pos c1]; exact ⟨_, rfl⟩
  rw [if_neg c1]
  by_cases c2 : opc &&& 0xF000 = 0x2000
  · rw [if_pos c2]
    exact ⟨_, rfl⟩
  rw [if_neg c2]
  by_cases c3 : opc &&& 0xF000 = 0x3000
  · rw [if_pos c3]
    split <;> exact ⟨_, rfl⟩
  rw [if_neg c3]
  by_cases c4 : opc &&& 0xF000 = 0x4000
  · rw [if_pos c4]
    split <;> exact ⟨_, rfl⟩
  rw [if_neg c4]
  by_cases c5 : opc &&& 0xF000 = 0x5000
  · rw [if_pos c5]
    split <;> exact ⟨_, rfl⟩
  rw [if_neg c5]
  by_cases c6 : opc &&& 0xF000 = 0x6000
  · rw [if_pos c6]; exact ⟨_, rfl⟩
  rw [if_neg c6]
  by_cases c7 : opc &&& 0xF000 = 0x7000
  · rw [if_pos c7]; exact ⟨_, rfl⟩
  rw [if_neg c7]
  by_cases c8 : opc &&& 0xF000 = 0x8000
  · rw [if_pos c8]; exact ⟨_, rfl⟩
  rw [if_neg c8]
  by_cases c9 : opc &&& 0xF000 = 0x9000
  · rw [if_pos c9]
    split <;> exact ⟨_, rfl⟩
  rw [if_neg c9]
  by_cases cA : opc &&& 0xF000 = 0xA000
  · rw [if_pos cA]; exact ⟨_, rfl⟩
  rw [if_neg cA]
  by_cases cB : opc &&& 0xF000 = 0xB000
  · rw [if_pos cB]; exact ⟨_, rfl⟩
  rw [if_neg cB]
  by_cases cC : opc &&& 0xF000 = 0xC000
  · rw [if_pos cC]; exact ⟨_, rfl⟩
  rw [if_neg cC]
  by_cases cD : opc &&& 0xF000 = 0xD000
  · rw [if_pos cD]
    rw [if_pos cD] at hmem hdraw
    have hrows : ∀ i ∈ List.range (opc &&& 0x000F), s.index + i < MEMORY_SIZE :=
      fun i hi => hmem (s.index + i)
        (List.mem_append_right _ (List.mem_map.2 ⟨i, hi, rfl⟩))
    obtain ⟨s2, e2⟩ := rows_defined_cpp _ _ _
      { s with pc := u16 (s.pc + 2), registers := aset s.registers 0xF 0 } hrows hdraw
    rw [e2]
    exact ⟨_, rfl⟩
  rw [if_neg cD]
  rw [if_neg cD] at hmem
  by_cases cE : opc &&& 0xF000 = 0xE000
  · rw [if_pos cE]
    by_cases k9E : opc &&& 0x00FF = 0x9E
    · rw [if_pos k9E, if_pos (hkey cE (Or.inl k9E))]
      split <;> exact ⟨_, rfl⟩
    rw [if_neg k9E]
    by_cases kA1 : opc &&& 0x00FF = 0xA1
    · rw [if_pos kA1, if_pos (hkey cE (Or.inr kA1))]
      split <;> exact ⟨_, rfl⟩
    rw [if_neg kA1]
    exact ⟨_, rfl⟩
  rw [if_neg cE]
  by_cases cF : opc &&& 0xF000 = 0xF000
  · rw [if_pos cF]
    rw [if_pos cF] at hmem
    obtain ⟨s', e⟩ := exec_F_defined_cpp ((opc &&& 0x0F00) >>> 8) (opc &&& 0x00FF)
      { s with pc := u16 (s.pc + 2) }
      (by
        intro k33
        rw [if_pos k33] at hmem
        exact hmem (s.index + 2) (by simp))
      (by
        intro k5 i hi
        have k33 : ¬ opc &&& 0x00FF = 0x33 := by
          rcases k5 with k | k <;> rw [k] <;> decide
        rw [if_neg k33, if_pos k5] at hmem
        exact hmem (s.index + i)
          (List.mem_append_right _ (List.mem_map.2 ⟨i, List.mem_range.2 hi, rfl⟩)))
    exact ⟨s', e⟩
  rw [if_neg cF]
  exact ⟨_, rfl⟩

end StdStack.Chip8

namespace ArrayStack.Chip8

/-- In `chip8.cc`, an iteration of the inner drawing loop that has a result performed
its framebuffer subscript, if any, in range. -/
theorem draw_bit_target_cc (x y pixel i : Nat) (s : Chip8) (j : Nat) (s' : Chip8)
    (e : draw_bit x y pixel i s j = some s') (hb : pixel &&& (0x80 >>> j) ≠ 0) :
    pos (s.registers x) (s.registers y) i j < DISPLAY_SIZE := by
  unfold draw_bit at e
  rw [if_pos hb] at e
  dsimp only at e
  by_contra hlt
  unfold pos at hlt
  rw [if_neg hlt] at e
  exact Option.noConfusion e

/-- In `chip8.cc`, an inner drawing loop that has a result performed all its
framebuffer subscripts in range. -/
theorem row_targets_in_range_cc (x y pixel i : Nat) : ∀ (js : List Nat) (s s' : Chip8),
    js.foldlM (draw_bit x y pixel i) s = some s' →
    ∀ c ∈ row_targets x y pixel i js s, c < DISPLAY_SIZE := by
  intro js
  induction js with
  | nil =>
    intro s s' _ c hc
    simp [row_targets] at hc
  | cons j js ih =>
    intro s s' h c hc
    rw [List.foldlM_cons] at h
    cases e1 : draw_bit x y pixel i s j with
    | none =>
      rw [e1] at h
      exact Option.noConfusion h
    | some s1 =>
      rw [e1] at h
      simp only [row_targets, e1] at hc
      rcases List.mem_append.1 hc with hc | hc
      · by_cases hb : pixel &&& (0x80 >>> j) ≠ 0
        · rw [if_pos hb] at hc
          rw [List.mem_singleton.1 hc]
          exact draw_bit_target_cc x y pixel i s j s1 e1 hb
        · rw [if_neg hb] at hc
          exact absurd hc (List.not_mem_nil c)
      · exact ih s1 s' h c hc

/-- In `chip8.cc`, a drawing loop that has a result performed all its framebuffer
subscripts in range. -/
theorem rows_targets_in_range_cc (x y : Nat) : ∀ (rows : List Nat) (s s' : Chip8),
    rows.foldlM (draw_row x y) s = some s' →
    ∀ c ∈ rows_targets x y rows s, c < DISPLAY_SIZE := by
  intro rows
  induction rows with
  | nil =>
    intro s s' _ c hc
    simp [rows_targets] at hc
  | cons i rows ih =>
    intro s s' h c hc
    rw [List.foldlM_cons] at h
    cases e1 : draw_row x y s i with
    | none =>
      rw [e1] at h
      exact Option.noConfusion h
    | some s1 =>
      rw [e1] at h
      simp only [rows_targets, e1] at hc
      rcases List.mem_append.1 hc with hc | hc
      · have e2 := e1
        unfold draw_row at e2
        split at e2
        · exact row_targets_in_range_cc x y _ i (List.range 8) s s1 e2 c hc
        · exact Option.noConfusion e2
      · exact ih s1 s' h c hc

/-- In `chip8.cc`, a step with `Dxyn` at `pc` is the drawing loop on the state after
the fetch with `VF` cleared, followed by setting the draw flag. -/
theorem step_draw_cc (rnd : Nat) (s : Chip8) (hpc : s.pc + 1 < MEMORY_SIZE)
    (hD : fetch s.memory s.pc &&& 0xF000 = 0xD000) :
    execute_instruction rnd s =
      ((List.range (fetch s.memory s.pc &&& 0x000F)).foldlM
        (draw_row ((fetch s.memory s.pc &&& 0x0F00) >>> 8)
          ((fetch s.memory s.pc &&& 0x00F0) >>> 4))
        { s with pc := u16 (s.pc + 2), registers := aset s.registers 0xF 0 }).map
        (fun s2 => { s2 with draw_flag := true }) := by
  unfold execute_instruction
  rw [if_pos hpc]
  unfold fetch at hD ⊢
  dsimp only
  generalize u16 (s.memory s.pc <<< 8 ||| s.memory (s.pc + 1)) = opc at hD ⊢
  simp only [hD]
  simp only [show ¬ ((0xD000 : Nat) = 0x0000) by decide,
    show ¬ ((0xD000 : Nat) = 0x1000) by decide, show ¬ ((0xD000 : Nat) = 0x2000) by decide,
    show ¬ ((0xD000 : Nat) = 0x3000) by decide, show ¬ ((0xD000 : Nat) = 0x4000) by decide,
    show ¬ ((0xD000 : Nat) = 0x5000) by decide, show ¬ ((0xD000 : Nat) = 0x6000) by decide,
    show ¬ ((0xD000 : Nat) = 0x7000) by decide, show ¬ ((0xD000 : Nat) = 0x8000) by decide,
    show ¬ ((0xD000 : Nat) = 0x9000) by decide, show ¬ ((0xD000 : Nat) = 0xA000) by decide,
    show ¬ ((0xD000 : Nat) = 0xB000) by decide, show ¬ ((0xD000 : Nat) = 0xC000) by decide,
    if_false, if_true]

/-- In `chip8.cc`, a step that has a result performed all its framebuffer subscripts
in range. -/
theorem step_targets_in_range_cc (rnd : Nat) (s s' : Chip8)
    (h : execute_instruction rnd s = some s') : ∀ c ∈ draw_targets s, c < DISPLAY_SIZE := by
  intro c hc
  unfold draw_targets at hc
  by_cases hD : fetch s.memory s.pc &&& 0xF000 = 0xD000
  · rw [if_pos hD] at hc
    have hpc : s.pc + 1 < MEMORY_SIZE := by
      by_contra hn
      unfold execute_instruction at h
      rw [if_neg hn] at h
      exact Option.noConfusion h
    rw [step_draw_cc rnd s hpc hD] at h
    cases e : (List.range (fetch s.memory s.pc &&& 0x000F)).foldlM
        (draw_row ((fetch s.memory s.pc &&& 0x0F00) >>> 8)
          ((fetch s.memory s.pc &&& 0x00F0) >>> 4))
        { s with pc := u16 (s.pc + 2), registers := aset s.registers 0xF 0 } with
    | none =>
      rw [e] at h
      exact Option.noConfusion h
    | some s2 => exact rows_targets_in_range_cc _ _ _ _ s2 e c hc
  · rw [if_neg hD] at hc
    exact absurd hc (List.not_mem_nil c)

/-- In `chip8.cc`, a step that has a result performed its key subscript in range. -/
theorem step_key_in_range_cc (rnd : Nat) (s s' : Chip8)
    (h : execute_instruction rnd s = some s') :
    key_in_range (fetch s.memory s.pc)
      (s.registers ((fetch s.memory s.pc &&& 0x0F00) >>> 8)) := by
  intro cE hk
  by_contra hlt
  unfold execute_instruction at h
  by_cases hpc : s.pc + 1 < MEMORY_SIZE
  swap
  · rw [if_neg hpc] at h
    exact Option.noConfusion h
  rw [if_pos hpc] at h
  unfold fetch at cE hk hlt
  dsimp only at h
  generalize u16 (s.memory s.pc <<< 8 ||| s.memory (s.pc + 1)) = opc at cE hk hlt h
  simp only [cE] at h
  simp only [show ¬ ((0xE000 : Nat) = 0x0000) by decide,
    show ¬ ((0xE000 : Nat) = 0x1000) by decide, show ¬ ((0xE000 : Nat) = 0x2000) by decide,
    show ¬ ((0xE000 : Nat) = 0x3000) by decide, show ¬ ((0xE000 : Nat) = 0x4000) by decide,
    show ¬ ((0xE000 : Nat) = 0x5000) by decide, show ¬ ((0xE000 : Nat) = 0x6000) by decide,
    show ¬ ((0xE000 : Nat) = 0x7000) by decide, show ¬ ((0xE000 : Nat) = 0x8000) by decide,
    show ¬ ((0xE000 : Nat) = 0x9000) by decide, show ¬ ((0xE000 : Nat) = 0xA000) by decide,
    show ¬ ((0xE000 : Nat) = 0xB000) by decide, show ¬ ((0xE000 : Nat) = 0xC000) by decide,
    show ¬ ((0xE000 : Nat) = 0xD000) by decide, if_false, if_true] at h
  rcases hk with k | k
  · simp only [k, if_true] at h
    rw [if_neg hlt] at h
    exact Option.noConfusion h
  · simp only [k, show ¬ ((0xA1 : Nat) = 0x9E) by decide, if_false, if_true] at h
    rw [if_neg hlt] at h
    exact Option.noConfusion h

/-- In `chip8.cc`, a call that has a result performed its stack subscript in
range. -/
theorem step_call_in_range_cc (rnd : Nat) (s s' : Chip8)
    (h : execute_instruction rnd s = some s')
    (c2 : fetch s.memory s.pc &&& 0xF000 = 0x2000) : s.sp < STACK_SIZE := by
  by_contra hlt
  unfold execute_instruction at h
  by_cases hpc : s.pc + 1 < MEMORY_SIZE
  swap
  · rw [if_neg hpc] at h
    exact Option.noConfusion h
  rw [if_pos hpc] at h
  unfold fetch at c2
  dsimp only at h
  generalize u16 (s.memory s.pc <<< 8 ||| s.memory (s.pc + 1)) = opc at c2 h
  simp only [c2] at h
  simp only [show ¬ ((0x2000 : Nat) = 0x0000) by decide,
    show ¬ ((0x2000 : Nat) = 0x1000) by decide, if_false, if_true] at h
  rw [if_neg hlt] at h
  exact Option.noConfusion h

/-- In `chip8.cc`, a return that has a result performed its stack subscript in
range. -/
theorem step_ret_in_range_cc (rnd : Nat) (s s' : Chip8)
    (h : execute_instruction rnd s = some s')
    (cEE : fetch s.memory s.pc = 0x00EE) : u16i ((s.sp : Int) - 1) < STACK_SIZE := by
  by_contra hlt
  unfold execute_instruction at h
  by_cases hpc : s.pc + 1 < MEMORY_SIZE
  swap
  · rw [if_neg hpc] at h
    exact Option.noConfusion h
  rw [if_pos hpc] at h
  unfold fetch at cEE
  dsimp only at h
  generalize u16 (s.memory s.pc <<< 8 ||| s.memory (s.pc + 1)) = opc at cEE h
  subst cEE
  simp only [show (0x00EE : Nat) &&& 0xF000 = 0 by decide,
    show ¬ ((0x00EE : Nat) = 0x00E0) by decide, if_false, if_true] at h
  rw [if_neg hlt] at h
  exact Option.noConfusion h

/-- In `chip8.cc`, a step has a result exactly when all its array subscripts are in
range. -/
theorem step_defined_iff_cc (rnd : Nat) (s : Chip8) :
    (∃ s', execute_instruction rnd s = some s') ↔ subscripts_in_range s := by
  constructor
  · rintro ⟨s', h⟩
    refine ⟨?_, step_key_in_range_cc rnd s s' h, step_call_in_range_cc rnd s s' h,
      step_ret_in_range_cc rnd s s' h,
      step_targets_in_range_cc rnd s s' h⟩
    intro a ha
    by_contra hge
    have hn := mem_oob_undefined_cc rnd s ⟨a, ha, Nat.le_of_not_lt hge⟩
    rw [hn] at h
    exact Option.noConfusion h
  · exact step_in_range_defined_cc rnd s

end ArrayStack.Chip8

namespace StdStack.Chip8

/-- In `chip8.cpp`, an iteration of the inner drawing loop that has a result performed
its framebuffer subscript, if any, in range. -/
theorem draw_bit_target_cpp (x_pos y_pos pixel i : Nat) (s : Chip8) (j : Nat) (s' : Chip8)
    (e : draw_bit x_pos y_pos pixel i s j = some s') (hb : pixel &&& (0x80 >>> j) ≠ 0) :
    coord x_pos y_pos i j < DISPLAY_SIZE := by
  unfold draw_bit at e
  rw [if_pos hb] at e
  dsimp only at e
  by_contra hlt
  rw [if_neg hlt] at e
  exact Option.noConfusion e

/-- In `chip8.cpp`, an inner drawing loop that has a result performed all its
framebuffer subscripts in range. -/
theorem row_targets_in_range_cpp (x_pos y_pos pixel i : Nat) : ∀ (js : List Nat) (s s' : Chip8),
    js.foldlM (draw_bit x_pos y_pos pixel i) s = some s' →
    ∀ c ∈ row_targets x_pos y_pos pixel i js s, c < DISPLAY_SIZE := by
  intro js
  induction js with
  | nil =>
    intro s s' _ c hc
    simp [row_targets] at hc
  | cons j js ih =>
    intro s s' h c hc
    rw [List.foldlM_cons] at h
    cases e1 : draw_bit x_pos y_pos pixel i s j with
    | none =>
      rw [e1] at h
      exact Option.noConfusion h
    | some s1 =>
      rw [e1] at h
      simp only [row_targets, e1] at hc
      rcases List.mem_append.1 hc with hc | hc
      · by_cases hb : pixel &&& (0x80 >>> j) ≠ 0
        · rw [if_pos hb] at hc
          rw [List.mem_singleton.1 hc]
          exact draw_bit_target_cpp x_pos y_pos pixel i s j s1 e1 hb
        · rw [if_neg hb] at hc
          exact absurd hc (List.not_mem_nil c)
      · exact ih s1 s' h c hc

/-- In `chip8.cpp`, a drawing loop that has a result performed all its framebuffer
subscripts in range. -/
theorem rows_targets_in_range_cpp (x_pos y_pos : Nat) : ∀ (rows : List Nat) (s s' : Chip8),
    rows.foldlM (draw_row x_pos y_pos) s = some s' →
    ∀ c ∈ rows_targets x_pos y_pos rows s, c < DISPLAY_SIZE := by
  intro rows
  induction rows with
  | nil =>
    intro s s' _ c hc
    simp [rows_targets] at hc
  | cons i rows ih =>
    intro s s' h c hc
    rw [List.foldlM_cons] at h
    cases e1 : draw_row x_pos y_pos s i with
    | none =>
      rw [e1] at h
      exact Option.noConfusion h
    | some s1 =>
      rw [e1] at h
      simp only [rows_targets, e1] at hc
      rcases List.mem_append.1 hc with hc | hc
      · have e2 := e1
        unfold draw_row at e2
        split at e2
        · exact row_targets_in_range_cpp x_pos y_pos _ i (List.range 8) s s1 e2 c hc
        · exact Option.noConfusion e2
      · exact ih s1 s' h c hc

/-- In `chip8.cpp`, a step with `Dxyn` at `pc` is the drawing loop on the state after
the fetch with `VF` cleared, followed by setting the draw flag. -/
theorem step_draw_cpp (rnd : Nat) (s : Chip8) (hpc : s.pc + 1 < MEMORY_SIZE)
    (hD : fetch s.memory s.pc &&& 0xF000 = 0xD000) :
    execute_instruction rnd s =
      ((List.range (fetch s.memory s.pc &&& 0x000F)).foldlM
        (draw_row (s.registers ((fetch s.memory s.pc &&& 0x0F00) >>> 8))
          (s.registers ((fetch s.memory s.pc &&& 0x00F0) >>> 4)))
        { s with pc := u16 (s.pc + 2), registers := aset s.registers 0xF 0 }).map
        (fun s2 => { s2 with draw_flag := true }) := by
  unfold execute_instruction
  rw [if_pos hpc]
  unfold fetch at hD ⊢
  dsimp only
  generalize u16 (s.memory s.pc <<< 8 ||| s.memory (s.pc + 1)) = opc at hD ⊢
  simp only [hD]
  simp only [show ¬ ((0xD000 : Nat) = 0x0000) by decide,
    show ¬ ((0xD000 : Nat) = 0x1000) by decide, show ¬ ((0xD000 : Nat) = 0x2000) by decide,
    show ¬ ((0xD000 : Nat) = 0x3000) by decide, show ¬ ((0xD000 : Nat) = 0x4000) by decide,
    show ¬ ((0xD000 : Nat) = 0x5000) by decide, show ¬ ((0xD000 : Nat) = 0x6000) by decide,
    show ¬ ((0xD000 : Nat) = 0x7000) by decide, show ¬ ((0xD000 : Nat) = 0x8000) by decide,
    show ¬ ((0xD000 : Nat) = 0x9000) by decide, show ¬ ((0xD000 : Nat) = 0xA000) by decide,
    show ¬ ((0xD000 : Nat) = 0xB000) by decide, show ¬ ((0xD000 : Nat) = 0xC000) by decide,
    if_false, if_true]

/-- In `chip8.cpp`, a step that has a result performed all its framebuffer subscripts
in range. -/
theorem step_targets_in_range_cpp (rnd : Nat) (s s' : Chip8)
    (h : execute_instruction rnd s = some s') : ∀ c ∈ draw_targets s, c < DISPLAY_SIZE := by
  intro c hc
  unfold draw_targets at hc
  by_cases hD : fetch s.memory s.pc &&& 0xF000 = 0xD000
  · rw [if_pos hD] at hc
    have hpc : s.pc + 1 < MEMORY_SIZE := by
      by_contra hn
      unfold execute_instruction at h
      rw [if_neg hn] at h
      exact Option.noConfusion h
    rw [step_draw_cpp rnd s hpc hD] at h
    cases e : (List.range (fetch s.memory s.pc &&& 0x000F)).foldlM
        (draw_row (s.registers ((fetch s.memory s.pc &&& 0x0F00) >>> 8))
          (s.registers ((fetch s.memory s.pc &&& 0x00F0) >>> 4)))
        { s with pc := u16 (s.pc + 2), registers := aset s.registers 0xF 0 } with
    | none =>
      rw [e] at h
      exact Option.noConfusion h
    | some s2 => exact rows_targets_in_range_cpp _ _ _ _ s2 e c hc
  · rw [if_neg hD] at hc
    exact absurd hc (List.not_mem_nil c)

/-- In `chip8.cpp`, a step that has a result performed its key subscript in range. -/
theorem step_key_in_range_cpp (rnd : Nat) (s s' : Chip8)
    (h : execute_instruction rnd s = some s') :
    key_in_range (fetch s.memory s.pc)
      (s.registers ((fetch s.memory s.pc &&& 0x0F00) >>> 8)) := by
  intro cE hk
  by_contra hlt
  unfold execute_instruction at h
  by_cases hpc : s.pc + 1 < MEMORY_SIZE
  swap
  · rw [if_neg hpc] at h
    exact Option.noConfusion h
  rw [if_pos hpc] at h
  unfold fetch at cE hk hlt
  dsimp only at h
  generalize u16 (s.memory s.pc <<< 8 ||| s.memory (s.pc + 1)) = opc at cE hk hlt h
  simp only [cE] at h
  simp only [show ¬ ((0xE000 : Nat) = 0x0000) by decide,
    show ¬ ((0xE000 : Nat) = 0x1000) by decide, show ¬ ((0xE000 : Nat) = 0x2000) by decide,
    show ¬ ((0xE000 : Nat) = 0x3000) by decide, show ¬ ((0xE000 : Nat) = 0x4000) by decide,
    show ¬ ((0xE000 : Nat) = 0x5000) by decide, show ¬ ((0xE000 : Nat) = 0x6000) by decide,
    show ¬ ((0xE000 : Nat) = 0x7000) by decide, show ¬ ((0xE000 : Nat) = 0x8000) by decide,
    show ¬ ((0xE000 : Nat) = 0x9000) by decide, show ¬ ((0xE000 : Nat) = 0xA000) by decide,
    show ¬ ((0xE000 : Nat) = 0xB000) by decide, show ¬ ((0xE000 : Nat) = 0xC000) by decide,
    show ¬ ((0xE000 : Nat) = 0xD000) by decide, if_false, if_true] at h
  rcases hk with k | k
  · simp only [k, if_true] at h
    rw [if_neg hlt] at h
    exact Option.noConfusion h
  · simp only [k, show ¬ ((0xA1 : Nat) = 0x9E) by decide, if_false, if_true] at h
    rw [if_neg hlt] at h
    exact Option.noConfusion h

/-- In `chip8.cpp`, a return that has a result found the stack not empty. -/
theorem step_ret_in_range_cpp (rnd : Nat) (s s' : Chip8)
    (h : execute_instruction rnd s = some s')
    (cEE : fetch s.memory s.pc = 0x00EE) : s.stack ≠ [] := by
  intro hs
  unfold execute_instruction at h
  by_cases hpc : s.pc + 1 < MEMORY_SIZE
  swap
  · rw [if_neg hpc] at h
    exact Option.noConfusion h
  rw [if_pos hpc] at h
  unfold fetch at cEE
  dsimp only at h
  generalize u16 (s.memory s.pc <<< 8 ||| s.memory (s.pc + 1)) = opc at cEE h
  subst cEE
  simp only [show (0x00EE : Nat) &&& 0xF000 = 0 by decide,
    show ¬ ((0x00EE : Nat) = 0x00E0) by decide, if_false, if_true] at h
  rw [hs] at h
  exact Option.noConfusion h

/-- In `chip8.cpp`, a step has a result exactly when all its array subscripts are in
range. -/
theorem step_defined_iff_cpp (rnd : Nat) (s : Chip8) :
    (∃ s', execute_instruction rnd s = some s') ↔ subscripts_in_range s := by
  constructor
  · rintro ⟨s', h⟩
    refine ⟨?_, step_key_in_range_cpp rnd s s' h, step_ret_in_range_cpp rnd s s' h,
      step_targets_in_range_cpp rnd s s' h⟩
    intro a ha
    by_contra hge
    have hn := mem_oob_undefined_cpp rnd s ⟨a, ha, Nat.le_of_not_lt hge⟩
    rw [hn] at h
    exact Option.noConfusion h
  · exact step_in_range_defined_cpp rnd s

end StdStack.Chip8

/-! ## Memory addresses of a step: the exact bounds -/

/-- The memory subscripts of a step are all in range exactly when `pc + 1 < 4096`
and the last address of the instruction at `pc` is in range: `index + n - 1` for
`Dxyn` with `n > 0`, `index + 2` for `Fx33`, `index + x` for `Fx55`/`Fx65`. -/
theorem mem_accesses_in_range_iff (memory : Nat → Nat) (pc index : Nat) :
    (∀ a ∈ mem_accesses memory pc index, a < MEMORY_SIZE) ↔
      (pc + 1 < MEMORY_SIZE ∧
        (fetch memory pc &&& 0xF000 = 0xD000 → 0 < fetch memory pc &&& 0x000F →
          index + (fetch memory pc &&& 0x000F) ≤ MEMORY_SIZE) ∧
        (fetch memory pc &&& 0xF000 = 0xF000 → fetch memory pc &&& 0x00FF = 0x33 →
          index + 2 < MEMORY_SIZE) ∧
        (fetch memory pc &&& 0xF000 = 0xF000 →
          fetch memory pc &&& 0x00FF = 0x55 ∨ fetch memory pc &&& 0x00FF = 0x65 →
          index + ((fetch memory pc &&& 0x0F00) >>> 8) < MEMORY_SIZE)) := by
  generalize hop : fetch memory pc = opc
  constructor
  · intro h
    have hpc : pc + 1 < MEMORY_SIZE := h (pc + 1) (by simp [mem_accesses])
    unfold mem_accesses at h
    rw [if_pos hpc, hop] at h
    refine ⟨hpc, ?_, ?_, ?_⟩
    · intro cD hn
      rw [if_pos cD] at h
      have := h (index + ((opc &&& 0x000F) - 1))
        (List.mem_append_right _
          (List.mem_map.2 ⟨(opc &&& 0x000F) - 1, List.mem_range.2 (by omega), rfl⟩))
      omega
    · intro cF k33
      have cD : ¬ opc &&& 0xF000 = 0xD000 := by rw [cF]; decide
      rw [if_neg cD, if_pos cF, if_pos k33] at h
      exact h (index + 2) (by simp)
    · intro cF k5
      have cD : ¬ opc &&& 0xF000 = 0xD000 := by rw [cF]; decide
      have k33 : ¬ opc &&& 0x00FF = 0x33 := by
        rcases k5 with k | k <;> rw [k] <;> decide
      rw [if_neg cD, if_pos cF, if_neg k33, if_pos k5] at h
      exact h (index + ((opc &&& 0x0F00) >>> 8))
        (List.mem_append_right _
          (List.mem_map.2 ⟨(opc &&& 0x0F00) >>> 8, List.mem_range.2 (by omega), rfl⟩))
  · rintro ⟨hpc, hD, h33, h5⟩ a ha
    unfold mem_accesses at ha
    rw [if_pos hpc, hop] at ha
    rcases List.mem_append.1 ha with h | h
    · simp only [List.mem_cons, List.mem_singleton, List.not_mem_nil, or_false] at h
      omega
    · by_cases cD : opc &&& 0xF000 = 0xD000
      · rw [if_pos cD] at h
        obtain ⟨i, hi, rfl⟩ := List.mem_map.1 h
        have hi' := List.mem_range.1 hi
        have := hD cD (by omega)
        omega
      · rw [if_neg cD] at h
        by_cases cF : opc &&& 0xF000 = 0xF000
        · rw [if_pos cF] at h
          by_cases k33 : opc &&& 0x00FF = 0x33
          · rw [if_pos k33] at h
            have := h33 cF k33
            simp only [List.mem_cons, List.mem_singleton, List.not_mem_nil, or_false] at h
            omega
          · rw [if_neg k33] at h
            by_cases k5 : opc &&& 0x00FF = 0x55 ∨ opc &&& 0x00FF = 0x65
            · rw [if_pos k5] at h
              obtain ⟨i, hi, rfl⟩ := List.mem_map.1 h
              have hi' := List.mem_range.1 hi
              have := h5 cF k5
              omega
            · rw [if_neg k5] at h
              exact absurd h (List.not_mem_nil a)
        · rw [if_neg cF] at h
          exact absurd h (List.not_mem_nil a)

/-- C24 (amended): in both variants the memory subscripts of one
`execute_instruction` are the fetch at `pc` and `pc + 1`, the `Dxyn` rows at
`index + i` for `i < n`, the `Fx33` stores at `index`, `index + 1`, `index + 2` and
the `Fx55`/`Fx65` accesses at `index + i` for `i ≤ x`: the step has a result
exactly when these and the subscripts of the other arrays are in range.  None of
them is checked or reduced modulo 4096: when one is 4096 or more the step has no
defined result.  They are all below 4096 exactly when `pc + 1 < 4096` and
`index + n ≤ 4096` for `Dxyn` with `n > 0`, `index + 2 < 4096` for `Fx33`,
`index + x < 4096` for `Fx55`/`Fx65`. -/
theorem memory_addresses_unchecked :
    (∀ (rnd : Nat) (s : ArrayStack.Chip8),
      ((∃ s', ArrayStack.Chip8.execute_instruction rnd s = some s') ↔
        ArrayStack.Chip8.subscripts_in_range s) ∧
      ((∃ a ∈ mem_accesses s.memory s.pc s.index, MEMORY_SIZE ≤ a) →
        ArrayStack.Chip8.execute_instruction rnd s = none) ∧
      ((∀ a ∈ mem_accesses s.memory s.pc s.index, a < MEMORY_SIZE) ↔
        (s.pc + 1 < MEMORY_SIZE ∧
          (fetch s.memory s.pc &&& 0xF000 = 0xD000 → 0 < fetch s.memory s.pc &&& 0x000F →
            s.index + (fetch s.memory s.pc &&& 0x000F) ≤ MEMORY_SIZE) ∧
          (fetch s.memory s.pc &&& 0xF000 = 0xF000 → fetch s.memory s.pc &&& 0x00FF = 0x33 →
            s.index + 2 < MEMORY_SIZE) ∧
          (fetch s.memory s.pc &&& 0xF000 = 0xF000 →
            fetch s.memory s.pc &&& 0x00FF = 0x55 ∨ fetch s.memory s.pc &&& 0x00FF = 0x65 →
            s.index + ((fetch s.memory s.pc &&& 0x0F00) >>> 8) < MEMORY_SIZE)))) ∧
    (∀ (rnd : Nat) (s : StdStack.Chip8),
      ((∃ s', StdStack.Chip8.execute_instruction rnd s = some s') ↔
        StdStack.Chip8.subscripts_in_range s) ∧
      ((∃ a ∈ mem_accesses s.memory s.pc s.index, MEMORY_SIZE ≤ a) →
        StdStack.Chip8.execute_instruction rnd s = none) ∧
      ((∀ a ∈ mem_accesses s.memory s.pc s.index, a < MEMORY_SIZE) ↔
        (s.pc + 1 < MEMORY_SIZE ∧
          (fetch s.memory s.pc &&& 0xF000 = 0xD000 → 0 < fetch s.memory s.pc &&& 0x000F →
            s.index + (fetch s.memory s.pc &&& 0x000F) ≤ MEMORY_SIZE) ∧
          (fetch s.memory s.pc &&& 0xF000 = 0xF000 → fetch s.memory s.pc &&& 0x00FF = 0x33 →
            s.index + 2 < MEMORY_SIZE) ∧
          (fetch s.memory s.pc &&& 0xF000 = 0xF000 →
            fetch s.memory s.pc &&& 0x00FF = 0x55 ∨ fetch s.memory s.pc &&& 0x00FF = 0x65 →
            s.index + ((fetch s.memory s.pc &&& 0x0F00) >>> 8) < MEMORY_SIZE)))) :=
  ⟨fun rnd s => ⟨ArrayStack.Chip8.step_defined_iff_cc rnd s,
      ArrayStack.Chip8.mem_oob_undefined_cc rnd s,
      mem_accesses_in_range_iff s.memory s.pc s.index⟩,
    fun rnd s => ⟨StdStack.Chip8.step_defined_iff_cpp rnd s,
      StdStack.Chip8.mem_oob_undefined_cpp rnd s,
      mem_accesses_in_range_iff s.memory s.pc s.index⟩⟩

/-- Instance of `memory_addresses_unchecked`: `F233` with `index = 4093` stores at
4093, 4094, 4095 and has a result, although `index + 15` is past the end of
memory; the machine with `pc = 0xFFF` fetches from `memory[4096]` and has
none. -/
theorem memory_addresses_unchecked_witness :
    (mem_accesses ArrayStack.Chip8.bcd_high_example.memory ArrayStack.Chip8.bcd_high_example.pc
        ArrayStack.Chip8.bcd_high_example.index = [512, 513, 4093, 4094, 4095] ∧
      ArrayStack.Chip8.subscripts_in_range ArrayStack.Chip8.bcd_high_example ∧
      (∃ s', ArrayStack.Chip8.execute_instruction 0 ArrayStack.Chip8.bcd_high_example
        = some s') ∧
      (∃ a ∈ mem_accesses ArrayStack.Chip8.end_example.memory ArrayStack.Chip8.end_example.pc
          ArrayStack.Chip8.end_example.index, MEMORY_SIZE ≤ a) ∧
      ArrayStack.Chip8.execute_instruction 0 ArrayStack.Chip8.end_example = none) ∧
    (mem_accesses StdStack.Chip8.bcd_high_example.memory StdStack.Chip8.bcd_high_example.pc
        StdStack.Chip8.bcd_high_example.index = [512, 513, 4093, 4094, 4095] ∧
      StdStack.Chip8.subscripts_in_range StdStack.Chip8.bcd_high_example ∧
      (∃ s', StdStack.Chip8.execute_instruction 0 StdStack.Chip8.bcd_high_example
        = some s') ∧
      (∃ a ∈ mem_accesses StdStack.Chip8.end_example.memory StdStack.Chip8.end_example.pc
          StdStack.Chip8.end_example.index, MEMORY_SIZE ≤ a) ∧
      StdStack.Chip8.execute_instruction 0 StdStack.Chip8.end_example = none) :=
  ⟨⟨by decide, by decide,
      (memory_addresses_unchecked.1 0 ArrayStack.Chip8.bcd_high_example).1.2 (by decide),
      ⟨4096, by decide, by decide⟩,
      (memory_addresses_unchecked.1 0 ArrayStack.Chip8.end_example).2.1
        ⟨4096, by decide, by decide⟩⟩,
    ⟨by decide, by decide,
      (memory_addresses_unchecked.2 0 StdStack.Chip8.bcd_high_example).1.2 (by decide),
      ⟨4096, by decide, by decide⟩,
      (memory_addresses_unchecked.2 0 StdStack.Chip8.end_example).2.1
        ⟨4096, by decide, by decide⟩⟩⟩

/-! ## The framebuffer invariant and the draw flag -/

/-- C25 (counterexample): in the states with `F255` at `pc = 512`, `V0 .. V3 =
7 .. 10` and `index = 0xFFF` every framebuffer cell is 0 and the step has no draw
target, but its stores go to `memory[4095]`, `memory[4096]`, `memory[4097]`: the
second and third are behind the end of `memory`, unchecked, and the step has no
defined result in which the cells are still 0 or 1.  Likewise `handle_keypress`
with key 16 subscripts `keys[16]`. -/
theorem framebuffer_invariant_step_out_of_range :
    (binary_display ArrayStack.Chip8.store_end_example.display ∧
      fetch ArrayStack.Chip8.store_end_example.memory ArrayStack.Chip8.store_end_example.pc = 0xF255 ∧
      ArrayStack.Chip8.draw_targets ArrayStack.Chip8.store_end_example = [] ∧
      mem_accesses ArrayStack.Chip8.store_end_example.memory ArrayStack.Chip8.store_end_example.pc
        ArrayStack.Chip8.store_end_example.index = [512, 513, 4095, 4096, 4097] ∧
      ArrayStack.Chip8.execute_instruction 0 ArrayStack.Chip8.store_end_example = none ∧
      ArrayStack.Chip8.handle_keypress 16 ArrayStack.Chip8.new = none) ∧
    (binary_display StdStack.Chip8.store_end_example.pixels ∧
      fetch StdStack.Chip8.store_end_example.memory StdStack.Chip8.store_end_example.pc = 0xF255 ∧
      StdStack.Chip8.draw_targets StdStack.Chip8.store_end_example = [] ∧
      mem_accesses StdStack.Chip8.store_end_example.memory StdStack.Chip8.store_end_example.pc
        StdStack.Chip8.store_end_example.index = [512, 513, 4095, 4096, 4097] ∧
      StdStack.Chip8.execute_instruction 0 StdStack.Chip8.store_end_example = none ∧
      StdStack.Chip8.handle_keypress 16 StdStack.Chip8.new = none) :=
  ⟨⟨fun _ _ => Or.inl rfl, by decide, by decide, by decide, rfl, rfl⟩,
    ⟨fun _ _ => Or.inl rfl, by decide, by decide, by decide, rfl, rfl⟩⟩

/-- C25 (amended): in both variants, "every framebuffer cell is 0 or 1" holds in
the constructed state; every `execute_instruction` whose array subscripts are all
in range (memory, keys, stack and the draw targets) has a result in which it holds
again, with `VF` 0 or 1 after a `Dxyn`; `decrement_timers` and `set_draw_flag`
keep it, and `handle_keypress` with a key below 16 has a result that keeps it. -/
theorem framebuffer_cells_binary :
    (binary_display ArrayStack.Chip8.new.display ∧
      (∀ (rnd : Nat) (s : ArrayStack.Chip8), binary_display s.display →
        ArrayStack.Chip8.subscripts_in_range s →
        ∃ s', ArrayStack.Chip8.execute_instruction rnd s = some s' ∧ binary_display s'.display ∧
          (fetch s.memory s.pc &&& 0xF000 = 0xD000 →
            s'.registers 0xF = 0 ∨ s'.registers 0xF = 1)) ∧
      (∀ s : ArrayStack.Chip8, binary_display s.display →
        binary_display (ArrayStack.Chip8.decrement_timers s).display) ∧
      (∀ (key : Nat) (s : ArrayStack.Chip8), binary_display s.display → key < NUM_KEYS →
        ∃ s', ArrayStack.Chip8.handle_keypress key s = some s' ∧ binary_display s'.display) ∧
      (∀ (v : Bool) (s : ArrayStack.Chip8), binary_display s.display →
        binary_display (ArrayStack.Chip8.set_draw_flag v s).display)) ∧
    (binary_display StdStack.Chip8.new.pixels ∧
      (∀ (rnd : Nat) (s : StdStack.Chip8), binary_display s.pixels →
        StdStack.Chip8.subscripts_in_range s →
        ∃ s', StdStack.Chip8.execute_instruction rnd s = some s' ∧ binary_display s'.pixels ∧
          (fetch s.memory s.pc &&& 0xF000 = 0xD000 →
            s'.registers 0xF = 0 ∨ s'.registers 0xF = 1)) ∧
      (∀ s : StdStack.Chip8, binary_display s.pixels →
        binary_display (StdStack.Chip8.decrement_timers s).pixels) ∧
      (∀ (key : Nat) (s : StdStack.Chip8), binary_display s.pixels → key < NUM_KEYS →
        ∃ s', StdStack.Chip8.handle_keypress key s = some s' ∧ binary_display s'.pixels) ∧
      (∀ (v : Bool) (s : StdStack.Chip8), binary_display s.pixels →
        binary_display (StdStack.Chip8.set_draw_flag v s).pixels)) := by
  constructor
  · refine ⟨fun _ _ => Or.inl rfl, ?_, ?_, ?_, fun _ _ hb => hb⟩
    · intro rnd s hb hr
      obtain ⟨s', h⟩ := ArrayStack.Chip8.step_in_range_defined_cc rnd s hr
      refine ⟨s', h, ?_, ?_⟩
      · rcases ArrayStack.Chip8.step_frame_cc rnd s s' h with
          ⟨-, -, hd, -⟩ | ⟨-, hd, -⟩ | ⟨-, -, hd⟩
        · rw [hd]; exact hb
        · rw [hd]; exact fun _ _ => Or.inl rfl
        · exact (hd hb).1
      · intro hD
        rcases ArrayStack.Chip8.step_frame_cc rnd s s' h with ⟨hn, -⟩ | ⟨he, -⟩ | ⟨-, -, hd⟩
        · exact absurd hD hn
        · rw [he] at hD; exact absurd hD (by decide)
        · exact (hd hb).2
    · intro s hb
      have : (ArrayStack.Chip8.decrement_timers s).display = s.display := by
        unfold ArrayStack.Chip8.decrement_timers
        dsimp only
        repeat' split
        all_goals rfl
      rw [this]; exact hb
    · intro key s hb hk
      unfold ArrayStack.Chip8.handle_keypress
      rw [if_pos hk]
      exact ⟨_, rfl, hb⟩
  · refine ⟨fun _ _ => Or.inl rfl, ?_, ?_, ?_, fun _ _ hb => hb⟩
    · intro rnd s hb hr
      obtain ⟨s', h⟩ := StdStack.Chip8.step_in_range_defined_cpp rnd s hr
      refine ⟨s', h, ?_, ?_⟩
      · rcases StdStack.Chip8.step_frame_cpp rnd s s' h with
          ⟨-, -, hd, -⟩ | ⟨-, hd, -⟩ | ⟨-, -, hd⟩
        · rw [hd]; exact hb
        · rw [hd]; exact fun _ _ => Or.inl rfl
        · exact (hd hb).1
      · intro hD
        rcases StdStack.Chip8.step_frame_cpp rnd s s' h with ⟨hn, -⟩ | ⟨he, -⟩ | ⟨-, -, hd⟩
        · exact absurd hD hn
        · rw [he] at hD; exact absurd hD (by decide)
        · exact (hd hb).2
    · intro s hb
      have : (StdStack.Chip8.decrement_timers s).pixels = s.pixels := by
        unfold StdStack.Chip8.decrement_timers
        dsimp only
        repeat' split
        all_goals rfl
      rw [this]; exact hb
    · intro key s hb hk
      unfold StdStack.Chip8.handle_keypress
      rw [if_pos hk]
      exact ⟨_, rfl, hb⟩

/-- Instance of `framebuffer_cells_binary` at the two `dot_example` states (`D011`
with the single target cell 204): every subscript of the step is in range, the
step has a result whose cells and `VF` are 0 or 1, and so has a press of key 5. -/
theorem framebuffer_cells_binary_witness :
    (binary_display ArrayStack.Chip8.dot_example.display ∧
      ArrayStack.Chip8.draw_targets ArrayStack.Chip8.dot_example = [204] ∧
      ArrayStack.Chip8.subscripts_in_range ArrayStack.Chip8.dot_example ∧
      (∃ s', ArrayStack.Chip8.execute_instruction 0 ArrayStack.Chip8.dot_example = some s' ∧
        binary_display s'.display ∧ (s'.registers 0xF = 0 ∨ s'.registers 0xF = 1)) ∧
      ∃ s', ArrayStack.Chip8.handle_keypress 5 ArrayStack.Chip8.dot_example = some s' ∧
        binary_display s'.display) ∧
    (binary_display StdStack.Chip8.dot_example.pixels ∧
      StdStack.Chip8.draw_targets StdStack.Chip8.dot_example = [204] ∧
      StdStack.Chip8.subscripts_in_range StdStack.Chip8.dot_example ∧
      (∃ s', StdStack.Chip8.execute_instruction 0 StdStack.Chip8.dot_example = some s' ∧
        binary_display s'.pixels ∧ (s'.registers 0xF = 0 ∨ s'.registers 0xF = 1)) ∧
      ∃ s', StdStack.Chip8.handle_keypress 5 StdStack.Chip8.dot_example = some s' ∧
        binary_display s'.pixels) := by
  constructor
  · have hb : binary_display ArrayStack.Chip8.dot_example.display := fun _ _ => Or.inl rfl
    obtain ⟨s', e, hd, hv⟩ :=
      framebuffer_cells_binary.1.2.1 0 ArrayStack.Chip8.dot_example hb (by decide)
    exact ⟨hb, by decide, by decide, ⟨s', e, hd, hv (by decide)⟩,
      framebuffer_cells_binary.1.2.2.2.1 5 ArrayStack.Chip8.dot_example hb (by decide)⟩
  · have hb : binary_display StdStack.Chip8.dot_example.pixels := fun _ _ => Or.inl rfl
    obtain ⟨s', e, hd, hv⟩ :=
      framebuffer_cells_binary.2.2.1 0 StdStack.Chip8.dot_example hb (by decide)
    exact ⟨hb, by decide, by decide, ⟨s', e, hd, hv (by decide)⟩,
      framebuffer_cells_binary.2.2.2.2.1 5 StdStack.Chip8.dot_example hb (by decide)⟩

/-- C26 (counterexample): in the states with `F255` at `pc = 512` and
`index = 0xFFF` the draw flag is false and the opcode is neither `00E0` nor `Dxyn`,
but the stores of the step go to `memory[4095]`, `memory[4096]`, `memory[4097]`,
behind the end of `memory` and unchecked: the step has no defined result, so none
in which the framebuffer is as before. -/
theorem draw_flag_step_out_of_range :
    (ArrayStack.Chip8.store_end_example.draw_flag = false ∧
      fetch ArrayStack.Chip8.store_end_example.memory ArrayStack.Chip8.store_end_example.pc = 0xF255 ∧
      mem_accesses ArrayStack.Chip8.store_end_example.memory ArrayStack.Chip8.store_end_example.pc
        ArrayStack.Chip8.store_end_example.index = [512, 513, 4095, 4096, 4097] ∧
      ¬ ArrayStack.Chip8.subscripts_in_range ArrayStack.Chip8.store_end_example ∧
      ArrayStack.Chip8.execute_instruction 0 ArrayStack.Chip8.store_end_example = none) ∧
    (StdStack.Chip8.store_end_example.draw_flag = false ∧
      fetch StdStack.Chip8.store_end_example.memory StdStack.Chip8.store_end_example.pc = 0xF255 ∧
      mem_accesses StdStack.Chip8.store_end_example.memory StdStack.Chip8.store_end_example.pc
        StdStack.Chip8.store_end_example.index = [512, 513, 4095, 4096, 4097] ∧
      ¬ StdStack.Chip8.subscripts_in_range StdStack.Chip8.store_end_example ∧
      StdStack.Chip8.execute_instruction 0 StdStack.Chip8.store_end_example = none) :=
  ⟨⟨rfl, by decide, by decide, by decide, rfl⟩, ⟨rfl, by decide, by decide, by decide, rfl⟩⟩

/-- C26 (amended): in both variants, every `execute_instruction` whose array
subscripts are all in range has a result; in it the draw flag has not gone from
true to false; if the framebuffer differs from the one before the step, the flag
is true; an opcode other than `00E0` and `Dxyn` leaves the framebuffer as it was,
and `00E0` and `Dxyn` set the flag. -/
theorem draw_flag_follows_framebuffer :
    (∀ (rnd : Nat) (s : ArrayStack.Chip8), ArrayStack.Chip8.subscripts_in_range s →
      ∃ s', ArrayStack.Chip8.execute_instruction rnd s = some s' ∧
        (s.draw_flag = true → s'.draw_flag = true) ∧
        (s'.display ≠ s.display → s'.draw_flag = true) ∧
        (fetch s.memory s.pc ≠ 0x00E0 → fetch s.memory s.pc &&& 0xF000 ≠ 0xD000 →
          s'.display = s.display) ∧
        (fetch s.memory s.pc = 0x00E0 ∨ fetch s.memory s.pc &&& 0xF000 = 0xD000 →
          s'.draw_flag = true)) ∧
    (∀ (rnd : Nat) (s : StdStack.Chip8), StdStack.Chip8.subscripts_in_range s →
      ∃ s', StdStack.Chip8.execute_instruction rnd s = some s' ∧
        (s.draw_flag = true → s'.draw_flag = true) ∧
        (s'.pixels ≠ s.pixels → s'.draw_flag = true) ∧
        (fetch s.memory s.pc ≠ 0x00E0 → fetch s.memory s.pc &&& 0xF000 ≠ 0xD000 →
          s'.pixels = s.pixels) ∧
        (fetch s.memory s.pc = 0x00E0 ∨ fetch s.memory s.pc &&& 0xF000 = 0xD000 →
          s'.draw_flag = true)) := by
  constructor
  · intro rnd s hr
    obtain ⟨s', h⟩ := ArrayStack.Chip8.step_in_range_defined_cc rnd s hr
    refine ⟨s', h, ?_⟩
    rcases ArrayStack.Chip8.step_frame_cc rnd s s' h with
      ⟨hn, he, hd, hf⟩ | ⟨he, hd, hf⟩ | ⟨hD, hf, -⟩
    · refine ⟨fun ht => by rw [hf]; exact ht, fun hne => absurd hd hne, fun _ _ => hd, ?_⟩
      rintro (h1 | h1)
      · exact absurd h1 he
      · exact absurd h1 hn
    · exact ⟨fun _ => hf, fun _ => hf, fun h1 _ => absurd he h1, fun _ => hf⟩
    · exact ⟨fun _ => hf, fun _ => hf, fun _ h2 => absurd hD h2, fun _ => hf⟩
  · intro rnd s hr
    obtain ⟨s', h⟩ := StdStack.Chip8.step_in_range_defined_cpp rnd s hr
    refine ⟨s', h, ?_⟩
    rcases StdStack.Chip8.step_frame_cpp rnd s s' h with
      ⟨hn, he, hd, hf⟩ | ⟨he, hd, hf⟩ | ⟨hD, hf, -⟩
    · refine ⟨fun ht => by rw [hf]; exact ht, fun hne => absurd hd hne, fun _ _ => hd, ?_⟩
      rintro (h1 | h1)
      · exact absurd h1 he
      · exact absurd h1 hn
    · exact ⟨fun _ => hf, fun _ => hf, fun h1 _ => absurd he h1, fun _ => hf⟩
    · exact ⟨fun _ => hf, fun _ => hf, fun _ h2 => absurd hD h2, fun _ => hf⟩

/-- Instance of `draw_flag_follows_framebuffer` at the two `dot_example` states:
every subscript of the `D011` step is in range, the flag is false before the step
and true after it. -/
theorem draw_flag_follows_framebuffer_witness :
    (ArrayStack.Chip8.dot_example.draw_flag = false ∧
      ArrayStack.Chip8.subscripts_in_range ArrayStack.Chip8.dot_example ∧
      ∃ s', ArrayStack.Chip8.execute_instruction 0 ArrayStack.Chip8.dot_example = some s' ∧
        s'.draw_flag = true) ∧
    (StdStack.Chip8.dot_example.draw_flag = false ∧
      StdStack.Chip8.subscripts_in_range StdStack.Chip8.dot_example ∧
      ∃ s', StdStack.Chip8.execute_instruction 0 StdStack.Chip8.dot_example = some s' ∧
        s'.draw_flag = true) := by
  constructor
  · obtain ⟨s', e, -, -, -, hf⟩ :=
      draw_flag_follows_framebuffer.1 0 ArrayStack.Chip8.dot_example (by decide)
    exact ⟨rfl, by decide, s', e, hf (Or.inr (by decide))⟩
  · obtain ⟨s', e, -, -, -, hf⟩ :=
      draw_flag_follows_framebuffer.2 0 StdStack.Chip8.dot_example (by decide)
    exact ⟨rfl, by decide, s', e, hf (Or.inr (by decide))⟩
